import Mathlib

/-!
Verification of the stochastic address manager (`addrman`): a shallow
embedding of `CAddrInfo` / `CAddrMan` (addrman.cpp, addrman.h) together with
proofs of the specified properties.

Modelling conventions:
* C++ machine integers that carry times, counters and ids are embedded as
  `Int` / `Nat`; overflow is immaterial for every property proved here
  (the relevant quantities are small or invariant-bounded).
* The two bucket arrays `vvNew[1024][64]` and `vvTried[256][64]` are embedded
  as functions `Nat → Nat → Option Nat`, `none` standing for the `-1`
  sentinel; only indices below the bucket counts are ever touched.
* `std::map<int, CAddrInfo> mapInfo` and `std::map<CNetAddr, int> mapAddr`
  are embedded as functions into `Option`; `m_tried_collisions` (a
  `std::set<int>`) as a sorted duplicate-free list.
* Randomness (`insecure_rand`) is an oracle: every random draw consumed by
  an operation is an explicit argument.
-/

/-- Modelled from the spec: a network address (`CNetAddr`, netaddress.h, not
among the sources). `group` is the value of `GetGroup(asmap)` (the ASN or
/16-equivalent class — an attribute of the address once the group map is
fixed), `routable` the value of `IsRoutable()`, `valid` of `IsValid()`. -/
structure CNetAddr where
  ip : Nat
  group : Nat
  routable : Bool
  valid : Bool
deriving DecidableEq

/-- Modelled from the spec: `CService` = network address plus port. -/
structure CService extends CNetAddr where
  port : Nat
deriving DecidableEq

/-- Modelled from the spec: `CAddress` = service plus service bits and the
advertised timestamp `nTime` (a `uint32_t` in the source; embedded as `Int`
since all arithmetic on it is performed at `int64_t`). -/
structure CAddress extends CService where
  nServices : Nat
  nTime : Int
deriving DecidableEq

/-- Extended statistics about a CAddress (`CAddrInfo`). -/
structure CAddrInfo extends CAddress where
  /-- where knowledge about this address first came from -/
  source : CNetAddr
  /-- last try whatsoever by us (memory only) -/
  nLastTry : Int := 0
  /-- last counted attempt (memory only) -/
  nLastCountAttempt : Int := 0
  /-- last successful connection by us -/
  nLastSuccess : Int := 0
  /-- connection attempts since last successful attempt -/
  nAttempts : Int := 0
  /-- reference count in new sets (memory only) -/
  nRefCount : Int := 0
  /-- in tried set? (memory only) -/
  fInTried : Bool := false
  /-- position in vRandom -/
  nRandomPos : Int := -1
deriving DecidableEq

-- Bucket parameters (addrman.h).

def ADDRMAN_TRIED_BUCKET_COUNT : Nat := 1 <<< 8
def ADDRMAN_NEW_BUCKET_COUNT : Nat := 1 <<< 10
def ADDRMAN_BUCKET_SIZE : Nat := 1 <<< 6
def ADDRMAN_TRIED_BUCKETS_PER_GROUP : Nat := 8
def ADDRMAN_NEW_BUCKETS_PER_SOURCE_GROUP : Nat := 64
def ADDRMAN_NEW_BUCKETS_PER_ADDRESS : Int := 8
def ADDRMAN_HORIZON_DAYS : Int := 30
def ADDRMAN_RETRIES : Int := 3
def ADDRMAN_MAX_FAILURES : Int := 10
def ADDRMAN_MIN_FAIL_DAYS : Int := 7
def ADDRMAN_REPLACEMENT_HOURS : Int := 4
def ADDRMAN_SET_TRIED_COLLISION_SIZE : Nat := 10
def ADDRMAN_TEST_WINDOW : Int := 40 * 60

/-- Modelled from the spec: `H(·)`, "the cheap 64-bit hash of a serialized
tuple" (`CHashWriter … .GetCheapHash()`, hash.h, not among the sources).
A concrete 64-bit mixing fold stands in; no property proved below depends
on which function this is. -/
def cheapHash (l : List Nat) : Nat :=
  l.foldl (fun a x => ((a ^^^ x) * 1099511628211) % (2 ^ 64)) 14695981039346656037

/-- Modelled from the spec: `GetKey()` — the serialized identity
(address bytes and port) of a service, fed to the hash. -/
def CService.getKey (a : CService) : Nat :=
  a.ip * 65536 + a.port

/-- `CAddrInfo::GetTriedBucket` (addrman.cpp). -/
def CService.GetTriedBucket (a : CService) (nKey : Nat) : Nat :=
  let hash1 := cheapHash [nKey, a.getKey]
  let hash2 := cheapHash [nKey, a.group, hash1 % ADDRMAN_TRIED_BUCKETS_PER_GROUP]
  hash2 % ADDRMAN_TRIED_BUCKET_COUNT

/-- `CAddrInfo::GetNewBucket` (addrman.cpp); `src` is the source the record
came from (its group keys the hash). -/
def CService.GetNewBucket (a : CService) (nKey : Nat) (src : CNetAddr) : Nat :=
  let hash1 := cheapHash [nKey, a.group, src.group]
  let hash2 := cheapHash [nKey, src.group, hash1 % ADDRMAN_NEW_BUCKETS_PER_SOURCE_GROUP]
  hash2 % ADDRMAN_NEW_BUCKET_COUNT

/-- `CAddrInfo::GetBucketPosition` (addrman.cpp): 78 and 75 are the
character codes of the domain separators `'N'` and `'K'`. -/
def CService.GetBucketPosition (a : CService) (nKey : Nat) (fNew : Bool) (nBucket : Nat) : Nat :=
  cheapHash [nKey, if fNew then 78 else 75, nBucket, a.getKey] % ADDRMAN_BUCKET_SIZE

/-- `CAddrInfo::IsTerrible` (addrman.cpp). -/
def CAddrInfo.IsTerrible (info : CAddrInfo) (nNow : Int) : Bool :=
  if info.nLastTry ≠ 0 ∧ info.nLastTry ≥ nNow - 60 then
    false
  else if info.nTime > nNow + 10 * 60 then
    true
  else if info.nTime = 0 ∨ nNow - info.nTime > ADDRMAN_HORIZON_DAYS * 24 * 60 * 60 then
    true
  else if info.nLastSuccess = 0 ∧ info.nAttempts ≥ ADDRMAN_RETRIES then
    true
  else if nNow - info.nLastSuccess > ADDRMAN_MIN_FAIL_DAYS * 24 * 60 * 60 ∧
      info.nAttempts ≥ ADDRMAN_MAX_FAILURES then
    true
  else
    false

/-- `CAddrInfo::GetChance` modelled with the chance scaled by `100 · 66^8`
so that it is integer-valued: `GetChance` multiplies `1.0` by `0.01` for a
recent try and by `0.66^min(attempts, 8)`. -/
def CAddrInfo.GetChanceScaled (info : CAddrInfo) (nNow : Int) : Nat :=
  let recent : Nat := if nNow - info.nLastTry < 60 * 10 then 1 else 100
  recent * 66 ^ (min info.nAttempts.toNat 8) * 100 ^ (8 - min info.nAttempts.toNat 8)

/-- `C6`: for every record and time `now`, `is_terrible(now)` is false
whenever `last-try` is nonzero and at least `now − 60`; otherwise it is true
exactly when the advertised time is more than 10 minutes in the future, or
zero, or more than 30 days old, or `last-success = 0 ∧ attempts ≥ 3`, or
`last-success` is more than 7 days old with `attempts ≥ 10`; and false in
every remaining case. -/
theorem isTerrible_spec (info : CAddrInfo) (nNow : Int) :
    info.IsTerrible nNow =
      (!(info.nLastTry ≠ 0 ∧ info.nLastTry ≥ nNow - 60 : Bool) &&
        ((info.nTime > nNow + 10 * 60 : Bool) ||
         (info.nTime = 0 ∨ nNow - info.nTime > 30 * 24 * 60 * 60 : Bool) ||
         (info.nLastSuccess = 0 ∧ info.nAttempts ≥ 3 : Bool) ||
         (nNow - info.nLastSuccess > 7 * 24 * 60 * 60 ∧ info.nAttempts ≥ 10 : Bool))) := by
  simp only [CAddrInfo.IsTerrible, ADDRMAN_HORIZON_DAYS, ADDRMAN_RETRIES,
    ADDRMAN_MIN_FAIL_DAYS, ADDRMAN_MAX_FAILURES]
  by_cases h1 : info.nLastTry ≠ 0 ∧ info.nLastTry ≥ nNow - 60 <;>
    by_cases h2 : info.nTime > nNow + 10 * 60 <;>
      by_cases h3 : info.nTime = 0 ∨ nNow - info.nTime > 30 * 24 * 60 * 60 <;>
        by_cases h4 : info.nLastSuccess = 0 ∧ info.nAttempts ≥ 3 <;>
          by_cases h5 : nNow - info.nLastSuccess > 7 * 24 * 60 * 60 ∧ info.nAttempts ≥ 10 <;>
            simp [h1, h2, h3, h4, h5, Bool.or_assoc]

/-- The address-manager state (`CAddrMan`, addrman.h). The bucket arrays use
`none` for the `-1` sentinel; `m_tried_collisions` is the sorted element list
of the `std::set<int>`; the random context is not part of the state (draws
are explicit arguments to the operations). -/
structure AddrMan where
  /-- last used nId -/
  nIdCount : Nat
  /-- table with information about all nIds -/
  mapInfo : Nat → Option CAddrInfo
  /-- find an nId based on its network address -/
  mapAddr : CNetAddr → Option Nat
  /-- randomly-ordered vector of all nIds -/
  vRandom : List Nat
  /-- number of "tried" entries -/
  nTried : Int
  /-- list of "tried" buckets (256 × 64) -/
  vvTried : Nat → Nat → Option Nat
  /-- number of (unique) "new" entries -/
  nNew : Int
  /-- list of "new" buckets (1024 × 64) -/
  vvNew : Nat → Nat → Option Nat
  /-- last time Good was called (memory only) -/
  nLastGood : Int
  /-- ids inserted into tried that collide with existing entries -/
  m_tried_collisions : List Nat
  /-- secret key to randomize bucket select with -/
  nKey : Nat

/-- Point update of the id → record map. -/
def updMap (m : Nat → Option CAddrInfo) (id : Nat) (v : Option CAddrInfo) :
    Nat → Option CAddrInfo :=
  fun k => if k = id then v else m k

/-- Point update of the address → id index. -/
def updAddr (m : CNetAddr → Option Nat) (a : CNetAddr) (v : Option Nat) :
    CNetAddr → Option Nat :=
  fun x => if x = a then v else m x

/-- Point update of a bucket table. -/
def updTable (t : Nat → Nat → Option Nat) (b p : Nat) (v : Option Nat) :
    Nat → Nat → Option Nat :=
  fun b2 p2 => if b2 = b ∧ p2 = p then v else t b2 p2

/-- `CAddrMan::Clear` with `deterministic` key material supplied by the
caller (`Clear` zeroes or randomizes `nKey`; the model takes it as an
argument). `nLastGood` starts at 1 so that "never" is strictly worse. -/
def AddrMan.clear (nKey : Nat) : AddrMan where
  nIdCount := 0
  mapInfo := fun _ => none
  mapAddr := fun _ => none
  vRandom := []
  nTried := 0
  vvTried := fun _ _ => none
  nNew := 0
  vvNew := fun _ _ => none
  nLastGood := 1
  m_tried_collisions := []
  nKey := nKey

/-- `CAddrMan::Find`: look up the id by network address, then the record. -/
def Find (s : AddrMan) (addr : CNetAddr) : Option (Nat × CAddrInfo) :=
  match s.mapAddr addr with
  | none => none
  | some nId =>
    match s.mapInfo nId with
    | none => none
    | some info => some (nId, info)

/-- `CAddrMan::Create`: insert a fresh record with a fresh id, index it, and
append it to the random-order vector. -/
def Create (s : AddrMan) (addr : CAddress) (addrSource : CNetAddr) : AddrMan × Nat :=
  let nId := s.nIdCount
  let info : CAddrInfo :=
    { toCAddress := addr, source := addrSource, nRandomPos := (s.vRandom.length : Int) }
  ({ s with
      nIdCount := s.nIdCount + 1
      mapInfo := updMap s.mapInfo nId (some info)
      mapAddr := updAddr s.mapAddr addr.toCNetAddr (some nId)
      vRandom := s.vRandom ++ [nId] },
   nId)

/-- Write a new `nRandomPos` into the record at `id` (helper for
`SwapRandom`; written as two sequential point writes exactly as the source
assigns through `mapInfo[nId1]` and `mapInfo[nId2]`). -/
def setRandomPos (m : Nat → Option CAddrInfo) (id : Nat) (p : Int) :
    Nat → Option CAddrInfo :=
  fun k => if k = id then (m id).map (fun info => { info with nRandomPos := p }) else m k

/-- `CAddrMan::SwapRandom`: swap two elements of `vRandom`, maintaining the
records' `nRandomPos` fields. -/
def SwapRandom (s : AddrMan) (nRndPos1 nRndPos2 : Nat) : AddrMan :=
  if nRndPos1 = nRndPos2 then s
  else
    let nId1 := s.vRandom.getD nRndPos1 0
    let nId2 := s.vRandom.getD nRndPos2 0
    { s with
        mapInfo := setRandomPos (setRandomPos s.mapInfo nId1 (nRndPos2 : Int)) nId2 (nRndPos1 : Int)
        vRandom := (s.vRandom.set nRndPos1 nId2).set nRndPos2 nId1 }

/-- `CAddrMan::Delete`: swap the record to the back of `vRandom`, pop it,
drop both index entries and decrement the new count. (The C++ asserts — the
record exists, is not in tried and has refcount 0 — are established at every
call site below; on a missing record the model is the identity where the
assert would fail.) -/
def Delete (s : AddrMan) (nId : Nat) : AddrMan :=
  match s.mapInfo nId with
  | none => s
  | some info =>
    let s1 := SwapRandom s info.nRandomPos.toNat (s.vRandom.length - 1)
    { s1 with
        vRandom := s1.vRandom.dropLast
        mapAddr := updAddr s1.mapAddr info.toCNetAddr none
        mapInfo := updMap s1.mapInfo nId none
        nNew := s1.nNew - 1 }

/-- `CAddrMan::ClearNew`: if there is an entry in the specified bucket
slot, remove it from the slot, decrement its refcount, and delete it when
the refcount hits 0. (A slot id without a record is unreachable under the
invariants; there the C++ `assert(infoDelete.nRefCount > 0)` would fail and
the model is the identity.) -/
def ClearNew (s : AddrMan) (nUBucket nUBucketPos : Nat) : AddrMan :=
  match s.vvNew nUBucket nUBucketPos with
  | none => s
  | some nIdDelete =>
    match s.mapInfo nIdDelete with
    | none => s
    | some infoDelete =>
      let infoDelete1 := { infoDelete with nRefCount := infoDelete.nRefCount - 1 }
      let s1 := { s with
        mapInfo := updMap s.mapInfo nIdDelete (some infoDelete1)
        vvNew := updTable s.vvNew nUBucket nUBucketPos none }
      if infoDelete1.nRefCount = 0 then Delete s1 nIdDelete else s1

/-- The first loop of `CAddrMan::MakeTried`: remove the entry from all new
buckets (for every bucket, the slot at the record's keyed position is
cleared if it holds `nId`, decrementing the refcount per removal). -/
def removeFromAllNew (s : AddrMan) (nId : Nat) : AddrMan :=
  (List.range ADDRMAN_NEW_BUCKET_COUNT).foldl
    (fun t bucket =>
      match t.mapInfo nId with
      | none => t
      | some info =>
        let pos := info.toCService.GetBucketPosition t.nKey true bucket
        if t.vvNew bucket pos = some nId then
          { t with
              vvNew := updTable t.vvNew bucket pos none
              mapInfo := updMap t.mapInfo nId (some { info with nRefCount := info.nRefCount - 1 }) }
        else t)
    s

/-- `CAddrMan::MakeTried`: move an entry from the "new" table to the "tried"
table, evicting any occupant of the target tried slot back into "new".
Branches marked unreachable are states in which a C++ assert would fail;
they never arise under the store invariants (see `makeTried_asserts_ok`). -/
def MakeTried (s : AddrMan) (nId : Nat) : AddrMan :=
  let s1 := removeFromAllNew s nId
  let s2 := { s1 with nNew := s1.nNew - 1 }
  -- here the source asserts info.nRefCount == 0
  match s2.mapInfo nId with
  | none => s2
  | some info =>
    let nKBucket := info.toCService.GetTriedBucket s2.nKey
    let nKBucketPos := info.toCService.GetBucketPosition s2.nKey false nKBucket
    let s3 :=
      match s2.vvTried nKBucket nKBucketPos with
      | none => s2
      | some nIdEvict =>
        match s2.mapInfo nIdEvict with
        | none => s2
        | some infoOld =>
          -- remove the to-be-evicted item from the tried set
          let infoOld1 := { infoOld with fInTried := false }
          let t1 := { s2 with
            mapInfo := updMap s2.mapInfo nIdEvict (some infoOld1)
            vvTried := updTable s2.vvTried nKBucket nKBucketPos none
            nTried := s2.nTried - 1 }
          -- find which new bucket it belongs to and make room there
          let nUBucket := infoOld1.toCService.GetNewBucket t1.nKey infoOld1.source
          let nUBucketPos := infoOld1.toCService.GetBucketPosition t1.nKey true nUBucket
          let t2 := ClearNew t1 nUBucket nUBucketPos
          -- here the source asserts vvNew[nUBucket][nUBucketPos] == -1
          match t2.mapInfo nIdEvict with
          | none => t2
          | some infoOld2 =>
            -- enter it into the new set again
            { t2 with
                mapInfo := updMap t2.mapInfo nIdEvict (some { infoOld2 with nRefCount := 1 })
                vvNew := updTable t2.vvNew nUBucket nUBucketPos (some nIdEvict)
                nNew := t2.nNew + 1 }
    match s3.mapInfo nId with
    | none => s3
    | some info2 =>
      { s3 with
          vvTried := updTable s3.vvTried nKBucket nKBucketPos (some nId)
          nTried := s3.nTried + 1
          mapInfo := updMap s3.mapInfo nId (some { info2 with fInTried := true }) }

/-- Ordered insertion into the sorted element list of a `std::set<int>`. -/
def setInsert : List Nat → Nat → List Nat
  | [], x => [x]
  | y :: ys, x =>
    if x < y then x :: y :: ys
    else if x = y then y :: ys
    else y :: setInsert ys x

/-- `CAddrMan::Good_`: mark an entry good, promoting it from "new" to
"tried" (directly, or deferring into the collision set when
`test_before_evict` is set and the target tried slot is occupied). `nRnd`
is the oracle value of `insecure_rand.randrange(ADDRMAN_NEW_BUCKET_COUNT)`
used to randomize the bucket scan. -/
def Good_ (s : AddrMan) (addr : CService) (test_before_evict : Bool) (nTime : Int)
    (nRnd : Nat) : AddrMan :=
  let s0 := { s with nLastGood := nTime }
  match Find s0 addr.toCNetAddr with
  | none => s0
  | some (nId, info) =>
    -- check whether we are talking about the exact same CService (including same port)
    if info.toCService ≠ addr then s0
    else
      let info1 := { info with nLastSuccess := nTime, nLastTry := nTime, nAttempts := 0 }
      let s1 := { s0 with mapInfo := updMap s0.mapInfo nId (some info1) }
      -- if it is already in the tried set, don't do anything else
      if info1.fInTried then s1
      else
        -- find a bucket it is in now, scanning in randomized rotation
        let found := (List.range ADDRMAN_NEW_BUCKET_COUNT).findSome? (fun n =>
          let nB := (n + nRnd) % ADDRMAN_NEW_BUCKET_COUNT
          let nBpos := info1.toCService.GetBucketPosition s1.nKey true nB
          if s1.vvNew nB nBpos = some nId then some nB else none)
        match found with
        | none => s1
        | some _ =>
          let tried_bucket := info1.toCService.GetTriedBucket s1.nKey
          let tried_bucket_pos := info1.toCService.GetBucketPosition s1.nKey false tried_bucket
          if test_before_evict ∧ (s1.vvTried tried_bucket tried_bucket_pos).isSome then
            if s1.m_tried_collisions.length < ADDRMAN_SET_TRIED_COLLISION_SIZE then
              { s1 with m_tried_collisions := setInsert s1.m_tried_collisions nId }
            else s1
          else MakeTried s1 nId

/-- The update an existing record receives at the start of `CAddrMan::Add_`:
the periodic refresh of `nTime` followed by the OR-merge of service bits. -/
def addUpdateExisting (pinfo : CAddrInfo) (addr : CAddress) (nTimePenalty nNow : Int) :
    CAddrInfo :=
  -- periodically update nTime
  let fCurrentlyOnline := nNow - addr.nTime < 24 * 60 * 60
  let nUpdateInterval : Int := if fCurrentlyOnline then 60 * 60 else 24 * 60 * 60
  let pinfo1 :=
    if addr.nTime ≠ 0 ∧ (pinfo.nTime = 0 ∨ pinfo.nTime < addr.nTime - nUpdateInterval - nTimePenalty)
    then { pinfo with nTime := max 0 (addr.nTime - nTimePenalty) }
    else pinfo
  -- add services
  { pinfo1 with nServices := pinfo1.nServices ||| addr.nServices }

/-- The placement block at the end of `CAddrMan::Add_`: compute the record's
new-bucket slot from its source; if the slot does not already hold the id,
either displace the occupant (empty slot, terrible occupant, or occupant
with refcount > 1 while the candidate has refcount 0) via `ClearNew`, or —
when the candidate could not be placed and holds no reference — delete it. -/
def addPlace (s : AddrMan) (nId : Nat) (source : CNetAddr) (nNow : Int) : AddrMan :=
  match s.mapInfo nId with
  | none => s
  | some pinfo =>
    let nUBucket := pinfo.toCService.GetNewBucket s.nKey source
    let nUBucketPos := pinfo.toCService.GetBucketPosition s.nKey true nUBucket
    if s.vvNew nUBucket nUBucketPos = some nId then s
    else
      let fInsert :=
        match s.vvNew nUBucket nUBucketPos with
        | none => true
        | some nIdExisting =>
          match s.mapInfo nIdExisting with
          | none => true
          | some infoExisting =>
            -- overwrite the existing new table entry?
            infoExisting.IsTerrible nNow ∨ (1 < infoExisting.nRefCount ∧ pinfo.nRefCount = 0)
      if fInsert then
        let s1 := ClearNew s nUBucket nUBucketPos
        match s1.mapInfo nId with
        | none => s1
        | some pinfo1 =>
          { s1 with
              mapInfo := updMap s1.mapInfo nId (some { pinfo1 with nRefCount := pinfo1.nRefCount + 1 })
              vvNew := updTable s1.vvNew nUBucket nUBucketPos (some nId) }
      else
        if pinfo.nRefCount = 0 then Delete s nId else s

/-- `CAddrMan::Add_`. `nNow` is the oracle value of `GetAdjustedTime()`;
`gateDraw` the oracle draw consumed by `insecure_rand.randrange(nFactor)`
in the stochastic gate (reduced modulo `nFactor`, as `randrange` is a
uniform draw below its argument). Returns whether a new record was created,
together with the new state. -/
def Add_ (s : AddrMan) (addr : CAddress) (source : CNetAddr) (nTimePenalty : Int)
    (nNow : Int) (gateDraw : Nat) : Bool × AddrMan :=
  if addr.routable = false then (false, s)
  else
    -- do not set a penalty for a source's self-announcement
    let nTimePenalty := if addr.toCNetAddr = source then 0 else nTimePenalty
    match Find s addr.toCNetAddr with
    | some (nId, pinfo) =>
      let pinfo2 := addUpdateExisting pinfo addr nTimePenalty nNow
      let s1 := { s with mapInfo := updMap s.mapInfo nId (some pinfo2) }
      -- do not update if no new information is present
      if addr.nTime = 0 ∨ (pinfo2.nTime ≠ 0 ∧ addr.nTime ≤ pinfo2.nTime) then (false, s1)
      -- do not update if the entry was already in the "tried" table
      else if pinfo2.fInTried then (false, s1)
      -- do not update if the max reference count is reached
      else if pinfo2.nRefCount = ADDRMAN_NEW_BUCKETS_PER_ADDRESS then (false, s1)
      else
        -- stochastic test: previous nRefCount == N: 2^N times harder to increase it
        let nFactor : Nat := 2 ^ pinfo2.nRefCount.toNat
        if 1 < nFactor ∧ gateDraw % nFactor ≠ 0 then (false, s1)
        else (false, addPlace s1 nId source nNow)
    | none =>
      let created := Create s addr source
      let s1 := created.1
      let nId := created.2
      let s2 :=
        match s1.mapInfo nId with
        | none => s1
        | some pinfo =>
          { s1 with
              mapInfo := updMap s1.mapInfo nId
                (some { pinfo with nTime := max 0 (pinfo.nTime - nTimePenalty) }) }
      let s3 := { s2 with nNew := s2.nNew + 1 }
      (true, addPlace s3 nId source nNow)

/-- `CAddrMan::Attempt_`: mark an entry as attempted; counts a failure only
when the last counted attempt predates the last `Good` call. -/
def Attempt_ (s : AddrMan) (addr : CService) (fCountFailure : Bool) (nTime : Int) : AddrMan :=
  match Find s addr.toCNetAddr with
  | none => s
  | some (nId, info) =>
    -- check whether we are talking about the exact same CService (including same port)
    if info.toCService ≠ addr then s
    else
      let info1 := { info with nLastTry := nTime }
      let info2 :=
        if fCountFailure ∧ info1.nLastCountAttempt < s.nLastGood then
          { info1 with nLastCountAttempt := nTime, nAttempts := info1.nAttempts + 1 }
        else info1
      { s with mapInfo := updMap s.mapInfo nId (some info2) }

/-- `CAddrMan::Connected_`: refresh the advertised time, at most once per
20 minutes. -/
def Connected_ (s : AddrMan) (addr : CService) (nTime : Int) : AddrMan :=
  match Find s addr.toCNetAddr with
  | none => s
  | some (nId, info) =>
    if info.toCService ≠ addr then s
    else
      let nUpdateInterval : Int := 20 * 60
      if nTime - info.nTime > nUpdateInterval then
        { s with mapInfo := updMap s.mapInfo nId (some { info with nTime := nTime }) }
      else s

/-- `CAddrMan::SetServices_`: replace the service bits. -/
def SetServices_ (s : AddrMan) (addr : CService) (nServices : Nat) : AddrMan :=
  match Find s addr.toCNetAddr with
  | none => s
  | some (nId, info) =>
    if info.toCService ≠ addr then s
    else { s with mapInfo := updMap s.mapInfo nId (some { info with nServices := nServices }) }

/-- `CAddrMan::GetAddr_`: the emission budget `nNodes` (a zero
`max_addresses` or `max_pct` means the corresponding limit is off), then a
partial Fisher–Yates shuffle of `vRandom`, emitting each swapped-to-front
record that is not terrible. `draws n` is the oracle value of
`insecure_rand.randrange(vRandom.size() - n)` at iteration `n`; the C++
`break` is modelled by making every later iteration a no-op (the budget
check only ever flips once, as the emitted list never shrinks). -/
def GetAddr_ (s : AddrMan) (max_addresses max_pct : Nat) (nNow : Int)
    (draws : Nat → Nat) : List CAddress × AddrMan :=
  let sz := s.vRandom.length
  let nNodes0 := if max_pct ≠ 0 then max_pct * sz / 100 else sz
  let nNodes := if max_addresses ≠ 0 then min nNodes0 max_addresses else nNodes0
  (List.range sz).foldl
    (fun (acc : List CAddress × AddrMan) n =>
      if nNodes ≤ acc.1.length then acc
      else
        let t := acc.2
        let nRndPos := draws n % (t.vRandom.length - n) + n
        let t1 := SwapRandom t n nRndPos
        match t1.mapInfo (t1.vRandom.getD n 0) with
        | none => (acc.1, t1)
        | some ai =>
          if ai.IsTerrible nNow = false then (acc.1 ++ [ai.toCAddress], t1)
          else (acc.1, t1))
    ([], s)

/-- `CAddrMan::Select_` reads the tables but writes nothing: its only side
effect is on the random context, which the embedding keeps outside the
state, so as a state transformer it is the identity. (The selection loop's
floating-point acceptance arithmetic is not modelled; no claim concerns the
returned value.) -/
def Select_ (s : AddrMan) : AddrMan := s

/-- One iteration of the `CAddrMan::ResolveCollisions_` loop, for the
collision-set element `id_new`; `nRnd` is the bucket-scan draw consumed by
the inner `Good_` call when it is made. -/
def resolveCollisionStep (s : AddrMan) (nNow : Int) (nRnd : Nat) (id_new : Nat) : AddrMan :=
  match s.mapInfo id_new with
  | none => { s with m_tried_collisions := s.m_tried_collisions.erase id_new }
  | some info_new =>
    let tried_bucket := info_new.toCService.GetTriedBucket s.nKey
    let tried_bucket_pos := info_new.toCService.GetBucketPosition s.nKey false tried_bucket
    if info_new.valid = false then
      -- id_new may no longer map to a valid address
      { s with m_tried_collisions := s.m_tried_collisions.erase id_new }
    else
      match s.vvTried tried_bucket tried_bucket_pos with
      | some id_old =>
        match s.mapInfo id_old with
        | none => s
        | some info_old =>
          -- has successfully connected in last X hours
          if nNow - info_old.nLastSuccess < ADDRMAN_REPLACEMENT_HOURS * (60 * 60) then
            { s with m_tried_collisions := s.m_tried_collisions.erase id_new }
          -- attempted to connect and failed in last X hours
          else if nNow - info_old.nLastTry < ADDRMAN_REPLACEMENT_HOURS * (60 * 60) then
            -- give address at least 60 seconds to successfully connect
            if 60 < nNow - info_old.nLastTry then
              let s1 := Good_ s info_new.toCService false nNow nRnd
              { s1 with m_tried_collisions := s1.m_tried_collisions.erase id_new }
            else s
          else if ADDRMAN_TEST_WINDOW < nNow - info_new.nLastSuccess then
            let s1 := Good_ s info_new.toCService false nNow nRnd
            { s1 with m_tried_collisions := s1.m_tried_collisions.erase id_new }
          else s
      | none =>
        -- collision is not actually a collision anymore
        let s1 := Good_ s info_new.toCService false nNow nRnd
        { s1 with m_tried_collisions := s1.m_tried_collisions.erase id_new }

/-- `CAddrMan::ResolveCollisions_`: process the collision set in element
order (the `std::set` iteration; the inner `Good_(…, false, …)` calls never
insert into the set, so the elements visited are those present at entry,
and each step may erase only the element it is visiting). -/
def ResolveCollisions_ (s : AddrMan) (nNow : Int) (rnds : Nat → Nat) : AddrMan :=
  s.m_tried_collisions.enum.foldl
    (fun t (p : Nat × Nat) => resolveCollisionStep t nNow (rnds p.1) p.2) s

/-- `CAddrMan::SelectTriedCollision_` as a state transformer: it erases the
randomly selected id from the collision set when its record no longer
exists, and otherwise only reads. `draw` is the oracle value of the
`randrange(m_tried_collisions.size())` selection. (When the selected
record's target tried slot is empty the C++ read `mapInfo[id_old]`
default-inserts at id −1; that situation is unreachable from the external
interface — collision ids are only inserted when their target slot is
occupied, and no operation empties a tried slot — and is not modelled.) -/
def SelectTriedCollision_ (s : AddrMan) (draw : Nat) : AddrMan :=
  if s.m_tried_collisions.length = 0 then s
  else
    let id_new := s.m_tried_collisions.getD (draw % s.m_tried_collisions.length) 0
    if (s.mapInfo id_new).isNone then
      { s with m_tried_collisions := s.m_tried_collisions.erase id_new }
    else s

-- `Find` never reads `nLastGood`.
theorem find_set_nLastGood (s : AddrMan) (t : Int) (a : CNetAddr) :
    Find { s with nLastGood := t } a = Find s a := rfl

/-- A concrete routable service used in counterexamples and witnesses. -/
def svcA : CService :=
  { ip := 0x01020304, group := 0x0102, routable := true, valid := true, port := 8333 }

/-- `C5`, counterexample: `good` on an address that is not in the store is
not a complete no-op — it first records the call time in `nLastGood`. On the
empty store (where `nLastGood = 1`), `good` with time 5 changes the state. -/
theorem good_notfound_not_noop :
    Good_ (AddrMan.clear 0) svcA true 5 0 ≠ AddrMan.clear 0 := by
  intro h
  have h2 : (Good_ (AddrMan.clear 0) svcA true 5 0).nLastGood =
      (AddrMan.clear 0).nLastGood := congrArg AddrMan.nLastGood h
  rw [show (Good_ (AddrMan.clear 0) svcA true 5 0).nLastGood = 5 from rfl,
    show (AddrMan.clear 0).nLastGood = 1 from rfl] at h2
  exact absurd h2 (by decide)

/-- `C5` (amended): with an address for which no record is found, or whose
found record differs in exact service identity (port), `attempt`,
`connected` and `set_services` leave the entire state exactly unchanged,
and `good` leaves the entire state unchanged except for `nLastGood`, which
it sets to the given time. -/
theorem notfound_noop_spec (s : AddrMan) (addr : CService) (tbe fCount : Bool)
    (t1 t2 t3 : Int) (sv : Nat) (nRnd : Nat)
    (h : Find s addr.toCNetAddr = none ∨
      ∃ nId info, Find s addr.toCNetAddr = some (nId, info) ∧ info.toCService ≠ addr) :
    Good_ s addr tbe t1 nRnd = { s with nLastGood := t1 } ∧
    Attempt_ s addr fCount t2 = s ∧
    Connected_ s addr t3 = s ∧
    SetServices_ s addr sv = s := by
  rcases h with h | ⟨nId, info, hf, hne⟩
  · refine ⟨?_, ?_, ?_, ?_⟩ <;>
      simp [Good_, Attempt_, Connected_, SetServices_, find_set_nLastGood, h]
  · refine ⟨?_, ?_, ?_, ?_⟩ <;>
      simp [Good_, Attempt_, Connected_, SetServices_, find_set_nLastGood, hf, hne]

/-- `C5` witness: the amended no-op behaviour at a concrete instance (the
empty store, where no address is found). -/
theorem notfound_noop_spec_witness :
    Good_ (AddrMan.clear 0) svcA true 7 0 = { AddrMan.clear 0 with nLastGood := 7 } ∧
    Attempt_ (AddrMan.clear 0) svcA true 8 = AddrMan.clear 0 ∧
    Connected_ (AddrMan.clear 0) svcA 9 = AddrMan.clear 0 ∧
    SetServices_ (AddrMan.clear 0) svcA 3 = AddrMan.clear 0 :=
  notfound_noop_spec (AddrMan.clear 0) svcA true true 7 8 9 3 0 (Or.inl rfl)

/-- All state components except the record at `nId` agree between `s` and
`t` (records are neither created nor deleted, no table slot, counter,
index or the random-order vector changes). -/
def FramesExcept (s t : AddrMan) (nId : Nat) : Prop :=
  t.nIdCount = s.nIdCount ∧ t.mapAddr = s.mapAddr ∧ t.vRandom = s.vRandom ∧
  t.nTried = s.nTried ∧ t.vvTried = s.vvTried ∧ t.nNew = s.nNew ∧
  t.vvNew = s.vvNew ∧ t.nLastGood = s.nLastGood ∧
  t.m_tried_collisions = s.m_tried_collisions ∧
  ∀ k, k ≠ nId → t.mapInfo k = s.mapInfo k

/-- Record `b` agrees with `a` on everything except possibly `nLastTry`,
`nLastCountAttempt` and `nAttempts`. -/
def OnlyAttemptFields (a b : CAddrInfo) : Prop :=
  b.toCService = a.toCService ∧ b.nServices = a.nServices ∧ b.nTime = a.nTime ∧
  b.source = a.source ∧ b.nLastSuccess = a.nLastSuccess ∧ b.nRefCount = a.nRefCount ∧
  b.fInTried = a.fInTried ∧ b.nRandomPos = a.nRandomPos

/-- Record `b` agrees with `a` on everything except possibly `nTime`. -/
def OnlyTimeField (a b : CAddrInfo) : Prop :=
  b.toCService = a.toCService ∧ b.nServices = a.nServices ∧ b.nLastTry = a.nLastTry ∧
  b.nLastCountAttempt = a.nLastCountAttempt ∧ b.source = a.source ∧
  b.nLastSuccess = a.nLastSuccess ∧ b.nAttempts = a.nAttempts ∧
  b.nRefCount = a.nRefCount ∧ b.fInTried = a.fInTried ∧ b.nRandomPos = a.nRandomPos

/-- Record `b` agrees with `a` on everything except possibly `nServices`. -/
def OnlyServicesField (a b : CAddrInfo) : Prop :=
  b.toCService = a.toCService ∧ b.nTime = a.nTime ∧ b.nLastTry = a.nLastTry ∧
  b.nLastCountAttempt = a.nLastCountAttempt ∧ b.source = a.source ∧
  b.nLastSuccess = a.nLastSuccess ∧ b.nAttempts = a.nAttempts ∧
  b.nRefCount = a.nRefCount ∧ b.fInTried = a.fInTried ∧ b.nRandomPos = a.nRandomPos


-- Unpacking a successful `Find`.
theorem find_some {s : AddrMan} {a : CNetAddr} {nId : Nat} {info : CAddrInfo}
    (h : Find s a = some (nId, info)) :
    s.mapAddr a = some nId ∧ s.mapInfo nId = some info := by
  unfold Find at h
  split at h
  · exact absurd h (by simp)
  · rename_i id hma
    split at h
    · exact absurd h (by simp)
    · rename_i i hmi
      obtain ⟨h1, h2⟩ := Prod.ext_iff.mp (Option.some.inj h)
      simp only at h1 h2
      subst h1
      subst h2
      exact ⟨hma, hmi⟩

/-- `C9`: when `attempt`, `connected` or `set_services` locates a record
with exact service identity, it creates and deletes nothing, touches no
table slot, counter, index or the random-order vector, modifies no record
other than the located one, and in the located record changes only the
operation's own statistics (`attempt`: last-try, last-counted-attempt,
attempts; `connected`: the advertised time; `set_services`: the service
bits). -/
theorem stat_ops_frame (s : AddrMan) (addr : CService) (fCount : Bool)
    (tA tC : Int) (sv : Nat) (nId : Nat) (info : CAddrInfo)
    (hf : Find s addr.toCNetAddr = some (nId, info))
    (hs : info.toCService = addr) :
    (FramesExcept s (Attempt_ s addr fCount tA) nId ∧
      ∃ b, (Attempt_ s addr fCount tA).mapInfo nId = some b ∧ OnlyAttemptFields info b) ∧
    (FramesExcept s (Connected_ s addr tC) nId ∧
      ∃ b, (Connected_ s addr tC).mapInfo nId = some b ∧ OnlyTimeField info b) ∧
    (FramesExcept s (SetServices_ s addr sv) nId ∧
      ∃ b, (SetServices_ s addr sv).mapInfo nId = some b ∧ OnlyServicesField info b) := by
  have hnot : ¬ (info.toCService ≠ addr) := fun hne => hne hs
  refine ⟨?_, ?_, ?_⟩
  · simp only [Attempt_, hf, if_neg hnot]
    constructor
    · exact ⟨rfl, rfl, rfl, rfl, rfl, rfl, rfl, rfl, rfl,
        fun k hk => by simp [updMap, hk]⟩
    · split
      · refine ⟨{ info with nLastTry := tA, nLastCountAttempt := tA, nAttempts := info.nAttempts + 1 }, by simp [updMap], ?_⟩
        exact ⟨rfl, rfl, rfl, rfl, rfl, rfl, rfl, rfl⟩
      · refine ⟨{ info with nLastTry := tA }, by simp [updMap], ?_⟩
        exact ⟨rfl, rfl, rfl, rfl, rfl, rfl, rfl, rfl⟩
  · simp only [Connected_, hf, if_neg hnot]
    split
    · constructor
      · exact ⟨rfl, rfl, rfl, rfl, rfl, rfl, rfl, rfl, rfl,
          fun k hk => by simp [updMap, hk]⟩
      · refine ⟨{ info with nTime := tC }, by simp [updMap], ?_⟩
        exact ⟨rfl, rfl, rfl, rfl, rfl, rfl, rfl, rfl, rfl, rfl⟩
    · constructor
      · exact ⟨rfl, rfl, rfl, rfl, rfl, rfl, rfl, rfl, rfl, fun k _ => rfl⟩
      · exact ⟨info, (find_some hf).2, rfl, rfl, rfl, rfl, rfl, rfl, rfl, rfl, rfl, rfl⟩
  · simp only [SetServices_, hf, if_neg hnot]
    constructor
    · exact ⟨rfl, rfl, rfl, rfl, rfl, rfl, rfl, rfl, rfl,
        fun k hk => by simp [updMap, hk]⟩
    · refine ⟨{ info with nServices := sv }, by simp [updMap], ?_⟩
      exact ⟨rfl, rfl, rfl, rfl, rfl, rfl, rfl, rfl, rfl, rfl⟩

/-- `C9` witness state: one record with id 0. -/
def addrA : CAddress := { toCService := svcA, nServices := 1, nTime := 100000 }

/-- Source network address used by witness states. -/
def srcN : CNetAddr := { ip := 0x05060708, group := 0x0506, routable := true, valid := true }

/-- The witness record stored for `addrA`. -/
def infoA : CAddrInfo := { toCAddress := addrA, source := srcN, nRefCount := 1, nRandomPos := 0 }

/-- A one-record store holding `infoA` at id 0 (new table membership is
irrelevant to the statistics operations). -/
def sWitness : AddrMan :=
  { AddrMan.clear 0 with
      nIdCount := 1
      mapInfo := updMap (fun _ => none) 0 (some infoA)
      mapAddr := updAddr (fun _ => none) svcA.toCNetAddr (some 0)
      vRandom := [0]
      nNew := 1 }

/-- `C9` witness: the frame property of `attempt` at a concrete store. -/
theorem stat_ops_frame_witness :
    (Attempt_ sWitness svcA true 50).nIdCount = sWitness.nIdCount ∧
    (Attempt_ sWitness svcA true 50).vRandom = sWitness.vRandom :=
  have h := stat_ops_frame sWitness svcA true 50 60 5 0 infoA rfl rfl
  ⟨h.1.1.1, h.1.1.2.2.1⟩

/-! ## Serialization (`CAddrMan::Serialize` / `CAddrMan::Unserialize`) -/

/-- The fields written for one record by `CAddrInfo`'s `SERIALIZE_METHODS`:
the `CAddress` base plus `source`, `nLastSuccess` and `nAttempts` (the other
fields are memory-only). -/
structure SerAddrInfo where
  addr : CAddress
  source : CNetAddr
  nLastSuccess : Int
  nAttempts : Int
deriving DecidableEq

instance : Inhabited CNetAddr :=
  ⟨{ ip := 0, group := 0, routable := false, valid := false }⟩

instance : Inhabited SerAddrInfo :=
  ⟨{ addr := { toCService := { toCNetAddr := default, port := 0 }, nServices := 0, nTime := 0 },
     source := default, nLastSuccess := 0, nAttempts := 0 }⟩

/-- Project the serialized fields out of a record. -/
def serInfo (info : CAddrInfo) : SerAddrInfo :=
  { addr := info.toCAddress, source := info.source,
    nLastSuccess := info.nLastSuccess, nAttempts := info.nAttempts }

/-- Rebuild a record from its serialized fields (the memory-only fields
take the `CAddrInfo` defaults, as in the C++ default constructor). -/
def unserInfo (x : SerAddrInfo) : CAddrInfo :=
  { toCAddress := x.addr, source := x.source,
    nLastSuccess := x.nLastSuccess, nAttempts := x.nAttempts }

/-- The tokenized image of the `CAddrMan` on-disk stream: one field per
value the serializer writes, in stream order. (`u8 version`, `u8 keysize`,
the key, `i32 new_count`, `i32 tried_count`, the XOR-masked bucket count,
the new records, the tried records, the per-bucket index lists, and the
group-map hash present since format 2; the embedding carries no group map,
so the serializer writes hash 0 and the loader's own hash is 0.) -/
structure SerData where
  format : Nat
  nKeySize : Nat
  nKey : Nat
  nNew : Int
  nTried : Int
  nUBucketsRaw : Nat
  newInfos : List SerAddrInfo
  triedInfos : List SerAddrInfo
  bucketEntries : List (List Int)
  asmapVersion : Nat

/-- The entries of `mapInfo` in increasing id order (the `std::map`
iteration order). -/
def recordsList (s : AddrMan) : List (Nat × CAddrInfo) :=
  (List.range s.nIdCount).filterMap (fun id => (s.mapInfo id).map (fun info => (id, info)))

/-- The value `mapUnkIds[id]` the serializer assigns: the number of
records with a nonzero refcount that precede `id` in `mapInfo` order. -/
def mapUnkIds (s : AddrMan) (id : Nat) : Int :=
  (((recordsList s).filter (fun e => decide (e.1 < id) && decide (e.2.nRefCount ≠ 0))).length : Int)

/-- `CAddrMan::Serialize` (always in the latest format, `V3_BIP155`): the
new records (nonzero refcount) in id order, the tried records in id order,
and for every new bucket the `mapUnkIds`-renumbered ids of its occupied
slots. -/
def Serialize (s : AddrMan) : SerData where
  format := 3
  nKeySize := 32
  nKey := s.nKey
  nNew := s.nNew
  nTried := s.nTried
  nUBucketsRaw := ADDRMAN_NEW_BUCKET_COUNT ^^^ (1 <<< 30)
  newInfos := ((recordsList s).filter (fun e => e.2.nRefCount ≠ 0)).map (fun e => serInfo e.2)
  triedInfos := ((recordsList s).filter (fun e => e.2.fInTried)).map (fun e => serInfo e.2)
  bucketEntries := (List.range ADDRMAN_NEW_BUCKET_COUNT).map (fun bucket =>
    (List.range ADDRMAN_BUCKET_SIZE).filterMap (fun i =>
      (s.vvNew bucket i).map (fun id => mapUnkIds s id)))
  asmapVersion := 0

/-- The new-table read loop of `Unserialize`: record `n` gets id `n`, is
indexed, and is appended to the random vector. -/
def unserReadNew (d : SerData) (s : AddrMan) : AddrMan :=
  (List.range d.nNew.toNat).foldl
    (fun t n =>
      let info := unserInfo (d.newInfos.getD n default)
      { t with
          mapInfo := updMap t.mapInfo n (some { info with nRandomPos := (t.vRandom.length : Int) })
          mapAddr := updAddr t.mapAddr info.toCNetAddr (some n)
          vRandom := t.vRandom ++ [n] })
    s

/-- The tried-table read loop of `Unserialize`: each record is placed at
its computed tried slot under the loaded key, or dropped ("lost") when
that slot is already taken; the second component counts the lost records. -/
def unserReadTried (d : SerData) (s : AddrMan) : AddrMan × Int :=
  (List.range d.nTried.toNat).foldl
    (fun (acc : AddrMan × Int) n =>
      let t := acc.1
      let info := unserInfo (d.triedInfos.getD n default)
      let nKBucket := info.toCService.GetTriedBucket t.nKey
      let nKBucketPos := info.toCService.GetBucketPosition t.nKey false nKBucket
      match t.vvTried nKBucket nKBucketPos with
      | none =>
        let info1 := { info with nRandomPos := (t.vRandom.length : Int), fInTried := true }
        ({ t with
            vRandom := t.vRandom ++ [t.nIdCount]
            mapInfo := updMap t.mapInfo t.nIdCount (some info1)
            mapAddr := updAddr t.mapAddr info1.toCNetAddr (some t.nIdCount)
            vvTried := updTable t.vvTried nKBucket nKBucketPos (some t.nIdCount)
            nIdCount := t.nIdCount + 1 }, acc.2)
      | some _ => (t, acc.2 + 1))
    (s, 0)

/-- The `entryToBucket` map of `Unserialize`: which bucket each serialized
new-table index belonged to (later buckets overwrite earlier ones; indexes
outside `[0, nNew)` are ignored). -/
def entryToBucket (d : SerData) (nUBuckets : Nat) : Nat → Option Nat :=
  ((d.bucketEntries.take nUBuckets).enum).foldl
    (fun m (p : Nat × List Int) =>
      p.2.foldl
        (fun m2 nIndex =>
          if 0 ≤ nIndex ∧ nIndex < d.nNew then
            fun k => if (k : Int) = nIndex then some p.1 else m2 k
          else m2)
        m)
    (fun _ => none)

/-- The new-table placement loop of `Unserialize`: use the serialized
bucket when the format, bucket count and group-map hash all match and the
slot is free; otherwise re-bucket by the record's own source and place only
if that slot is free. (`entryToBucket[n]` is a `std::map` subscript: absent
entries read as bucket 0.) -/
def unserPlaceNew (d : SerData) (nUBuckets : Nat) (s : AddrMan) : AddrMan :=
  let supplied_asmap_version : Nat := 0
  let serialized_asmap_version : Nat := if 2 ≤ d.format then d.asmapVersion else 0
  (List.range d.nNew.toNat).foldl
    (fun t n =>
      match t.mapInfo n with
      | none => t
      | some info =>
        let bucket := (entryToBucket d nUBuckets n).getD 0
        let nUBucketPos := info.toCService.GetBucketPosition t.nKey true bucket
        if 2 ≤ d.format ∧ nUBuckets = ADDRMAN_NEW_BUCKET_COUNT ∧
            t.vvNew bucket nUBucketPos = none ∧ info.nRefCount < ADDRMAN_NEW_BUCKETS_PER_ADDRESS ∧
            serialized_asmap_version = supplied_asmap_version then
          -- bucketing has not changed: use the serialized bucket position
          { t with
              vvNew := updTable t.vvNew bucket nUBucketPos (some n)
              mapInfo := updMap t.mapInfo n (some { info with nRefCount := info.nRefCount + 1 }) }
        else
          -- re-bucket the entry from its primary source address
          let bucket2 := info.toCService.GetNewBucket t.nKey info.source
          let nUBucketPos2 := info.toCService.GetBucketPosition t.nKey true bucket2
          if t.vvNew bucket2 nUBucketPos2 = none then
            { t with
                vvNew := updTable t.vvNew bucket2 nUBucketPos2 (some n)
                mapInfo := updMap t.mapInfo n (some { info with nRefCount := info.nRefCount + 1 }) }
          else t)
    s

/-- The pruning loop of `Unserialize`: delete every record that ended up
with refcount 0 outside the tried table. -/
def unserPrune (s : AddrMan) : AddrMan :=
  (List.range s.nIdCount).foldl
    (fun t id =>
      match t.mapInfo id with
      | none => t
      | some info =>
        if info.fInTried = false ∧ info.nRefCount = 0 then Delete t id else t)
    s

/-- `CAddrMan::Unserialize`. Every `throw` of the C++ implementation is an
`Except.error`; on a successful parse the caller receives the rebuilt
store. In the byte stream the record and bucket lists are self-delimiting,
so a token count differing from the announced one means the stream ran
out or is misaligned; both surface as read failures. -/
def Unserialize (d : SerData) : Except String AddrMan :=
  if 3 < d.format then
    .error "Unsupported format of addrman database"
  else if d.nKeySize ≠ 32 then
    .error "Incorrect keysize in addrman deserialization"
  else
    let nUBuckets : Nat :=
      if 1 ≤ d.format then d.nUBucketsRaw ^^^ (1 <<< 30) else d.nUBucketsRaw
    if (ADDRMAN_NEW_BUCKET_COUNT * ADDRMAN_BUCKET_SIZE : Int) < d.nNew then
      .error "Corrupt CAddrMan serialization, nNew exceeds limit."
    else if (ADDRMAN_TRIED_BUCKET_COUNT * ADDRMAN_BUCKET_SIZE : Int) < d.nTried then
      .error "Corrupt CAddrMan serialization, nTried exceeds limit."
    else if d.newInfos.length < d.nNew.toNat then
      .error "addrman stream ran out reading new records"
    else if d.triedInfos.length < d.nTried.toNat then
      .error "addrman stream ran out reading tried records"
    else if d.bucketEntries.length < nUBuckets then
      .error "addrman stream ran out reading bucket contents"
    else
      let s0 := { AddrMan.clear d.nKey with nNew := d.nNew, nTried := d.nTried }
      let s1 := { unserReadNew d s0 with nIdCount := d.nNew.toNat }
      let readTried := unserReadTried d s1
      let s2 := { readTried.1 with nTried := d.nTried - readTried.2 }
      let s3 := unserPlaceNew d nUBuckets s2
      .ok (unserPrune s3)

/-- `C8`: unserialize surfaces a deserialization failure to the caller
when the version byte is 4 or greater, when the keysize byte differs from
32, or when the serialized new-count exceeds 1024·64 or the serialized
tried-count exceeds 256·64. -/
theorem unserialize_rejects (d : SerData)
    (h : 4 ≤ d.format ∨ d.nKeySize ≠ 32 ∨
      (1024 * 64 : Int) < d.nNew ∨ (256 * 64 : Int) < d.nTried) :
    ∃ e, Unserialize d = .error e := by
  unfold Unserialize
  by_cases h1 : 3 < d.format
  · exact ⟨_, by rw [if_pos h1]⟩
  · rw [if_neg h1]
    by_cases h2 : d.nKeySize ≠ 32
    · exact ⟨_, by rw [if_pos h2]⟩
    · rw [if_neg h2]
      by_cases h3 : (ADDRMAN_NEW_BUCKET_COUNT * ADDRMAN_BUCKET_SIZE : Int) < d.nNew
      · exact ⟨_, by rw [if_pos h3]⟩
      · rw [if_neg h3]
        by_cases h4 : (ADDRMAN_TRIED_BUCKET_COUNT * ADDRMAN_BUCKET_SIZE : Int) < d.nTried
        · exact ⟨_, by rw [if_pos h4]⟩
        · exfalso
          rcases h with h | h | h | h
          · exact h1 (by omega)
          · exact h2 h
          · exact h3 (by simpa [ADDRMAN_NEW_BUCKET_COUNT, ADDRMAN_BUCKET_SIZE] using h)
          · exact h4 (by simpa [ADDRMAN_TRIED_BUCKET_COUNT, ADDRMAN_BUCKET_SIZE] using h)

/-- `C8` witness: a stream with version byte 4 is rejected. -/
theorem unserialize_rejects_witness :
    ∃ e, Unserialize
      { format := 4, nKeySize := 32, nKey := 0, nNew := 0, nTried := 0,
        nUBucketsRaw := 0, newInfos := [], triedInfos := [],
        bucketEntries := [], asmapVersion := 0 } = .error e :=
  unserialize_rejects _ (Or.inl (by decide))

-- `Add_` on an already-known address never reports a new record.
theorem add_existing_false (s : AddrMan) (addr : CAddress) (source : CNetAddr)
    (pen nNow : Int) (draw : Nat) (nId : Nat) (pinfo : CAddrInfo)
    (hf : Find s addr.toCNetAddr = some (nId, pinfo)) :
    (Add_ s addr source pen nNow draw).1 = false := by
  by_cases hr : addr.routable = false
  · simp [Add_, hr]
  · simp only [Add_, if_neg hr, hf]
    repeat' split
    all_goals rfl

-- `Add_` reports a new record exactly when the address is routable and
-- previously unknown.
theorem add_true_iff (s : AddrMan) (addr : CAddress) (source : CNetAddr)
    (pen nNow : Int) (draw : Nat) :
    (Add_ s addr source pen nNow draw).1 = true ↔
      addr.routable = true ∧ Find s addr.toCNetAddr = none := by
  constructor
  · intro h
    by_cases hr : addr.routable = false
    · rw [show (Add_ s addr source pen nNow draw).1 = false by simp [Add_, hr]] at h
      exact absurd h (by simp)
    · rcases hfind : Find s addr.toCNetAddr with _ | p
      · exact ⟨by revert hr; cases addr.routable <;> simp, rfl⟩
      · rw [add_existing_false s addr source pen nNow draw p.1 p.2 hfind] at h
        exact absurd h (by simp)
  · rintro ⟨hr, hn⟩
    have hr2 : ¬ (addr.routable = false) := by simp [hr]
    simp only [Add_, if_neg hr2, hn]

/-- `C3`: `add(address, source, penalty)` returns false for every
non-routable address; for an address that already has a record it returns
false when the claimed time is zero or not newer than the stored advertised
time (after the periodic refresh), when the record is already in the tried
table, when its refcount has reached 8, or when the stochastic gate fails
(the draw of the `randrange(2^refcount)` gate is nonzero); and it returns
true if and only if this call created a new record (which happens exactly
for a routable, previously unknown address). -/
theorem add_spec (s : AddrMan) (addr : CAddress) (source : CNetAddr)
    (pen nNow : Int) (draw : Nat) :
    (addr.routable = false → (Add_ s addr source pen nNow draw).1 = false) ∧
    (∀ nId pinfo, Find s addr.toCNetAddr = some (nId, pinfo) →
      ((addr.nTime = 0 ∨
          ((addUpdateExisting pinfo addr (if addr.toCNetAddr = source then 0 else pen) nNow).nTime ≠ 0 ∧
            addr.nTime ≤ (addUpdateExisting pinfo addr (if addr.toCNetAddr = source then 0 else pen) nNow).nTime) →
        (Add_ s addr source pen nNow draw).1 = false) ∧
       (pinfo.fInTried = true → (Add_ s addr source pen nNow draw).1 = false) ∧
       (pinfo.nRefCount = 8 → (Add_ s addr source pen nNow draw).1 = false) ∧
       (draw % 2 ^ pinfo.nRefCount.toNat ≠ 0 → (Add_ s addr source pen nNow draw).1 = false))) ∧
    ((Add_ s addr source pen nNow draw).1 = true ↔
      addr.routable = true ∧ Find s addr.toCNetAddr = none) := by
  refine ⟨fun hr => by simp [Add_, hr], fun nId pinfo hf => ?_, add_true_iff ..⟩
  exact ⟨fun _ => add_existing_false _ _ _ _ _ _ _ _ hf,
    fun _ => add_existing_false _ _ _ _ _ _ _ _ hf,
    fun _ => add_existing_false _ _ _ _ _ _ _ _ hf,
    fun _ => add_existing_false _ _ _ _ _ _ _ _ hf⟩

/-- `C3` witness: adding a routable, unknown address to the empty store
reports a new record. -/
theorem add_spec_witness :
    (Add_ (AddrMan.clear 0) addrA srcN 0 100000 0).1 = true :=
  (add_spec (AddrMan.clear 0) addrA srcN 0 100000 0).2.2.mpr ⟨rfl, rfl⟩

/-! ## Store invariants -/

theorem ADDRMAN_NEW_BUCKET_COUNT_eq : ADDRMAN_NEW_BUCKET_COUNT = 1024 := by decide

theorem ADDRMAN_TRIED_BUCKET_COUNT_eq : ADDRMAN_TRIED_BUCKET_COUNT = 256 := by decide

theorem ADDRMAN_BUCKET_SIZE_eq : ADDRMAN_BUCKET_SIZE = 64 := by decide

/-- The keyed position of record `info` in new bucket `b`. -/
def newPosn (nKey : Nat) (info : CAddrInfo) (b : Nat) : Nat :=
  info.toCService.GetBucketPosition nKey true b

/-- The keyed tried bucket of record `info`. -/
def triedBkt (nKey : Nat) (info : CAddrInfo) : Nat :=
  info.toCService.GetTriedBucket nKey

/-- The keyed position of record `info` in its tried bucket. -/
def triedPosn (nKey : Nat) (info : CAddrInfo) : Nat :=
  info.toCService.GetBucketPosition nKey false (triedBkt nKey info)

/-- The set of new buckets whose keyed slot holds `id`. -/
def newRefs (s : AddrMan) (id : Nat) (info : CAddrInfo) : Finset Nat :=
  (Finset.range ADDRMAN_NEW_BUCKET_COUNT).filter
    (fun b => s.vvNew b (newPosn s.nKey info b) = some id)

/-- `id` carries a record outside the tried table. -/
def isNewRecord (s : AddrMan) (id : Nat) : Bool :=
  match s.mapInfo id with
  | some info => !info.fInTried
  | none => false

/-- `id` carries a record inside the tried table. -/
def isTriedRecord (s : AddrMan) (id : Nat) : Bool :=
  match s.mapInfo id with
  | some info => info.fInTried
  | none => false

/-- Number of records outside the tried table. -/
def newCount (s : AddrMan) : Nat :=
  ((Finset.range s.nIdCount).filter (fun id => isNewRecord s id = true)).card

/-- Number of records inside the tried table. -/
def triedCount (s : AddrMan) : Nat :=
  ((Finset.range s.nIdCount).filter (fun id => isTriedRecord s id = true)).card

/-- The internal consistency invariant of the store (the properties
`CAddrMan::ConsistencyCheck` asserts), generalized for use across the
intermediate states of the mutation operations: `c` is the current offset
of the `nNew` counter against the number of non-tried records, and ids
satisfying `X` are "parked" — created or unhooked records that presently
hold no new slot and have refcount 0 (their refcount obligation is
suspended). The external-boundary invariant is `Inv s = InvC s 0 ∅`. -/
structure InvC (s : AddrMan) (c : Int) (X : Nat → Prop) : Prop where
  hNew : s.nNew = (newCount s : Int) + c
  hTried : s.nTried = (triedCount s : Int)
  hLen : s.vRandom.length = newCount s + triedCount s
  hDom : ∀ id, s.nIdCount ≤ id → s.mapInfo id = none
  hTriedRec : ∀ id info, s.mapInfo id = some info → info.fInTried = true →
    info.nRefCount = 0 ∧ 0 < info.nLastSuccess ∧
    s.vvTried (triedBkt s.nKey info) (triedPosn s.nKey info) = some id
  hNewRec : ∀ id info, ¬ X id → s.mapInfo id = some info → info.fInTried = false →
    0 < info.nRefCount ∧ info.nRefCount = ((newRefs s id info).card : Int)
  hX : ∀ id, X id → ∃ info, s.mapInfo id = some info ∧ info.fInTried = false ∧
    info.nRefCount = 0 ∧ ∀ b p, s.vvNew b p ≠ some id
  hSlotNew : ∀ b p id, s.vvNew b p = some id → b < ADDRMAN_NEW_BUCKET_COUNT ∧
    ∃ info, s.mapInfo id = some info ∧ info.fInTried = false ∧ p = newPosn s.nKey info b
  hSlotTried : ∀ b p id, s.vvTried b p = some id →
    ∃ info, s.mapInfo id = some info ∧ info.fInTried = true ∧
      b = triedBkt s.nKey info ∧ p = triedPosn s.nKey info
  hRandPos : ∀ id info, s.mapInfo id = some info →
    0 ≤ info.nRandomPos ∧ info.nRandomPos.toNat < s.vRandom.length ∧
    s.vRandom.getD info.nRandomPos.toNat 0 = id
  hRandMem : ∀ i, i < s.vRandom.length →
    ∃ info, s.mapInfo (s.vRandom.getD i 0) = some info ∧ info.nRandomPos = (i : Int)
  hAddr1 : ∀ a id, s.mapAddr a = some id →
    ∃ info, s.mapInfo id = some info ∧ info.toCNetAddr = a
  hAddr2 : ∀ id info, s.mapInfo id = some info → s.mapAddr info.toCNetAddr = some id

/-- The external-boundary invariant. -/
def StoreInv (s : AddrMan) : Prop := InvC s 0 (fun _ => False)

/-- The table invariants as the specification states them: the random
vector's length is `new-count + tried-count`; a tried record has refcount
0, positive last-success and exactly one tried slot holding its id; a
non-tried record has positive refcount and exactly refcount new slots
holding its id, each at the keyed position for its bucket. -/
def ClaimedInvariants (s : AddrMan) : Prop :=
  ((s.vRandom.length : Int) = s.nNew + s.nTried) ∧
  (∀ id info, s.mapInfo id = some info → info.fInTried = true →
    info.nRefCount = 0 ∧ 0 < info.nLastSuccess ∧
    (∃ b p, s.vvTried b p = some id) ∧
    (∀ b p b2 p2, s.vvTried b p = some id → s.vvTried b2 p2 = some id →
      b = b2 ∧ p = p2)) ∧
  (∀ id info, s.mapInfo id = some info → info.fInTried = false →
    0 < info.nRefCount ∧
    info.nRefCount =
      ((((Finset.range ADDRMAN_NEW_BUCKET_COUNT) ×ˢ (Finset.range ADDRMAN_BUCKET_SIZE)).filter
        (fun bp => s.vvNew bp.1 bp.2 = some id)).card : Int) ∧
    ∀ b p, s.vvNew b p = some id → p = info.toCService.GetBucketPosition s.nKey true b)

/-- One external operation, with arbitrary arguments and oracle draws (the
claim's reading: no constraint at all on the arguments). -/
inductive StepAny : AddrMan → AddrMan → Prop
  | add (s : AddrMan) (addr : CAddress) (source : CNetAddr) (pen nNow : Int) (draw : Nat) :
      StepAny s (Add_ s addr source pen nNow draw).2
  | good (s : AddrMan) (addr : CService) (tbe : Bool) (nTime : Int) (nRnd : Nat) :
      StepAny s (Good_ s addr tbe nTime nRnd)
  | attempt (s : AddrMan) (addr : CService) (fCount : Bool) (nTime : Int) :
      StepAny s (Attempt_ s addr fCount nTime)
  | connected (s : AddrMan) (addr : CService) (nTime : Int) :
      StepAny s (Connected_ s addr nTime)
  | set_services (s : AddrMan) (addr : CService) (sv : Nat) :
      StepAny s (SetServices_ s addr sv)
  | select (s : AddrMan) : StepAny s (Select_ s)
  | get_addr (s : AddrMan) (ma mp : Nat) (nNow : Int) (draws : Nat → Nat) :
      StepAny s (GetAddr_ s ma mp nNow draws).2
  | resolve_collisions (s : AddrMan) (nNow : Int) (rnds : Nat → Nat) :
      StepAny s (ResolveCollisions_ s nNow rnds)
  | select_tried_collision (s : AddrMan) (draw : Nat) :
      StepAny s (SelectTriedCollision_ s draw)

/-- One external operation where every wall-clock time handed to `good`
(directly or through `resolve_collisions`) is positive, as `GetAdjustedTime`
always is. -/
inductive Step : AddrMan → AddrMan → Prop
  | add (s : AddrMan) (addr : CAddress) (source : CNetAddr) (pen nNow : Int) (draw : Nat) :
      Step s (Add_ s addr source pen nNow draw).2
  | good (s : AddrMan) (addr : CService) (tbe : Bool) (nTime : Int) (hpos : 0 < nTime)
      (nRnd : Nat) : Step s (Good_ s addr tbe nTime nRnd)
  | attempt (s : AddrMan) (addr : CService) (fCount : Bool) (nTime : Int) :
      Step s (Attempt_ s addr fCount nTime)
  | connected (s : AddrMan) (addr : CService) (nTime : Int) :
      Step s (Connected_ s addr nTime)
  | set_services (s : AddrMan) (addr : CService) (sv : Nat) :
      Step s (SetServices_ s addr sv)
  | select (s : AddrMan) : Step s (Select_ s)
  | get_addr (s : AddrMan) (ma mp : Nat) (nNow : Int) (draws : Nat → Nat) :
      Step s (GetAddr_ s ma mp nNow draws).2
  | resolve_collisions (s : AddrMan) (nNow : Int) (hpos : 0 < nNow) (rnds : Nat → Nat) :
      Step s (ResolveCollisions_ s nNow rnds)
  | select_tried_collision (s : AddrMan) (draw : Nat) :
      Step s (SelectTriedCollision_ s draw)

/-- Reachable from an empty store by arbitrary external operations. -/
def ReachableAny (s : AddrMan) : Prop :=
  ∃ key, Relation.ReflTransGen StepAny (AddrMan.clear key) s

/-- Reachable from an empty store by external operations with positive
`good` times. -/
def Reachable (s : AddrMan) : Prop :=
  ∃ key, Relation.ReflTransGen Step (AddrMan.clear key) s

-- The empty store satisfies the invariant.
theorem inv_clear (key : Nat) : StoreInv (AddrMan.clear key) := by
  constructor <;>
    simp [AddrMan.clear, newCount, triedCount, isNewRecord, isTriedRecord]

theorem updMap_self (m : Nat → Option CAddrInfo) (id : Nat) (v : Option CAddrInfo) :
    updMap m id v id = v := by simp [updMap]

theorem updMap_ne (m : Nat → Option CAddrInfo) (id k : Nat) (v : Option CAddrInfo)
    (h : k ≠ id) : updMap m id v k = m k := by simp [updMap, h]

theorem updTable_self (t : Nat → Nat → Option Nat) (b p : Nat) (v : Option Nat) :
    updTable t b p v b p = v := by simp [updTable]

theorem updTable_ne (t : Nat → Nat → Option Nat) (b p : Nat) (v : Option Nat)
    (b2 p2 : Nat) (h : ¬ (b2 = b ∧ p2 = p)) : updTable t b p v b2 p2 = t b2 p2 := by
  simp only [updTable, if_neg h]

-- Counting a point change: the two filters differ at most at `x`.
theorem card_filter_update (n x : Nat) {f g : Nat → Bool}
    (h : ∀ k, k ≠ x → f k = g k) :
    ((Finset.range n).filter (fun k => g k = true)).card +
      (if x < n ∧ f x = true then 1 else 0) =
    ((Finset.range n).filter (fun k => f k = true)).card +
      (if x < n ∧ g x = true then 1 else 0) := by
  classical
  by_cases hx : x < n
  · have hmem : x ∈ Finset.range n := Finset.mem_range.mpr hx
    have e1 : ((Finset.range n).filter (fun k => f k = true)).card
        = (∑ a ∈ (Finset.range n).erase x, (if f a = true then 1 else 0))
          + (if f x = true then 1 else 0) := by
      rw [Finset.card_filter, ← Finset.sum_erase_add _ _ hmem]
    have e2 : ((Finset.range n).filter (fun k => g k = true)).card
        = (∑ a ∈ (Finset.range n).erase x, (if g a = true then 1 else 0))
          + (if g x = true then 1 else 0) := by
      rw [Finset.card_filter, ← Finset.sum_erase_add _ _ hmem]
    have heq : (∑ a ∈ (Finset.range n).erase x, (if f a = true then 1 else 0))
        = ∑ a ∈ (Finset.range n).erase x, (if g a = true then 1 else 0) :=
      Finset.sum_congr rfl (fun k hk => by rw [h k (Finset.ne_of_mem_erase hk)])
    rw [e1, e2, heq]
    simp only [hx, true_and]
    omega
  · have he : (Finset.range n).filter (fun k => g k = true)
        = (Finset.range n).filter (fun k => f k = true) := by
      apply Finset.filter_congr
      intro k hk
      have hne : k ≠ x := fun e => hx (e ▸ Finset.mem_range.mp hk)
      rw [h k hne]
    rw [he]
    simp [hx]

theorem newCount_eq_of {s t : AddrMan} (h1 : t.nIdCount = s.nIdCount)
    (h2 : ∀ k, isNewRecord t k = isNewRecord s k) : newCount t = newCount s := by
  unfold newCount
  rw [h1]
  congr 1
  apply Finset.filter_congr
  intro k _
  rw [h2]

theorem triedCount_eq_of {s t : AddrMan} (h1 : t.nIdCount = s.nIdCount)
    (h2 : ∀ k, isTriedRecord t k = isTriedRecord s k) : triedCount t = triedCount s := by
  unfold triedCount
  rw [h1]
  congr 1
  apply Finset.filter_congr
  intro k _
  rw [h2]

theorem invC_set_nLastGood {s : AddrMan} {c : Int} {X : Nat → Prop}
    (hs : InvC s c X) (t : Int) : InvC { s with nLastGood := t } c X := by
  obtain ⟨h1, h2, h3, h4, h5, h6, h7, h8, h9, h10, h11, h12, h13⟩ := hs
  exact ⟨h1, h2, h3, h4, h5, h6, h7, h8, h9, h10, h11, h12, h13⟩

theorem invC_set_collisions {s : AddrMan} {c : Int} {X : Nat → Prop}
    (hs : InvC s c X) (l : List Nat) : InvC { s with m_tried_collisions := l } c X := by
  obtain ⟨h1, h2, h3, h4, h5, h6, h7, h8, h9, h10, h11, h12, h13⟩ := hs
  exact ⟨h1, h2, h3, h4, h5, h6, h7, h8, h9, h10, h11, h12, h13⟩

theorem invC_of_no_exempt {s : AddrMan} {c : Int} {X : Nat → Prop}
    (hs : InvC s c X) (h : ∀ k, ¬ X k) : InvC s c (fun _ => False) := by
  obtain ⟨h1, h2, h3, h4, h5, h6, h7, h8, h9, h10, h11, h12, h13⟩ := hs
  exact ⟨h1, h2, h3, h4, h5, fun id info _ => h6 id info (h id), fun id hid => absurd hid (by simp),
    h8, h9, h10, h11, h12, h13⟩

theorem newPosn_congr {nKey : Nat} {a b : CAddrInfo} (h : b.toCService = a.toCService)
    (bk : Nat) : newPosn nKey b bk = newPosn nKey a bk := by
  unfold newPosn
  rw [h]

theorem triedBkt_congr {nKey : Nat} {a b : CAddrInfo} (h : b.toCService = a.toCService) :
    triedBkt nKey b = triedBkt nKey a := by
  unfold triedBkt
  rw [h]

theorem triedPosn_congr {nKey : Nat} {a b : CAddrInfo} (h : b.toCService = a.toCService) :
    triedPosn nKey b = triedPosn nKey a := by
  unfold triedPosn triedBkt
  rw [h]

theorem netaddr_congr {a b : CAddrInfo} (h : b.toCService = a.toCService) :
    b.toCNetAddr = a.toCNetAddr :=
  congrArg CService.toCNetAddr h

theorem newRefs_congr_info {s : AddrMan} {id : Nat} {a b : CAddrInfo}
    (hsvc : b.toCService = a.toCService) : newRefs s id b = newRefs s id a := by
  unfold newRefs
  apply Finset.filter_congr
  intro k _
  rw [newPosn_congr hsvc]

-- Rewriting one record without touching its service identity, flag,
-- refcount or random position preserves the invariant (provided a record
-- kept in tried keeps a positive last-success).
theorem invC_update_record {s : AddrMan} {c : Int} {X : Nat → Prop}
    (hs : InvC s c X) {nid : Nat} {a b : CAddrInfo}
    (ha : s.mapInfo nid = some a)
    (hsvc : b.toCService = a.toCService)
    (hfl : b.fInTried = a.fInTried)
    (hrc : b.nRefCount = a.nRefCount)
    (hrp : b.nRandomPos = a.nRandomPos)
    (hls : b.fInTried = true → 0 < b.nLastSuccess) :
    InvC { s with mapInfo := updMap s.mapInfo nid (some b) } c X := by
  obtain ⟨h1, h2, h3, h4, h5, h6, h7, h8, h9, h10, h11, h12, h13⟩ := hs
  have hNewCnt : newCount { s with mapInfo := updMap s.mapInfo nid (some b) } = newCount s := by
    apply newCount_eq_of
    · rfl
    · intro k
      by_cases hk : k = nid
      · subst hk
        simp [isNewRecord, updMap, ha, hfl]
      · simp [isNewRecord, updMap, hk]
  have hTriedCnt : triedCount { s with mapInfo := updMap s.mapInfo nid (some b) } = triedCount s := by
    apply triedCount_eq_of
    · rfl
    · intro k
      by_cases hk : k = nid
      · subst hk
        simp [isTriedRecord, updMap, ha, hfl]
      · simp [isTriedRecord, updMap, hk]
  have hid : nid < s.nIdCount := by
    by_contra hlt
    rw [h4 nid (le_of_not_lt hlt)] at ha
    cases ha
  refine ⟨?_, ?_, ?_, ?_, ?_, ?_, ?_, ?_, ?_, ?_, ?_, ?_, ?_⟩ <;> dsimp only
  · rw [hNewCnt]; exact h1
  · rw [hTriedCnt]; exact h2
  · rw [hNewCnt, hTriedCnt]; exact h3
  · intro k hk
    have hne : k ≠ nid := fun e => absurd hid (by omega)
    rw [updMap_ne _ _ _ _ hne]
    exact h4 k hk
  · intro k info hinfo htr
    by_cases hk : k = nid
    · subst hk
      rw [updMap_self] at hinfo
      obtain rfl : b = info := Option.some.inj hinfo
      obtain ⟨ar0, _, aslot⟩ := h5 k a ha (hfl ▸ htr)
      refine ⟨hrc.trans ar0, hls htr, ?_⟩
      rw [triedBkt_congr hsvc, triedPosn_congr hsvc]
      exact aslot
    · rw [updMap_ne _ _ _ _ hk] at hinfo
      exact h5 k info hinfo htr
  · intro k info hX hinfo hfl2
    by_cases hk : k = nid
    · subst hk
      rw [updMap_self] at hinfo
      obtain rfl : b = info := Option.some.inj hinfo
      obtain ⟨apos, acard⟩ := h6 k a hX ha (hfl ▸ hfl2)
      refine ⟨by rw [hrc]; exact apos, ?_⟩
      have hnr : newRefs { s with mapInfo := updMap s.mapInfo k (some b) } k b
          = newRefs s k a := newRefs_congr_info hsvc
      rw [hnr, hrc]
      exact acard
    · rw [updMap_ne _ _ _ _ hk] at hinfo
      exact h6 k info hX hinfo hfl2
  · intro k hXk
    obtain ⟨info, hmi, hf2, hr2, hslots⟩ := h7 k hXk
    by_cases hk : k = nid
    · subst hk
      rw [ha] at hmi
      obtain rfl : a = info := Option.some.inj hmi
      exact ⟨b, updMap_self .., hfl.trans hf2, hrc.trans hr2, hslots⟩
    · exact ⟨info, by rw [updMap_ne _ _ _ _ hk]; exact hmi, hf2, hr2, hslots⟩
  · intro b2 p2 k hslot
    obtain ⟨hb2, info, hmi, hf2, hp2⟩ := h8 b2 p2 k hslot
    by_cases hk : k = nid
    · subst hk
      rw [ha] at hmi
      obtain rfl : a = info := Option.some.inj hmi
      exact ⟨hb2, b, updMap_self .., hfl.trans hf2, by rw [newPosn_congr hsvc]; exact hp2⟩
    · exact ⟨hb2, info, by rw [updMap_ne _ _ _ _ hk]; exact hmi, hf2, hp2⟩
  · intro b2 p2 k hslot
    obtain ⟨info, hmi, hf2, hb2, hp2⟩ := h9 b2 p2 k hslot
    by_cases hk : k = nid
    · subst hk
      rw [ha] at hmi
      obtain rfl : a = info := Option.some.inj hmi
      exact ⟨b, updMap_self .., hfl.trans hf2,
        by rw [triedBkt_congr hsvc]; exact hb2, by rw [triedPosn_congr hsvc]; exact hp2⟩
    · exact ⟨info, by rw [updMap_ne _ _ _ _ hk]; exact hmi, hf2, hb2, hp2⟩
  · intro k info hinfo
    by_cases hk : k = nid
    · subst hk
      rw [updMap_self] at hinfo
      obtain rfl : b = info := Option.some.inj hinfo
      rw [hrp]
      exact h10 k a ha
    · rw [updMap_ne _ _ _ _ hk] at hinfo
      exact h10 k info hinfo
  · intro i hi
    obtain ⟨info, hmi, hpos⟩ := h11 i hi
    by_cases hk : s.vRandom.getD i 0 = nid
    · rw [hk] at hmi ⊢
      rw [ha] at hmi
      obtain rfl : a = info := Option.some.inj hmi
      exact ⟨b, updMap_self .., hrp.trans hpos⟩
    · exact ⟨info, by rw [updMap_ne _ _ _ _ hk]; exact hmi, hpos⟩
  · intro addr2 k hmap
    obtain ⟨info, hmi, hna⟩ := h12 addr2 k hmap
    by_cases hk : k = nid
    · subst hk
      rw [ha] at hmi
      obtain rfl : a = info := Option.some.inj hmi
      exact ⟨b, updMap_self .., (netaddr_congr hsvc).trans hna⟩
    · exact ⟨info, by rw [updMap_ne _ _ _ _ hk]; exact hmi, hna⟩
  · intro k info hinfo
    by_cases hk : k = nid
    · subst hk
      rw [updMap_self] at hinfo
      obtain rfl : b = info := Option.some.inj hinfo
      rw [netaddr_congr hsvc]
      exact h13 k a ha
    · rw [updMap_ne _ _ _ _ hk] at hinfo
      exact h13 k info hinfo

theorem getD_set_self {l : List Nat} {i : Nat} {v : Nat} (h : i < l.length) :
    (l.set i v).getD i 0 = v := by
  rw [List.getD_eq_getElem?_getD, List.getElem?_set_self']
  simp [h]

theorem getD_set_ne (l : List Nat) {i j : Nat} (v : Nat) (h : i ≠ j) :
    (l.set i v).getD j 0 = l.getD j 0 := by
  rw [List.getD_eq_getElem?_getD, List.getElem?_set_ne h, ← List.getD_eq_getElem?_getD]

/-- Forget the random position of a record (used to compare states that
differ only in the shuffle bookkeeping). -/
def stripPos (a : CAddrInfo) : CAddrInfo := { a with nRandomPos := 0 }

theorem stripPos_fields {a b : CAddrInfo} (h : stripPos b = stripPos a) :
    b.toCService = a.toCService ∧ b.fInTried = a.fInTried ∧ b.nRefCount = a.nRefCount ∧
    b.nLastSuccess = a.nLastSuccess ∧ b.toCNetAddr = a.toCNetAddr := by
  refine ⟨congrArg (fun x => x.toCService) h, congrArg (fun x => x.fInTried) h,
    congrArg (fun x => x.nRefCount) h, congrArg (fun x => x.nLastSuccess) h,
    congrArg (fun x => x.toCNetAddr) h⟩

-- The invariant transfers along a state change that keeps the tables, the
-- indexes, the counters and every record's non-positional fields, as long
-- as the random-vector bookkeeping is re-established.
theorem invC_transfer {s t : AddrMan} {c : Int} {X : Nat → Prop} (hs : InvC s c X)
    (hIdC : t.nIdCount = s.nIdCount) (hNN : t.nNew = s.nNew) (hNT : t.nTried = s.nTried)
    (hKey : t.nKey = s.nKey)
    (hvvN : t.vvNew = s.vvNew) (hvvT : t.vvTried = s.vvTried) (hma : t.mapAddr = s.mapAddr)
    (hlen : t.vRandom.length = s.vRandom.length)
    (hrel : ∀ k, (t.mapInfo k).map stripPos = (s.mapInfo k).map stripPos)
    (hpos : ∀ k info, t.mapInfo k = some info →
      0 ≤ info.nRandomPos ∧ info.nRandomPos.toNat < t.vRandom.length ∧
      t.vRandom.getD info.nRandomPos.toNat 0 = k)
    (hmem : ∀ i, i < t.vRandom.length →
      ∃ info, t.mapInfo (t.vRandom.getD i 0) = some info ∧ info.nRandomPos = (i : Int)) :
    InvC t c X := by
  obtain ⟨h1, h2, h3, h4, h5, h6, h7, h8, h9, h10, h11, h12, h13⟩ := hs
  have hget : ∀ k a, s.mapInfo k = some a →
      ∃ b, t.mapInfo k = some b ∧ stripPos b = stripPos a := by
    intro k a hk
    have := hrel k
    rw [hk] at this
    rcases hb : t.mapInfo k with _ | b
    · rw [hb] at this
      exact absurd this (by simp)
    · rw [hb] at this
      exact ⟨b, rfl, Option.some.inj (by simpa using this)⟩
  have hget2 : ∀ k b, t.mapInfo k = some b →
      ∃ a, s.mapInfo k = some a ∧ stripPos b = stripPos a := by
    intro k b hk
    have := hrel k
    rw [hk] at this
    rcases ha : s.mapInfo k with _ | a
    · rw [ha] at this
      exact absurd this (by simp)
    · rw [ha] at this
      exact ⟨a, rfl, Option.some.inj (by simpa using this)⟩
  have hNewCnt : newCount t = newCount s := by
    apply newCount_eq_of hIdC
    intro k
    unfold isNewRecord
    rcases hb : t.mapInfo k with _ | b
    · rcases ha : s.mapInfo k with _ | a
      · simp only [hb, ha]
      · obtain ⟨b2, hb2, _⟩ := hget k a ha
        rw [hb] at hb2
        cases hb2
    · obtain ⟨a, ha, hstr⟩ := hget2 k b hb
      simp only [hb, ha]
      rw [(stripPos_fields hstr).2.1]
  have hTriedCnt : triedCount t = triedCount s := by
    apply triedCount_eq_of hIdC
    intro k
    unfold isTriedRecord
    rcases hb : t.mapInfo k with _ | b
    · rcases ha : s.mapInfo k with _ | a
      · simp only [hb, ha]
      · obtain ⟨b2, hb2, _⟩ := hget k a ha
        rw [hb] at hb2
        cases hb2
    · obtain ⟨a, ha, hstr⟩ := hget2 k b hb
      simp only [hb, ha]
      rw [(stripPos_fields hstr).2.1]
  refine ⟨?_, ?_, ?_, ?_, ?_, ?_, ?_, ?_, ?_, hpos, hmem, ?_, ?_⟩
  · rw [hNewCnt, hNN]; exact h1
  · rw [hTriedCnt, hNT]; exact h2
  · rw [hNewCnt, hTriedCnt, hlen]; exact h3
  · intro k hk
    rcases hb : t.mapInfo k with _ | b
    · rfl
    · obtain ⟨a, ha, _⟩ := hget2 k b hb
      rw [h4 k (hIdC ▸ hk)] at ha
      cases ha
  · intro k info hinfo htr
    obtain ⟨a, ha, hstr⟩ := hget2 k info hinfo
    obtain ⟨hsvc, hfl, hrc, hls, _⟩ := stripPos_fields hstr
    obtain ⟨ar, als, aslot⟩ := h5 k a ha (hfl ▸ htr)
    refine ⟨hrc.trans ar, hls ▸ als, ?_⟩
    rw [hvvT, hKey, triedBkt_congr hsvc, triedPosn_congr hsvc]
    exact aslot
  · intro k info hX hinfo hfl2
    obtain ⟨a, ha, hstr⟩ := hget2 k info hinfo
    obtain ⟨hsvc, hfl, hrc, _, _⟩ := stripPos_fields hstr
    obtain ⟨apos, acard⟩ := h6 k a hX ha (hfl ▸ hfl2)
    refine ⟨by rw [hrc]; exact apos, ?_⟩
    have : newRefs t k info = newRefs s k a := by
      unfold newRefs
      rw [hKey]
      apply Finset.filter_congr
      intro bk _
      rw [hvvN, newPosn_congr hsvc]
    rw [this, hrc]
    exact acard
  · intro k hXk
    obtain ⟨a, ha, haf, har, haslots⟩ := h7 k hXk
    obtain ⟨b, hb, hstr⟩ := hget k a ha
    obtain ⟨_, hfl, hrc, _, _⟩ := stripPos_fields hstr
    exact ⟨b, hb, hfl.trans haf, hrc.trans har, by rw [hvvN]; exact haslots⟩
  · intro b2 p2 k hslot
    rw [hvvN] at hslot
    obtain ⟨hb2, a, ha, haf, hap⟩ := h8 b2 p2 k hslot
    obtain ⟨b, hb, hstr⟩ := hget k a ha
    obtain ⟨hsvc, hfl, _, _, _⟩ := stripPos_fields hstr
    exact ⟨hb2, b, hb, hfl.trans haf, by rw [hKey, newPosn_congr hsvc]; exact hap⟩
  · intro b2 p2 k hslot
    rw [hvvT] at hslot
    obtain ⟨a, ha, haf, hab, hap⟩ := h9 b2 p2 k hslot
    obtain ⟨b, hb, hstr⟩ := hget k a ha
    obtain ⟨hsvc, hfl, _, _, _⟩ := stripPos_fields hstr
    exact ⟨b, hb, hfl.trans haf, by rw [hKey, triedBkt_congr hsvc]; exact hab,
      by rw [hKey, triedPosn_congr hsvc]; exact hap⟩
  · intro addr2 k hmap
    rw [hma] at hmap
    obtain ⟨a, ha, hna⟩ := h12 addr2 k hmap
    obtain ⟨b, hb, hstr⟩ := hget k a ha
    exact ⟨b, hb, (stripPos_fields hstr).2.2.2.2.trans hna⟩
  · intro k info hinfo
    obtain ⟨a, ha, hstr⟩ := hget2 k info hinfo
    rw [hma, (stripPos_fields hstr).2.2.2.2]
    exact h13 k a ha

theorem swapRandom_invC {s : AddrMan} {c : Int} {X : Nat → Prop}
    (hs : InvC s c X) {i j : Nat} (hi : i < s.vRandom.length) (hj : j < s.vRandom.length) :
    InvC (SwapRandom s i j) c X := by
  by_cases hij : i = j
  · rw [SwapRandom, if_pos hij]
    exact hs
  · obtain ⟨info1, hid1, hpos1⟩ := hs.hRandMem i hi
    obtain ⟨info2, hid2, hpos2⟩ := hs.hRandMem j hj
    set id1 := s.vRandom.getD i 0 with hd1
    set id2 := s.vRandom.getD j 0 with hd2
    have hne12 : id1 ≠ id2 := by
      intro he
      rw [he, hid2] at hid1
      obtain rfl : info2 = info1 := Option.some.inj hid1
      rw [hpos1] at hpos2
      exact hij (by exact_mod_cast hpos2)
    have hm2 : ∀ k, setRandomPos (setRandomPos s.mapInfo id1 (j : Int)) id2 (i : Int) k =
        if k = id2 then some { info2 with nRandomPos := (i : Int) }
        else if k = id1 then some { info1 with nRandomPos := (j : Int) }
        else s.mapInfo k := by
      intro k
      by_cases hk2 : k = id2
      · subst hk2
        simp only [setRandomPos, if_pos rfl, if_neg (Ne.symm hne12), hid2, Option.map_some']
      · by_cases hk1 : k = id1
        · subst hk1
          simp only [setRandomPos, if_neg hk2, if_pos rfl, hid1, Option.map_some']
        · simp only [setRandomPos, if_neg hk2, if_neg hk1]
    have hvj : ((s.vRandom.set i id2).set j id1).getD j 0 = id1 :=
      getD_set_self (by simpa using hj)
    have hvi : ((s.vRandom.set i id2).set j id1).getD i 0 = id2 := by
      rw [getD_set_ne _ _ (fun e => hij e.symm), getD_set_self hi]
    have hv : ∀ r, r ≠ i → r ≠ j → ((s.vRandom.set i id2).set j id1).getD r 0
        = s.vRandom.getD r 0 := by
      intro r hri hrj
      rw [getD_set_ne _ _ (fun e => hrj e.symm), getD_set_ne _ _ (fun e => hri e.symm)]
    have hSR : SwapRandom s i j = { s with
        mapInfo := setRandomPos (setRandomPos s.mapInfo id1 (j : Int)) id2 (i : Int)
        vRandom := (s.vRandom.set i id2).set j id1 } := by
      rw [SwapRandom, if_neg hij]
    rw [hSR]
    refine invC_transfer hs rfl rfl rfl rfl rfl rfl rfl ?_ ?_ ?_ ?_
    · dsimp only
      simp
    · intro k
      dsimp only
      rw [hm2 k]
      by_cases hk2 : k = id2
      · subst hk2
        rw [if_pos rfl, hid2]
        rfl
      · rw [if_neg hk2]
        by_cases hk1 : k = id1
        · subst hk1
          rw [if_pos rfl, hid1]
          rfl
        · rw [if_neg hk1]
    · intro k info hinfo
      dsimp only at hinfo ⊢
      rw [hm2 k] at hinfo
      by_cases hk2 : k = id2
      · subst hk2
        rw [if_pos rfl] at hinfo
        obtain rfl : { info2 with nRandomPos := (i : Int) } = info := Option.some.inj hinfo
        refine ⟨by positivity, ?_, ?_⟩
        · simpa using hi
        · simpa using hvi
      · rw [if_neg hk2] at hinfo
        by_cases hk1 : k = id1
        · subst hk1
          rw [if_pos rfl] at hinfo
          obtain rfl : { info1 with nRandomPos := (j : Int) } = info := Option.some.inj hinfo
          refine ⟨by positivity, ?_, ?_⟩
          · simpa using hj
          · simpa using hvj
        · rw [if_neg hk1] at hinfo
          obtain ⟨hnn, hlt, hgd⟩ := hs.hRandPos k info hinfo
          have hri : info.nRandomPos.toNat ≠ i := by
            intro e
            rw [e] at hgd
            exact hk1 hgd.symm
          have hrj : info.nRandomPos.toNat ≠ j := by
            intro e
            rw [e] at hgd
            exact hk2 hgd.symm
          refine ⟨hnn, by simpa using hlt, ?_⟩
          rw [hv _ hri hrj]
          exact hgd
    · intro r hr
      dsimp only at hr ⊢
      have hr' : r < s.vRandom.length := by simpa using hr
      by_cases hrj : r = j
      · subst hrj
        rw [hvj, hm2 id1, if_neg hne12, if_pos rfl]
        exact ⟨_, rfl, rfl⟩
      · by_cases hri : r = i
        · subst hri
          rw [hvi, hm2 id2, if_pos rfl]
          exact ⟨_, rfl, rfl⟩
        · rw [hv r hri hrj]
          obtain ⟨info, hmi, hp⟩ := hs.hRandMem r hr'
          have hne1 : s.vRandom.getD r 0 ≠ id1 := by
            intro e
            rw [e, hid1] at hmi
            obtain rfl : info1 = info := Option.some.inj hmi
            rw [hpos1] at hp
            exact hri (Eq.symm (by exact_mod_cast hp))
          have hne2 : s.vRandom.getD r 0 ≠ id2 := by
            intro e
            rw [e, hid2] at hmi
            obtain rfl : info2 = info := Option.some.inj hmi
            rw [hpos2] at hp
            exact hrj (Eq.symm (by exact_mod_cast hp))
          rw [hm2 _, if_neg hne2, if_neg hne1]
          exact ⟨info, hmi, hp⟩

theorem getD_dropLast (l : List Nat) {r : Nat} (h : r < l.length - 1) :
    l.dropLast.getD r 0 = l.getD r 0 := by
  rw [List.getD_eq_getElem?_getD, List.getD_eq_getElem?_getD, List.getElem?_dropLast]
  simp [h]

theorem setRandomPos_strip (m : Nat → Option CAddrInfo) (id : Nat) (p : Int) (k : Nat) :
    ((setRandomPos m id p) k).map stripPos = (m k).map stripPos := by
  unfold setRandomPos
  by_cases hk : k = id
  · subst hk
    rw [if_pos rfl, Option.map_map]
    rfl
  · rw [if_neg hk]

theorem swapRandom_strip (s : AddrMan) (i j k : Nat) :
    ((SwapRandom s i j).mapInfo k).map stripPos = (s.mapInfo k).map stripPos := by
  unfold SwapRandom
  split
  · rfl
  · dsimp only
    rw [setRandomPos_strip, setRandomPos_strip]

theorem swapRandom_length (s : AddrMan) (i j : Nat) :
    (SwapRandom s i j).vRandom.length = s.vRandom.length := by
  unfold SwapRandom
  split
  · rfl
  · simp

theorem swapRandom_getD_right (s : AddrMan) {i j : Nat} (hi : i < s.vRandom.length)
    (hj : j < s.vRandom.length) :
    (SwapRandom s i j).vRandom.getD j 0 = s.vRandom.getD i 0 := by
  unfold SwapRandom
  split
  · rename_i h
    rw [h]
  · dsimp only
    exact getD_set_self (by simpa using hj)

theorem swapRandom_vvNew (s : AddrMan) (i j : Nat) :
    (SwapRandom s i j).vvNew = s.vvNew := by
  unfold SwapRandom
  split <;> rfl

theorem swapRandom_vvTried (s : AddrMan) (i j : Nat) :
    (SwapRandom s i j).vvTried = s.vvTried := by
  unfold SwapRandom
  split <;> rfl

theorem swapRandom_mapAddr (s : AddrMan) (i j : Nat) :
    (SwapRandom s i j).mapAddr = s.mapAddr := by
  unfold SwapRandom
  split <;> rfl

theorem swapRandom_misc (s : AddrMan) (i j : Nat) :
    (SwapRandom s i j).nIdCount = s.nIdCount ∧ (SwapRandom s i j).nNew = s.nNew ∧
    (SwapRandom s i j).nTried = s.nTried ∧ (SwapRandom s i j).nKey = s.nKey ∧
    (SwapRandom s i j).nLastGood = s.nLastGood ∧
    (SwapRandom s i j).m_tried_collisions = s.m_tried_collisions := by
  unfold SwapRandom
  split <;> exact ⟨rfl, rfl, rfl, rfl, rfl, rfl⟩

theorem delete_invC {s : AddrMan} {c : Int} {X : Nat → Prop}
    (hs : InvC s c X) {nId : Nat} (hXn : X nId) :
    InvC (Delete s nId) c (fun k => X k ∧ k ≠ nId) := by
  obtain ⟨info, hmi, hflag, href, hnoslots⟩ := hs.hX nId hXn
  obtain ⟨hnn, hlt, hgd⟩ := hs.hRandPos nId info hmi
  have hlenpos : 0 < s.vRandom.length := by omega
  have hnid_lt : nId < s.nIdCount := by
    by_contra h
    rw [hs.hDom nId (le_of_not_lt h)] at hmi
    cases hmi
  unfold Delete
  rw [hmi]
  dsimp only
  have hj : s.vRandom.length - 1 < s.vRandom.length := by omega
  set i := info.nRandomPos.toNat with hidef
  set j := s.vRandom.length - 1 with hjdef
  have hs1 : InvC (SwapRandom s i j) c X := swapRandom_invC hs hlt hj
  set s1 := SwapRandom s i j with hs1def
  have hlen1 : s1.vRandom.length = s.vRandom.length := swapRandom_length s i j
  have hgd1 : s1.vRandom.getD j 0 = nId := by
    rw [hs1def, swapRandom_getD_right s hlt hj]
    exact hgd
  have hstr : ∀ k, (s1.mapInfo k).map stripPos = (s.mapInfo k).map stripPos :=
    fun k => swapRandom_strip s i j k
  have hmi1x : (s1.mapInfo nId).map stripPos = some (stripPos info) := by
    rw [hstr, hmi]
    rfl
  obtain ⟨info1, hmi1, hstr1⟩ :
      ∃ info1, s1.mapInfo nId = some info1 ∧ stripPos info1 = stripPos info := by
    rcases hb : s1.mapInfo nId with _ | b
    · rw [hb] at hmi1x
      exact absurd hmi1x (by simp)
    · rw [hb] at hmi1x
      exact ⟨b, rfl, Option.some.inj (by simpa using hmi1x)⟩
  obtain ⟨hsvc1, hfl1, hrc1, hls1, hna1⟩ := stripPos_fields hstr1
  have hpos1 : info1.nRandomPos = (j : Int) := by
    obtain ⟨infoj, hmj, hpj⟩ := hs1.hRandMem j (by omega)
    rw [hgd1, hmi1] at hmj
    obtain rfl : info1 = infoj := Option.some.inj hmj
    exact hpj
  have huniq : ∀ r, r < s1.vRandom.length → r ≠ j → s1.vRandom.getD r 0 ≠ nId := by
    intro r hr hrj he
    obtain ⟨infor, hmr, hpr⟩ := hs1.hRandMem r hr
    rw [he, hmi1] at hmr
    obtain rfl : info1 = infor := Option.some.inj hmr
    rw [hpos1] at hpr
    exact hrj (Eq.symm (by exact_mod_cast hpr))
  have hIdC1 : s1.nIdCount = s.nIdCount := (swapRandom_misc s i j).1
  have hNN1 : s1.nNew = s.nNew := (swapRandom_misc s i j).2.1
  have hNT1 : s1.nTried = s.nTried := (swapRandom_misc s i j).2.2.1
  have hnoslots1 : ∀ b p, s1.vvNew b p ≠ some nId := by
    intro b p
    rw [hs1def, swapRandom_vvNew]
    exact hnoslots b p
  have hcnts1 : (newCount s1 : Int) = (newCount s : Int) := by
    have e1 := hs1.hNew
    have e2 := hs.hNew
    omega
  have hcntt1 : (triedCount s1 : Int) = (triedCount s : Int) := by
    have e1 := hs1.hTried
    have e2 := hs.hTried
    omega
  have hag : ∀ k, k ≠ nId →
      isNewRecord s1 k = isNewRecord { s1 with
        vRandom := s1.vRandom.dropLast
        mapAddr := updAddr s1.mapAddr info.toCNetAddr none
        mapInfo := updMap s1.mapInfo nId none
        nNew := s1.nNew - 1 } k := by
    intro k hk
    unfold isNewRecord
    dsimp only
    rw [updMap_ne _ _ _ _ hk]
  have hnewCnt : newCount { s1 with
      vRandom := s1.vRandom.dropLast
      mapAddr := updAddr s1.mapAddr info.toCNetAddr none
      mapInfo := updMap s1.mapInfo nId none
      nNew := s1.nNew - 1 } + 1 = newCount s1 := by
    have h := card_filter_update s1.nIdCount nId hag
    rw [if_pos ⟨hIdC1 ▸ hnid_lt, by simp [isNewRecord, hmi1, hfl1, hflag]⟩,
      if_neg (by simp [isNewRecord, updMap])] at h
    unfold newCount
    dsimp only
    omega
  have htriedCnt : triedCount { s1 with
      vRandom := s1.vRandom.dropLast
      mapAddr := updAddr s1.mapAddr info.toCNetAddr none
      mapInfo := updMap s1.mapInfo nId none
      nNew := s1.nNew - 1 } = triedCount s1 := by
    apply triedCount_eq_of
    · rfl
    · intro k
      unfold isTriedRecord
      dsimp only
      by_cases hk : k = nId
      · subst hk
        simp only [updMap_self, hmi1, hfl1, hflag]
      · rw [updMap_ne _ _ _ _ hk]
  refine ⟨?_, ?_, ?_, ?_, ?_, ?_, ?_, ?_, ?_, ?_, ?_, ?_, ?_⟩ <;> dsimp only
  · have e1 := hs.hNew
    omega
  · rw [htriedCnt, hNT1, hs.hTried]
    exact hcntt1.symm
  · rw [List.length_dropLast, hlen1]
    have := hs.hLen
    omega
  · intro k hk
    by_cases hke : k = nId
    · subst hke
      exact updMap_self ..
    · rw [updMap_ne _ _ _ _ hke]
      exact hs1.hDom k (by omega)
  · intro k info2 hinfo htr
    by_cases hke : k = nId
    · subst hke
      rw [updMap_self] at hinfo
      cases hinfo
    · rw [updMap_ne _ _ _ _ hke] at hinfo
      exact hs1.hTriedRec k info2 hinfo htr
  · intro k info2 hXk hinfo hfl2
    by_cases hke : k = nId
    · subst hke
      rw [updMap_self] at hinfo
      cases hinfo
    · rw [updMap_ne _ _ _ _ hke] at hinfo
      exact hs1.hNewRec k info2 (fun hx => hXk ⟨hx, hke⟩) hinfo hfl2
  · intro k hXk
    obtain ⟨info2, hmi2, hf2, hr2, hsl2⟩ := hs1.hX k hXk.1
    exact ⟨info2, by rw [updMap_ne _ _ _ _ hXk.2]; exact hmi2, hf2, hr2, hsl2⟩
  · intro b2 p2 k hslot
    obtain ⟨hb2, info2, hmi2, hf2, hp2⟩ := hs1.hSlotNew b2 p2 k hslot
    have hke : k ≠ nId := by
      intro he
      exact hnoslots1 b2 p2 (he ▸ hslot)
    exact ⟨hb2, info2, by rw [updMap_ne _ _ _ _ hke]; exact hmi2, hf2, hp2⟩
  · intro b2 p2 k hslot
    obtain ⟨info2, hmi2, hf2, hb2, hp2⟩ := hs1.hSlotTried b2 p2 k hslot
    have hke : k ≠ nId := by
      intro he
      subst he
      rw [hmi1] at hmi2
      obtain rfl : info1 = info2 := Option.some.inj hmi2
      rw [hfl1, hflag] at hf2
      cases hf2
    exact ⟨info2, by rw [updMap_ne _ _ _ _ hke]; exact hmi2, hf2, hb2, hp2⟩
  · intro k info2 hinfo
    by_cases hke : k = nId
    · subst hke
      rw [updMap_self] at hinfo
      cases hinfo
    · rw [updMap_ne _ _ _ _ hke] at hinfo
      obtain ⟨hn2, hl2, hg2⟩ := hs1.hRandPos k info2 hinfo
      have hne_j : info2.nRandomPos.toNat ≠ j := by
        intro he
        rw [he, hgd1] at hg2
        exact hke hg2.symm
      have hlt2 : info2.nRandomPos.toNat < s1.vRandom.length - 1 := by omega
      refine ⟨hn2, by rw [List.length_dropLast]; exact hlt2, ?_⟩
      rw [getD_dropLast _ hlt2]
      exact hg2
  · intro r hr
    rw [List.length_dropLast] at hr
    have hr' : r < s1.vRandom.length := by omega
    have hrj : r ≠ j := by omega
    rw [getD_dropLast _ hr]
    obtain ⟨info2, hmi2, hp2⟩ := hs1.hRandMem r hr'
    refine ⟨info2, ?_, hp2⟩
    rw [updMap_ne _ _ _ _ (huniq r hr' hrj)]
    exact hmi2
  · intro a k hmap
    have hane : a ≠ info.toCNetAddr := by
      intro he
      rw [updAddr, if_pos he] at hmap
      cases hmap
    rw [updAddr, if_neg hane] at hmap
    obtain ⟨info2, hmi2, hna2⟩ := hs1.hAddr1 a k hmap
    have hke : k ≠ nId := by
      intro he
      subst he
      rw [hmi1] at hmi2
      obtain rfl : info1 = info2 := Option.some.inj hmi2
      exact hane (hna2 ▸ hna1)
    exact ⟨info2, by rw [updMap_ne _ _ _ _ hke]; exact hmi2, hna2⟩
  · intro k info2 hinfo
    by_cases hke : k = nId
    · subst hke
      rw [updMap_self] at hinfo
      cases hinfo
    · rw [updMap_ne _ _ _ _ hke] at hinfo
      have h2 := hs1.hAddr2 k info2 hinfo
      have hane : info2.toCNetAddr ≠ info.toCNetAddr := by
        intro he
        have h3 := hs1.hAddr2 nId info1 hmi1
        rw [hna1, ← he, h2] at h3
        exact hke (Option.some.inj h3)
      rw [updAddr, if_neg hane]
      exact h2

theorem invC_congr_X {s : AddrMan} {c : Int} {X Y : Nat → Prop}
    (hs : InvC s c X) (h : ∀ k, Y k ↔ X k) : InvC s c Y := by
  obtain ⟨h1, h2, h3, h4, h5, h6, h7, h8, h9, h10, h11, h12, h13⟩ := hs
  exact ⟨h1, h2, h3, h4, h5,
    fun id info hY => h6 id info (fun hx => hY ((h id).mpr hx)),
    fun id hY => h7 id ((h id).mp hY), h8, h9, h10, h11, h12, h13⟩

theorem card_filter_update_prop (n x : Nat) {f g : Nat → Prop}
    [DecidablePred f] [DecidablePred g]
    (h : ∀ k, k ≠ x → (f k ↔ g k)) :
    ((Finset.range n).filter g).card + (if x < n ∧ f x then 1 else 0) =
    ((Finset.range n).filter f).card + (if x < n ∧ g x then 1 else 0) := by
  classical
  by_cases hx : x < n
  · have hmem : x ∈ Finset.range n := Finset.mem_range.mpr hx
    have e1 : ((Finset.range n).filter f).card
        = (∑ a ∈ (Finset.range n).erase x, (if f a then 1 else 0))
          + (if f x then 1 else 0) := by
      rw [Finset.card_filter, ← Finset.sum_erase_add _ _ hmem]
    have e2 : ((Finset.range n).filter g).card
        = (∑ a ∈ (Finset.range n).erase x, (if g a then 1 else 0))
          + (if g x then 1 else 0) := by
      rw [Finset.card_filter, ← Finset.sum_erase_add _ _ hmem]
    have heq : (∑ a ∈ (Finset.range n).erase x, (if f a then 1 else 0))
        = ∑ a ∈ (Finset.range n).erase x, (if g a then 1 else 0) :=
      Finset.sum_congr rfl (fun k hk => by
        by_cases hfk : f k
        · rw [if_pos hfk, if_pos ((h k (Finset.ne_of_mem_erase hk)).mp hfk)]
        · rw [if_neg hfk, if_neg (fun hgk => hfk ((h k (Finset.ne_of_mem_erase hk)).mpr hgk))])
    rw [e1, e2, heq]
    simp only [hx, true_and]
    by_cases hfx : f x <;> by_cases hgx : g x <;> simp [hfx, hgx] <;> omega
  · have he : (Finset.range n).filter g = (Finset.range n).filter f := by
      apply Finset.filter_congr
      intro k hk
      have hne : k ≠ x := fun e => hx (e ▸ Finset.mem_range.mp hk)
      exact (h k hne).symm
    rw [he]
    simp [hx]

theorem clearNew_invC {s : AddrMan} {c : Int} {X : Nat → Prop}
    (hs : InvC s c X) (b p : Nat) : InvC (ClearNew s b p) c X := by
  unfold ClearNew
  rcases hslot : s.vvNew b p with _ | nIdD
  · exact hs
  · obtain ⟨hblt, infoD, hmiD, hflD, hpD⟩ := hs.hSlotNew b p nIdD hslot
    dsimp only
    rw [hmiD]
    dsimp only
    have hnX : ¬ X nIdD := fun hx =>
      ((hs.hX nIdD hx).elim (fun info2 h2 => h2.2.2.2 b p hslot))
    obtain ⟨hposD, hcardD⟩ := hs.hNewRec nIdD infoD hnX hmiD hflD
    have hnid_lt : nIdD < s.nIdCount := by
      by_contra h
      rw [hs.hDom nIdD (le_of_not_lt h)] at hmiD
      cases hmiD
    set infoD1 : CAddrInfo := { infoD with nRefCount := infoD.nRefCount - 1 } with hD1
    have hD1f : infoD1.fInTried = infoD.fInTried := by rw [hD1]
    have hD1r : infoD1.nRefCount = infoD.nRefCount - 1 := by rw [hD1]
    have hD1s : infoD1.toCService = infoD.toCService := by rw [hD1]
    have hD1p : infoD1.nRandomPos = infoD.nRandomPos := by rw [hD1]
    have hD1n : infoD1.toCNetAddr = infoD.toCNetAddr := by rw [hD1]
    have hbmem : b ∈ newRefs s nIdD infoD := by
      unfold newRefs
      rw [Finset.mem_filter]
      exact ⟨Finset.mem_range.mpr hblt, by rw [← hpD]; exact hslot⟩
    have hstep : InvC { s with
        mapInfo := updMap s.mapInfo nIdD (some infoD1)
        vvNew := updTable s.vvNew b p none } c
        (fun k => X k ∨ (k = nIdD ∧ infoD.nRefCount = 1)) := by
      refine ⟨?_, ?_, ?_, ?_, ?_, ?_, ?_, ?_, ?_, ?_, ?_, ?_, ?_⟩ <;> dsimp only
      · rw [show newCount { s with
            mapInfo := updMap s.mapInfo nIdD (some infoD1)
            vvNew := updTable s.vvNew b p none } = newCount s from
          newCount_eq_of rfl (fun k => by
            unfold isNewRecord
            dsimp only
            by_cases hk : k = nIdD
            · subst hk
              simp [updMap_self, hmiD, hD1f]
            · rw [updMap_ne _ _ _ _ hk])]
        exact hs.hNew
      · rw [show triedCount { s with
            mapInfo := updMap s.mapInfo nIdD (some infoD1)
            vvNew := updTable s.vvNew b p none } = triedCount s from
          triedCount_eq_of rfl (fun k => by
            unfold isTriedRecord
            dsimp only
            by_cases hk : k = nIdD
            · subst hk
              simp [updMap_self, hmiD, hD1f]
            · rw [updMap_ne _ _ _ _ hk])]
        exact hs.hTried
      · rw [show newCount { s with
            mapInfo := updMap s.mapInfo nIdD (some infoD1)
            vvNew := updTable s.vvNew b p none } = newCount s from
          newCount_eq_of rfl (fun k => by
            unfold isNewRecord
            dsimp only
            by_cases hk : k = nIdD
            · subst hk
              simp [updMap_self, hmiD, hD1f]
            · rw [updMap_ne _ _ _ _ hk]),
          show triedCount { s with
            mapInfo := updMap s.mapInfo nIdD (some infoD1)
            vvNew := updTable s.vvNew b p none } = triedCount s from
          triedCount_eq_of rfl (fun k => by
            unfold isTriedRecord
            dsimp only
            by_cases hk : k = nIdD
            · subst hk
              simp [updMap_self, hmiD, hD1f]
            · rw [updMap_ne _ _ _ _ hk])]
        exact hs.hLen
      · intro k hk
        have hne : k ≠ nIdD := fun e => absurd hnid_lt (by omega)
        rw [updMap_ne _ _ _ _ hne]
        exact hs.hDom k hk
      · intro k info2 hinfo htr
        by_cases hk : k = nIdD
        · subst hk
          rw [updMap_self] at hinfo
          obtain rfl : infoD1 = info2 := Option.some.inj hinfo
          rw [hD1f, hflD] at htr
          cases htr
        · rw [updMap_ne _ _ _ _ hk] at hinfo
          exact hs.hTriedRec k info2 hinfo htr
      · intro k info2 hXk hinfo hfl2
        by_cases hk : k = nIdD
        · subst hk
          rw [updMap_self] at hinfo
          obtain rfl : infoD1 = info2 := Option.some.inj hinfo
          have hrcne1 : infoD.nRefCount ≠ 1 := fun h1 => hXk (Or.inr ⟨rfl, h1⟩)
          have hfilter : (Finset.range ADDRMAN_NEW_BUCKET_COUNT).filter
              (fun b2 => updTable s.vvNew b p none b2 (newPosn s.nKey infoD1 b2) = some k)
              = (newRefs s k infoD).erase b := by
            ext b2
            rw [Finset.mem_filter, Finset.mem_erase]
            unfold newRefs
            rw [Finset.mem_filter]
            constructor
            · rintro ⟨hb2r, hb2s⟩
              by_cases hbb : b2 = b
              · subst hbb
                rw [newPosn_congr hD1s, ← hpD, updTable_self] at hb2s
                cases hb2s
              · rw [newPosn_congr hD1s] at hb2s
                rw [updTable_ne _ _ _ _ _ _ (fun he => hbb he.1)] at hb2s
                exact ⟨hbb, hb2r, hb2s⟩
            · rintro ⟨hbb, hb2r, hb2s⟩
              refine ⟨hb2r, ?_⟩
              rw [newPosn_congr hD1s,
                updTable_ne _ _ _ _ _ _ (fun he => hbb he.1)]
              exact hb2s
          refine ⟨?_, ?_⟩
          · rw [hD1r]
            omega
          · rw [show newRefs { s with
                mapInfo := updMap s.mapInfo k (some infoD1)
                vvNew := updTable s.vvNew b p none } k infoD1
                = (newRefs s k infoD).erase b from hfilter]
            rw [Finset.card_erase_of_mem hbmem, hD1r]
            have hcge : 1 ≤ (newRefs s k infoD).card := Finset.card_pos.mpr ⟨b, hbmem⟩
            omega
        · rw [updMap_ne _ _ _ _ hk] at hinfo
          have hXk' : ¬ X k := fun hx => hXk (Or.inl hx)
          obtain ⟨hp2, hc2⟩ := hs.hNewRec k info2 hXk' hinfo hfl2
          refine ⟨hp2, ?_⟩
          have : newRefs { s with
              mapInfo := updMap s.mapInfo nIdD (some infoD1)
              vvNew := updTable s.vvNew b p none } k info2 = newRefs s k info2 := by
            unfold newRefs
            apply Finset.filter_congr
            intro b2 _
            dsimp only
            by_cases hbb : b2 = b ∧ newPosn s.nKey info2 b2 = p
            · obtain ⟨hb1, hb2⟩ := hbb
              subst hb1
              rw [hb2, updTable_self, hslot]
              simp [Ne.symm hk]
            · rw [updTable_ne _ _ _ _ _ _ hbb]
          rw [this]
          exact hc2
      · intro k hXk
        rcases hXk with hXk | ⟨rfl, hrc1⟩
        · obtain ⟨info2, hmi2, hf2, hr2, hsl2⟩ := hs.hX k hXk
          have hk : k ≠ nIdD := fun e => hnX (e ▸ hXk)
          refine ⟨info2, by rw [updMap_ne _ _ _ _ hk]; exact hmi2, hf2, hr2, ?_⟩
          intro b2 p2
          by_cases hbb : b2 = b ∧ p2 = p
          · rw [hbb.1, hbb.2, updTable_self]
            simp
          · rw [updTable_ne _ _ _ _ _ _ hbb]
            exact hsl2 b2 p2
        · refine ⟨infoD1, updMap_self .., hD1f.trans hflD, by rw [hD1r]; omega, ?_⟩
          intro b2 p2
          by_cases hbb : b2 = b ∧ p2 = p
          · rw [hbb.1, hbb.2, updTable_self]
            simp
          · rw [updTable_ne _ _ _ _ _ _ hbb]
            intro hsl
            obtain ⟨hb2lt, info3, hmi3, _, hp3⟩ := hs.hSlotNew b2 p2 k hsl
            rw [hmiD] at hmi3
            obtain rfl : infoD = info3 := Option.some.inj hmi3
            have hb2mem : b2 ∈ newRefs s k infoD := by
              unfold newRefs
              rw [Finset.mem_filter]
              exact ⟨Finset.mem_range.mpr hb2lt, by rw [← hp3]; exact hsl⟩
            have hcle : (newRefs s k infoD).card ≤ 1 := by
              have : ((newRefs s k infoD).card : Int) = 1 := by
                rw [← hcardD, hrc1]
              omega
            have hbb2 : b2 = b := Finset.card_le_one.mp hcle b2 hb2mem b hbmem
            subst hbb2
            rw [← hpD] at hp3
            exact hbb ⟨rfl, hp3⟩
      · intro b2 p2 k hsl
        by_cases hbb : b2 = b ∧ p2 = p
        · rw [hbb.1, hbb.2, updTable_self] at hsl
          cases hsl
        · rw [updTable_ne _ _ _ _ _ _ hbb] at hsl
          obtain ⟨hb2lt, info2, hmi2, hf2, hp2⟩ := hs.hSlotNew b2 p2 k hsl
          by_cases hk : k = nIdD
          · subst hk
            rw [hmiD] at hmi2
            obtain rfl : infoD = info2 := Option.some.inj hmi2
            exact ⟨hb2lt, infoD1, updMap_self .., hD1f.trans hf2,
              by rw [newPosn_congr hD1s]; exact hp2⟩
          · exact ⟨hb2lt, info2, by rw [updMap_ne _ _ _ _ hk]; exact hmi2, hf2, hp2⟩
      · intro b2 p2 k hsl
        obtain ⟨info2, hmi2, hf2, hb2, hp2⟩ := hs.hSlotTried b2 p2 k hsl
        by_cases hk : k = nIdD
        · subst hk
          rw [hmiD] at hmi2
          obtain rfl : infoD = info2 := Option.some.inj hmi2
          rw [hflD] at hf2
          cases hf2
        · exact ⟨info2, by rw [updMap_ne _ _ _ _ hk]; exact hmi2, hf2, hb2, hp2⟩
      · intro k info2 hinfo
        by_cases hk : k = nIdD
        · subst hk
          rw [updMap_self] at hinfo
          obtain rfl : infoD1 = info2 := Option.some.inj hinfo
          rw [hD1p]
          exact hs.hRandPos k infoD hmiD
        · rw [updMap_ne _ _ _ _ hk] at hinfo
          exact hs.hRandPos k info2 hinfo
      · intro r hr
        obtain ⟨info2, hmi2, hp2⟩ := hs.hRandMem r hr
        by_cases hk : s.vRandom.getD r 0 = nIdD
        · rw [hk] at hmi2 ⊢
          rw [hmiD] at hmi2
          obtain rfl : infoD = info2 := Option.some.inj hmi2
          exact ⟨infoD1, updMap_self .., hD1p.trans hp2⟩
        · exact ⟨info2, by rw [updMap_ne _ _ _ _ hk]; exact hmi2, hp2⟩
      · intro a k hmap
        obtain ⟨info2, hmi2, hna2⟩ := hs.hAddr1 a k hmap
        by_cases hk : k = nIdD
        · subst hk
          rw [hmiD] at hmi2
          obtain rfl : infoD = info2 := Option.some.inj hmi2
          exact ⟨infoD1, updMap_self .., hD1n.trans hna2⟩
        · exact ⟨info2, by rw [updMap_ne _ _ _ _ hk]; exact hmi2, hna2⟩
      · intro k info2 hinfo
        by_cases hk : k = nIdD
        · subst hk
          rw [updMap_self] at hinfo
          obtain rfl : infoD1 = info2 := Option.some.inj hinfo
          rw [hD1n]
          exact hs.hAddr2 k infoD hmiD
        · rw [updMap_ne _ _ _ _ hk] at hinfo
          exact hs.hAddr2 k info2 hinfo
    by_cases hz : infoD1.nRefCount = 0
    · rw [if_pos hz]
      rw [hD1r] at hz
      have h2 := delete_invC hstep (Or.inr ⟨rfl, by omega⟩)
      exact invC_congr_X h2 (fun k => by
        constructor
        · intro hx
          exact ⟨Or.inl hx, fun e => hnX (e ▸ hx)⟩
        · rintro ⟨hx | ⟨rfl, _⟩, hne⟩
          · exact hx
          · exact absurd rfl hne)
    · rw [if_neg hz]
      rw [hD1r] at hz
      exact invC_congr_X hstep (fun k => by
        constructor
        · intro hx
          exact Or.inl hx
        · rintro (hx | ⟨rfl, h1⟩)
          · exact hx
          · exfalso
            omega)

theorem getD_append_left (l : List Nat) (x : Nat) {i : Nat} (h : i < l.length) :
    (l ++ [x]).getD i 0 = l.getD i 0 := by
  rw [List.getD_eq_getElem?_getD, List.getElem?_append, if_pos h,
    ← List.getD_eq_getElem?_getD]

theorem getD_append_last (l : List Nat) (x : Nat) :
    (l ++ [x]).getD l.length 0 = x := by
  rw [List.getD_eq_getElem?_getD, List.getElem?_append, if_neg (lt_irrefl _)]
  simp

theorem create_invC {s : AddrMan} {c : Int} {X : Nat → Prop}
    (hs : InvC s c X) (addr : CAddress) (src : CNetAddr)
    (hnew : s.mapAddr addr.toCNetAddr = none) :
    InvC (Create s addr src).1 (c - 1) (fun k => X k ∨ k = s.nIdCount) := by
  unfold Create
  dsimp only
  have hnone : s.mapInfo s.nIdCount = none := hs.hDom s.nIdCount (le_refl _)
  have hNC : newCount { s with
      nIdCount := s.nIdCount + 1
      mapInfo := updMap s.mapInfo s.nIdCount
        (some { toCAddress := addr, source := src, nRandomPos := (s.vRandom.length : Int) })
      mapAddr := updAddr s.mapAddr addr.toCNetAddr (some s.nIdCount)
      vRandom := s.vRandom ++ [s.nIdCount] } = newCount s + 1 := by
    unfold newCount
    dsimp only
    rw [Finset.range_succ, Finset.filter_insert]
    rw [if_pos (by simp [isNewRecord, updMap])]
    rw [Finset.card_insert_of_not_mem (by simp)]
    refine congrArg (fun m => m + 1) (congrArg Finset.card (Finset.filter_congr ?_))
    intro k hk
    have hkne : k ≠ s.nIdCount := Nat.ne_of_lt (Finset.mem_range.mp hk)
    unfold isNewRecord
    dsimp only
    rw [updMap_ne _ _ _ _ hkne]
  have hTC : triedCount { s with
      nIdCount := s.nIdCount + 1
      mapInfo := updMap s.mapInfo s.nIdCount
        (some { toCAddress := addr, source := src, nRandomPos := (s.vRandom.length : Int) })
      mapAddr := updAddr s.mapAddr addr.toCNetAddr (some s.nIdCount)
      vRandom := s.vRandom ++ [s.nIdCount] } = triedCount s := by
    unfold triedCount
    dsimp only
    rw [Finset.range_succ, Finset.filter_insert]
    rw [if_neg (by simp [isTriedRecord, updMap])]
    refine congrArg Finset.card (Finset.filter_congr ?_)
    intro k hk
    have hkne : k ≠ s.nIdCount := Nat.ne_of_lt (Finset.mem_range.mp hk)
    unfold isTriedRecord
    dsimp only
    rw [updMap_ne _ _ _ _ hkne]
  refine ⟨?_, ?_, ?_, ?_, ?_, ?_, ?_, ?_, ?_, ?_, ?_, ?_, ?_⟩ <;> dsimp only
  · rw [hNC]
    have := hs.hNew
    push_cast
    omega
  · rw [hTC]
    exact hs.hTried
  · rw [hNC, hTC, List.length_append]
    have := hs.hLen
    simp
    omega
  · intro k hk
    have hkne : k ≠ s.nIdCount := by omega
    rw [updMap_ne _ _ _ _ hkne]
    exact hs.hDom k (by omega)
  · intro k info hinfo htr
    by_cases hk : k = s.nIdCount
    · subst hk
      rw [updMap_self] at hinfo
      obtain rfl := Option.some.inj hinfo
      cases htr
    · rw [updMap_ne _ _ _ _ hk] at hinfo
      exact hs.hTriedRec k info hinfo htr
  · intro k info hXk hinfo hfl
    have hk : k ≠ s.nIdCount := fun e => hXk (Or.inr e)
    rw [updMap_ne _ _ _ _ hk] at hinfo
    exact hs.hNewRec k info (fun hx => hXk (Or.inl hx)) hinfo hfl
  · intro k hXk
    rcases hXk with hXk | rfl
    · obtain ⟨info2, hmi2, hf2, hr2, hsl2⟩ := hs.hX k hXk
      have hk : k ≠ s.nIdCount := by
        intro e
        rw [e, hnone] at hmi2
        cases hmi2
      exact ⟨info2, by rw [updMap_ne _ _ _ _ hk]; exact hmi2, hf2, hr2, hsl2⟩
    · refine ⟨_, updMap_self .., rfl, rfl, ?_⟩
      intro b2 p2 hsl
      obtain ⟨_, info3, hmi3, _, _⟩ := hs.hSlotNew b2 p2 s.nIdCount hsl
      rw [hnone] at hmi3
      cases hmi3
  · intro b2 p2 k hsl
    obtain ⟨hb2, info2, hmi2, hf2, hp2⟩ := hs.hSlotNew b2 p2 k hsl
    have hk : k ≠ s.nIdCount := by
      intro e
      rw [e, hnone] at hmi2
      cases hmi2
    exact ⟨hb2, info2, by rw [updMap_ne _ _ _ _ hk]; exact hmi2, hf2, hp2⟩
  · intro b2 p2 k hsl
    obtain ⟨info2, hmi2, hf2, hb2, hp2⟩ := hs.hSlotTried b2 p2 k hsl
    have hk : k ≠ s.nIdCount := by
      intro e
      rw [e, hnone] at hmi2
      cases hmi2
    exact ⟨info2, by rw [updMap_ne _ _ _ _ hk]; exact hmi2, hf2, hb2, hp2⟩
  · intro k info hinfo
    by_cases hk : k = s.nIdCount
    · subst hk
      rw [updMap_self] at hinfo
      obtain rfl := Option.some.inj hinfo
      refine ⟨by positivity, ?_, ?_⟩
      · simp
      · show (s.vRandom ++ [s.nIdCount]).getD (Int.toNat (s.vRandom.length : Int)) 0 = s.nIdCount
        rw [Int.toNat_natCast]
        exact getD_append_last ..
    · rw [updMap_ne _ _ _ _ hk] at hinfo
      obtain ⟨hn2, hl2, hg2⟩ := hs.hRandPos k info hinfo
      refine ⟨hn2, ?_, ?_⟩
      · rw [List.length_append]
        simp
        omega
      · rw [getD_append_left _ _ hl2]
        exact hg2
  · intro i hi
    rw [List.length_append] at hi
    simp at hi
    by_cases hilen : i = s.vRandom.length
    · subst hilen
      rw [getD_append_last]
      exact ⟨_, updMap_self .., rfl⟩
    · have hilt : i < s.vRandom.length := by omega
      rw [getD_append_left _ _ hilt]
      obtain ⟨info2, hmi2, hp2⟩ := hs.hRandMem i hilt
      have hk : s.vRandom.getD i 0 ≠ s.nIdCount := by
        intro e
        rw [e, hnone] at hmi2
        cases hmi2
      exact ⟨info2, by rw [updMap_ne _ _ _ _ hk]; exact hmi2, hp2⟩
  · intro a k hmap
    by_cases ha : a = addr.toCNetAddr
    · subst ha
      rw [updAddr, if_pos rfl] at hmap
      obtain rfl : s.nIdCount = k := Option.some.inj hmap
      exact ⟨_, updMap_self .., rfl⟩
    · rw [updAddr, if_neg ha] at hmap
      obtain ⟨info2, hmi2, hna2⟩ := hs.hAddr1 a k hmap
      have hk : k ≠ s.nIdCount := by
        intro e
        rw [e, hnone] at hmi2
        cases hmi2
      exact ⟨info2, by rw [updMap_ne _ _ _ _ hk]; exact hmi2, hna2⟩
  · intro k info hinfo
    by_cases hk : k = s.nIdCount
    · subst hk
      rw [updMap_self] at hinfo
      obtain rfl := Option.some.inj hinfo
      rw [updAddr]
      rw [if_pos rfl]
    · rw [updMap_ne _ _ _ _ hk] at hinfo
      have h2 := hs.hAddr2 k info hinfo
      have hna : info.toCNetAddr ≠ addr.toCNetAddr := by
        intro e
        rw [e, hnew] at h2
        cases h2
      rw [updAddr, if_neg hna]
      exact h2

theorem delete_vvNew (s : AddrMan) (nId : Nat) : (Delete s nId).vvNew = s.vvNew := by
  unfold Delete
  split
  · rfl
  · dsimp only
    rw [swapRandom_vvNew]

theorem delete_vvTried (s : AddrMan) (nId : Nat) : (Delete s nId).vvTried = s.vvTried := by
  unfold Delete
  split
  · rfl
  · dsimp only
    rw [swapRandom_vvTried]

theorem delete_nKey (s : AddrMan) (nId : Nat) : (Delete s nId).nKey = s.nKey := by
  unfold Delete
  split
  · rfl
  · dsimp only
    rw [(swapRandom_misc ..).2.2.2.1]

theorem clearNew_nKey (s : AddrMan) (b p : Nat) : (ClearNew s b p).nKey = s.nKey := by
  unfold ClearNew
  rcases hslot : s.vvNew b p with _ | nIdD
  · rfl
  · dsimp only
    rcases hmiD : s.mapInfo nIdD with _ | infoD
    · rfl
    · dsimp only
      split
      · rw [delete_nKey]
      · rfl

theorem clearNew_vvTried (s : AddrMan) (b p : Nat) :
    (ClearNew s b p).vvTried = s.vvTried := by
  unfold ClearNew
  rcases hslot : s.vvNew b p with _ | nIdD
  · rfl
  · dsimp only
    rcases hmiD : s.mapInfo nIdD with _ | infoD
    · rfl
    · dsimp only
      split
      · rw [delete_vvTried]
      · rfl

-- After `ClearNew`, the cleared slot is empty (this is the second assert
-- of `MakeTried`); the slot's occupant must carry a record, which the
-- invariant guarantees.
theorem clearNew_slot_none {s : AddrMan} {c : Int} {X : Nat → Prop} (hs : InvC s c X)
    (b p : Nat) : (ClearNew s b p).vvNew b p = none := by
  unfold ClearNew
  rcases hslot : s.vvNew b p with _ | nIdD
  · exact hslot
  · obtain ⟨_, infoD, hmiD, _, _⟩ := hs.hSlotNew b p nIdD hslot
    dsimp only
    rw [hmiD]
    dsimp only
    split
    · rw [delete_vvNew]
      exact updTable_self ..
    · exact updTable_self ..

theorem clearNew_vvNew_ne (s : AddrMan) (b p b2 p2 : Nat) (h : ¬ (b2 = b ∧ p2 = p)) :
    (ClearNew s b p).vvNew b2 p2 = s.vvNew b2 p2 := by
  unfold ClearNew
  rcases hslot : s.vvNew b p with _ | nIdD
  · rfl
  · dsimp only
    rcases hmiD : s.mapInfo nIdD with _ | infoD
    · rfl
    · dsimp only
      split
      · rw [delete_vvNew]
        exact updTable_ne _ _ _ _ _ _ h
      · exact updTable_ne _ _ _ _ _ _ h

theorem delete_strip_ne (s : AddrMan) (nId k : Nat) (hk : k ≠ nId) :
    ((Delete s nId).mapInfo k).map stripPos = (s.mapInfo k).map stripPos := by
  unfold Delete
  split
  · rfl
  · dsimp only
    rw [updMap_ne _ _ _ _ hk]
    rw [swapRandom_strip]

-- Records other than the cleared slot's occupant keep all their
-- non-positional fields across `ClearNew`.
theorem clearNew_strip (s : AddrMan) (b p k : Nat) (hk : s.vvNew b p ≠ some k) :
    ((ClearNew s b p).mapInfo k).map stripPos = (s.mapInfo k).map stripPos := by
  unfold ClearNew
  rcases hslot : s.vvNew b p with _ | nIdD
  · rfl
  · dsimp only
    rcases hmiD : s.mapInfo nIdD with _ | infoD
    · rfl
    · dsimp only
      have hkD : k ≠ nIdD := fun e => hk (e ▸ hslot)
      split
      · rw [delete_strip_ne _ _ _ hkD]
        dsimp only
        rw [updMap_ne _ _ _ _ hkD]
      · dsimp only
        rw [updMap_ne _ _ _ _ hkD]

-- Inserting a not-in-tried record into an empty keyed slot of the new
-- table, incrementing its refcount, restores the unconditional invariant.
theorem placeNew_inv {s : AddrMan} {X : Nat → Prop} {nId : Nat} {pinfo : CAddrInfo}
    (hs : InvC s 0 X) (hXsub : ∀ k, X k → k = nId)
    (hmi : s.mapInfo nId = some pinfo) (hfl : pinfo.fInTried = false)
    {B P : Nat} (hB : B < ADDRMAN_NEW_BUCKET_COUNT) (hP : P = newPosn s.nKey pinfo B)
    (hempty : s.vvNew B P = none) :
    StoreInv { s with
      mapInfo := updMap s.mapInfo nId (some { pinfo with nRefCount := pinfo.nRefCount + 1 })
      vvNew := updTable s.vvNew B P (some nId) } := by
  have hsvc : ({ pinfo with nRefCount := pinfo.nRefCount + 1 } : CAddrInfo).toCService
      = pinfo.toCService := rfl
  have hrc : pinfo.nRefCount = ((newRefs s nId pinfo).card : Int) := by
    by_cases hX1 : X nId
    · obtain ⟨info2, hmi2, _, hr2, hsl2⟩ := hs.hX nId hX1
      rw [hmi] at hmi2
      obtain rfl : pinfo = info2 := Option.some.inj hmi2
      rw [hr2]
      have he : newRefs s nId pinfo = ∅ := by
        unfold newRefs
        rw [Finset.filter_eq_empty_iff]
        intro b2 _
        exact hsl2 b2 _
      rw [he]
      simp
    · exact (hs.hNewRec nId pinfo hX1 hmi hfl).2
  have hBnot : B ∉ newRefs s nId pinfo := by
    unfold newRefs
    rw [Finset.mem_filter]
    rintro ⟨_, hcontra⟩
    rw [← hP, hempty] at hcontra
    cases hcontra
  have hnid_lt : nId < s.nIdCount := by
    by_contra h
    rw [hs.hDom nId (le_of_not_lt h)] at hmi
    cases hmi
  have hNC : newCount { s with
      mapInfo := updMap s.mapInfo nId (some { pinfo with nRefCount := pinfo.nRefCount + 1 })
      vvNew := updTable s.vvNew B P (some nId) } = newCount s := by
    apply newCount_eq_of
    · rfl
    · intro k
      unfold isNewRecord
      dsimp only
      by_cases hk : k = nId
      · subst hk
        simp [updMap_self, hmi, hfl]
      · rw [updMap_ne _ _ _ _ hk]
  have hTC : triedCount { s with
      mapInfo := updMap s.mapInfo nId (some { pinfo with nRefCount := pinfo.nRefCount + 1 })
      vvNew := updTable s.vvNew B P (some nId) } = triedCount s := by
    apply triedCount_eq_of
    · rfl
    · intro k
      unfold isTriedRecord
      dsimp only
      by_cases hk : k = nId
      · subst hk
        simp [updMap_self, hmi, hfl]
      · rw [updMap_ne _ _ _ _ hk]
  refine ⟨?_, ?_, ?_, ?_, ?_, ?_, ?_, ?_, ?_, ?_, ?_, ?_, ?_⟩ <;> dsimp only
  · rw [hNC]
    have := hs.hNew
    omega
  · rw [hTC]
    exact hs.hTried
  · rw [hNC, hTC]
    exact hs.hLen
  · intro k hk
    have hne : k ≠ nId := fun e => absurd hnid_lt (by omega)
    rw [updMap_ne _ _ _ _ hne]
    exact hs.hDom k hk
  · intro k info2 hinfo htr
    by_cases hk : k = nId
    · subst hk
      rw [updMap_self] at hinfo
      obtain rfl := Option.some.inj hinfo
      rw [show ({ pinfo with nRefCount := pinfo.nRefCount + 1 } : CAddrInfo).fInTried
        = pinfo.fInTried from rfl, hfl] at htr
      cases htr
    · rw [updMap_ne _ _ _ _ hk] at hinfo
      obtain ⟨h1, h2, h3⟩ := hs.hTriedRec k info2 hinfo htr
      exact ⟨h1, h2, h3⟩
  · intro k info2 hXk hinfo hfl2
    by_cases hk : k = nId
    · subst hk
      rw [updMap_self] at hinfo
      obtain rfl := Option.some.inj hinfo
      have hrefs : (Finset.range ADDRMAN_NEW_BUCKET_COUNT).filter
          (fun b2 => updTable s.vvNew B P (some k) b2
            (newPosn s.nKey { pinfo with nRefCount := pinfo.nRefCount + 1 } b2) = some k)
          = insert B (newRefs s k pinfo) := by
        ext b2
        rw [Finset.mem_insert, Finset.mem_filter]
        unfold newRefs
        rw [Finset.mem_filter]
        constructor
        · rintro ⟨hb2r, hb2s⟩
          by_cases hbb : b2 = B
          · exact Or.inl hbb
          · right
            rw [newPosn_congr hsvc] at hb2s
            rw [updTable_ne _ _ _ _ _ _ (fun he => hbb he.1)] at hb2s
            exact ⟨hb2r, hb2s⟩
        · rintro (rfl | ⟨hb2r, hb2s⟩)
          · refine ⟨Finset.mem_range.mpr hB, ?_⟩
            rw [newPosn_congr hsvc, ← hP]
            exact updTable_self ..
          · refine ⟨hb2r, ?_⟩
            rw [newPosn_congr hsvc]
            have hbb : ¬ (b2 = B ∧ newPosn s.nKey pinfo b2 = P) := by
              rintro ⟨rfl, hPeq⟩
              rw [hPeq, hempty] at hb2s
              cases hb2s
            by_cases hbB : b2 = B
            · subst hbB
              have hpp : newPosn s.nKey pinfo b2 ≠ P := fun e => hbb ⟨rfl, e⟩
              rw [updTable_ne _ _ _ _ _ _ (fun he => hpp he.2)]
              exact hb2s
            · rw [updTable_ne _ _ _ _ _ _ (fun he => hbB he.1)]
              exact hb2s
      refine ⟨?_, ?_⟩
      · show (0 : Int) < pinfo.nRefCount + 1
        omega
      show ({ pinfo with nRefCount := pinfo.nRefCount + 1 } : CAddrInfo).nRefCount
        = (((Finset.range ADDRMAN_NEW_BUCKET_COUNT).filter _).card : Int)
      rw [show ({ pinfo with nRefCount := pinfo.nRefCount + 1 } : CAddrInfo).nRefCount
        = pinfo.nRefCount + 1 from rfl]
      rw [show ((Finset.range ADDRMAN_NEW_BUCKET_COUNT).filter
          (fun b2 => updTable s.vvNew B P (some k) b2
            (newPosn s.nKey { pinfo with nRefCount := pinfo.nRefCount + 1 } b2) = some k)).card
          = (insert B (newRefs s k pinfo)).card from by rw [hrefs]]
      rw [Finset.card_insert_of_not_mem hBnot]
      rw [hrc]
      push_cast
      ring
    · rw [updMap_ne _ _ _ _ hk] at hinfo
      have hXk' : ¬ X k := fun hx => hk (hXsub k hx)
      obtain ⟨hp2, hc2⟩ := hs.hNewRec k info2 hXk' hinfo hfl2
      refine ⟨hp2, ?_⟩
      have heq : (Finset.range ADDRMAN_NEW_BUCKET_COUNT).filter
          (fun b2 => updTable s.vvNew B P (some nId) b2 (newPosn s.nKey info2 b2) = some k)
          = newRefs s k info2 := by
        unfold newRefs
        apply Finset.filter_congr
        intro b2 _
        dsimp only
        by_cases hbb : b2 = B ∧ newPosn s.nKey info2 b2 = P
        · obtain ⟨rfl, he2⟩ := hbb
          rw [he2, updTable_self, hempty]
          simp [Ne.symm hk]
        · rw [updTable_ne _ _ _ _ _ _ hbb]
      show info2.nRefCount = (((Finset.range ADDRMAN_NEW_BUCKET_COUNT).filter _).card : Int)
      rw [show ((Finset.range ADDRMAN_NEW_BUCKET_COUNT).filter
          (fun b2 => updTable s.vvNew B P (some nId) b2 (newPosn s.nKey info2 b2) = some k)).card
          = (newRefs s k info2).card from by rw [heq]]
      exact hc2
  · intro k hXk
    cases hXk
  · intro b2 p2 k hsl
    by_cases hbb : b2 = B ∧ p2 = P
    · obtain ⟨rfl, rfl⟩ := hbb
      rw [updTable_self] at hsl
      obtain rfl : nId = k := Option.some.inj hsl
      refine ⟨hB, { pinfo with nRefCount := pinfo.nRefCount + 1 }, updMap_self .., ?_, ?_⟩
      · rw [show ({ pinfo with nRefCount := pinfo.nRefCount + 1 } : CAddrInfo).fInTried
          = pinfo.fInTried from rfl]
        exact hfl
      · rw [newPosn_congr hsvc]
        exact hP
    · rw [updTable_ne _ _ _ _ _ _ hbb] at hsl
      obtain ⟨hb2, info2, hmi2, hf2, hp2⟩ := hs.hSlotNew b2 p2 k hsl
      by_cases hk : k = nId
      · subst hk
        rw [hmi] at hmi2
        obtain rfl : pinfo = info2 := Option.some.inj hmi2
        exact ⟨hb2, { pinfo with nRefCount := pinfo.nRefCount + 1 }, updMap_self ..,
          hfl, by rw [newPosn_congr hsvc]; exact hp2⟩
      · exact ⟨hb2, info2, by rw [updMap_ne _ _ _ _ hk]; exact hmi2, hf2, hp2⟩
  · intro b2 p2 k hsl
    obtain ⟨info2, hmi2, hf2, hb2, hp2⟩ := hs.hSlotTried b2 p2 k hsl
    by_cases hk : k = nId
    · subst hk
      rw [hmi] at hmi2
      obtain rfl : pinfo = info2 := Option.some.inj hmi2
      rw [hfl] at hf2
      cases hf2
    · exact ⟨info2, by rw [updMap_ne _ _ _ _ hk]; exact hmi2, hf2, hb2, hp2⟩
  · intro k info2 hinfo
    by_cases hk : k = nId
    · subst hk
      rw [updMap_self] at hinfo
      obtain rfl := Option.some.inj hinfo
      exact hs.hRandPos k pinfo hmi
    · rw [updMap_ne _ _ _ _ hk] at hinfo
      exact hs.hRandPos k info2 hinfo
  · intro r hr
    obtain ⟨info2, hmi2, hp2⟩ := hs.hRandMem r hr
    by_cases hk : s.vRandom.getD r 0 = nId
    · rw [hk] at hmi2 ⊢
      rw [hmi] at hmi2
      obtain rfl : pinfo = info2 := Option.some.inj hmi2
      exact ⟨_, updMap_self .., hp2⟩
    · exact ⟨info2, by rw [updMap_ne _ _ _ _ hk]; exact hmi2, hp2⟩
  · intro a k hmap
    obtain ⟨info2, hmi2, hna2⟩ := hs.hAddr1 a k hmap
    by_cases hk : k = nId
    · subst hk
      rw [hmi] at hmi2
      obtain rfl : pinfo = info2 := Option.some.inj hmi2
      exact ⟨_, updMap_self .., hna2⟩
    · exact ⟨info2, by rw [updMap_ne _ _ _ _ hk]; exact hmi2, hna2⟩
  · intro k info2 hinfo
    by_cases hk : k = nId
    · subst hk
      rw [updMap_self] at hinfo
      obtain rfl := Option.some.inj hinfo
      exact hs.hAddr2 k pinfo hmi
    · rw [updMap_ne _ _ _ _ hk] at hinfo
      exact hs.hAddr2 k info2 hinfo

-- The `fInsert` branch of `addPlace`: clear the keyed slot, then insert.
theorem addPlaceInsert_inv {s : AddrMan} {X : Nat → Prop} {nId : Nat} {pinfo : CAddrInfo}
    {B P : Nat} (hs : InvC s 0 X) (hXsub : ∀ k, X k → k = nId)
    (hmi : s.mapInfo nId = some pinfo) (hfl : pinfo.fInTried = false)
    (hself : s.vvNew B P ≠ some nId)
    (hB : B < ADDRMAN_NEW_BUCKET_COUNT) (hP : P = newPosn s.nKey pinfo B) :
    StoreInv (match (ClearNew s B P).mapInfo nId with
      | none => ClearNew s B P
      | some pinfo1 =>
        { ClearNew s B P with
            mapInfo := updMap (ClearNew s B P).mapInfo nId
              (some { pinfo1 with nRefCount := pinfo1.nRefCount + 1 })
            vvNew := updTable (ClearNew s B P).vvNew B P (some nId) }) := by
  rcases hmi1 : (ClearNew s B P).mapInfo nId with _ | pinfo1
  · exfalso
    have hstr := clearNew_strip s B P nId hself
    rw [hmi1, hmi] at hstr
    cases hstr
  · dsimp only
    have hs1 := clearNew_invC hs B P
    have hstr := clearNew_strip s B P nId hself
    rw [hmi1, hmi] at hstr
    have hsp : stripPos pinfo1 = stripPos pinfo := by simpa using hstr
    obtain ⟨hsvc1, hfl1, _, _, _⟩ := stripPos_fields hsp
    exact placeNew_inv hs1 hXsub hmi1 (hfl1.trans hfl) hB
      (by rw [clearNew_nKey, newPosn_congr hsvc1]; exact hP)
      (clearNew_slot_none hs B P)

/-- `addPlace` restores the unconditional store invariant, starting from a
state whose only possibly-exempt record is the candidate itself (refcount 0,
no slots), provided the candidate is not in the tried table and, if not
exempt, holds at least one reference. -/
theorem addPlace_inv {s : AddrMan} {X : Nat → Prop} {nId : Nat}
    (hs : InvC s 0 X) (hXsub : ∀ k, X k → k = nId)
    (source : CNetAddr) (nNow : Int)
    (hrec : ∀ info, s.mapInfo nId = some info → info.fInTried = false)
    (hX0 : ¬ X nId → ∀ info, s.mapInfo nId = some info → info.nRefCount ≠ 0) :
    StoreInv (addPlace s nId source nNow) := by
  have hXempty : ¬ X nId → ∀ k, ¬ X k := fun hn k hx => hn (hXsub k hx ▸ hx)
  unfold addPlace
  rcases hmi : s.mapInfo nId with _ | pinfo
  · have hnX : ¬ X nId := by
      intro hx
      obtain ⟨info, hmi2, _⟩ := hs.hX nId hx
      rw [hmi] at hmi2
      cases hmi2
    exact invC_of_no_exempt hs (hXempty hnX)
  · dsimp only
    set B := pinfo.toCService.GetNewBucket s.nKey source with hBdef
    set P := pinfo.toCService.GetBucketPosition s.nKey true B with hPdef
    have hBlt : B < ADDRMAN_NEW_BUCKET_COUNT := by
      rw [hBdef]
      unfold CService.GetNewBucket
      exact Nat.mod_lt _ (by decide)
    have hPnewPosn : P = newPosn s.nKey pinfo B := hPdef
    by_cases hself : s.vvNew B P = some nId
    · rw [if_pos hself]
      have hnX : ¬ X nId := by
        intro hx
        obtain ⟨info, hmi2, _, _, hns⟩ := hs.hX nId hx
        exact hns B P hself
      exact invC_of_no_exempt hs (hXempty hnX)
    · rw [if_neg hself]
      rcases hocc : s.vvNew B P with _ | nIdExisting
      · rw [if_pos rfl]
        exact addPlaceInsert_inv hs hXsub hmi (hrec pinfo hmi) hself hBlt hPnewPosn
      · dsimp only
        rcases hmiE : s.mapInfo nIdExisting with _ | infoExisting
        · rw [if_pos rfl]
          exact addPlaceInsert_inv hs hXsub hmi (hrec pinfo hmi) hself hBlt hPnewPosn
        · dsimp only
          by_cases hF : (infoExisting.IsTerrible nNow = true)
              ∨ (1 < infoExisting.nRefCount ∧ pinfo.nRefCount = 0)
          · rw [if_pos (by rw [decide_eq_true hF])]
            exact addPlaceInsert_inv hs hXsub hmi (hrec pinfo hmi) hself hBlt hPnewPosn
          · rw [if_neg (by rw [decide_eq_false hF]; exact Bool.false_ne_true)]
            by_cases hrc0 : pinfo.nRefCount = 0
            · rw [if_pos hrc0]
              have hXn : X nId := by
                by_contra hnX
                exact hX0 hnX pinfo hmi hrc0
              refine invC_of_no_exempt (delete_invC hs hXn) ?_
              rintro k ⟨hXk, hkne⟩
              exact hkne (hXsub k hXk)
            · rw [if_neg hrc0]
              have hnX : ¬ X nId := by
                intro hx
                obtain ⟨info, hmi2, _, hr0, _⟩ := hs.hX nId hx
                rw [hmi] at hmi2
                obtain rfl : pinfo = info := Option.some.inj hmi2
                exact hrc0 hr0
              exact invC_of_no_exempt hs (hXempty hnX)

-- Under the invariant a failed `Find` means the address is not indexed.
theorem find_none {s : AddrMan} {c : Int} {X : Nat → Prop} (hs : InvC s c X)
    {a : CNetAddr} (h : Find s a = none) : s.mapAddr a = none := by
  rcases hma : s.mapAddr a with _ | id
  · rfl
  · exfalso
    obtain ⟨info, hmi, _⟩ := hs.hAddr1 a id hma
    unfold Find at h
    rw [hma] at h
    dsimp only at h
    rw [hmi] at h
    exact Option.noConfusion h

-- `addUpdateExisting` changes only `nTime` and `nServices`.
theorem addUpdateExisting_frame (pinfo : CAddrInfo) (addr : CAddress) (pen nNow : Int) :
    (addUpdateExisting pinfo addr pen nNow).toCService = pinfo.toCService ∧
    (addUpdateExisting pinfo addr pen nNow).fInTried = pinfo.fInTried ∧
    (addUpdateExisting pinfo addr pen nNow).nRefCount = pinfo.nRefCount ∧
    (addUpdateExisting pinfo addr pen nNow).nRandomPos = pinfo.nRandomPos ∧
    (addUpdateExisting pinfo addr pen nNow).nLastSuccess = pinfo.nLastSuccess := by
  refine ⟨?_, ?_, ?_, ?_, ?_⟩ <;> (unfold addUpdateExisting; dsimp only) <;>
    split <;> first | rfl | (split <;> rfl)

-- Incrementing the bare `nNew` counter raises the bookkeeping offset.
theorem invC_bump_nNew {s : AddrMan} {c : Int} {X : Nat → Prop} (hs : InvC s c X) :
    InvC { s with nNew := s.nNew + 1 } (c + 1) X := by
  obtain ⟨h1, h2, h3, h4, h5, h6, h7, h8, h9, h10, h11, h12, h13⟩ := hs
  refine ⟨?_, h2, h3, h4, h5, h6, h7, h8, h9, h10, h11, h12, h13⟩
  show s.nNew + 1 = (newCount s : Int) + (c + 1)
  omega


/-- The record `Create` builds (abbreviation for the proofs below). -/
def freshRecord (addr : CAddress) (src : CNetAddr) (len : Nat) : CAddrInfo :=
  { toCAddress := addr, source := src, nRandomPos := (len : Int) }

/-- The time-penalty write `Add_` performs on a freshly created record. -/
def penalise (a : CAddrInfo) (pen : Int) : CAddrInfo :=
  { a with nTime := max 0 (a.nTime - pen) }

-- `Add_` preserves the store invariant for any arguments and oracle draws.
theorem add_inv {s : AddrMan} (hs : StoreInv s) (addr : CAddress) (source : CNetAddr)
    (pen nNow : Int) (draw : Nat) : StoreInv (Add_ s addr source pen nNow draw).2 := by
  unfold Add_
  split
  · exact hs
  · set pen2 := (if addr.toCNetAddr = source then (0 : Int) else pen) with hpen
    dsimp only
    rcases hfind : Find s addr.toCNetAddr with _ | p
    · -- fresh address: create, set penalised time, bump the counter, place
      have hma : s.mapAddr addr.toCNetAddr = none := find_none hs hfind
      dsimp only
      rw [show (Create s addr source).2 = s.nIdCount from rfl]
      have hmifresh : (Create s addr source).1.mapInfo s.nIdCount =
          some (freshRecord addr source s.vRandom.length) := updMap_self ..
      rw [hmifresh]
      dsimp only
      show StoreInv (addPlace
        { (Create s addr source).1 with
            mapInfo := updMap (Create s addr source).1.mapInfo s.nIdCount
              (some (penalise (freshRecord addr source s.vRandom.length) pen2))
            nNew := (Create s addr source).1.nNew + 1 }
        s.nIdCount source nNow)
      refine addPlace_inv ?_ (fun k (h : k = s.nIdCount) => h) source nNow ?_ ?_
      · have hs1 := create_invC hs addr source hma
        have hstep : InvC { { (Create s addr source).1 with
              mapInfo := updMap (Create s addr source).1.mapInfo s.nIdCount
                (some (penalise (freshRecord addr source s.vRandom.length) pen2)) }
            with nNew := (Create s addr source).1.nNew + 1 } ((0 - 1) + 1)
            (fun k => False ∨ k = s.nIdCount) :=
          invC_bump_nNew (invC_update_record hs1 hmifresh rfl rfl rfl rfl (fun h => nomatch h))
        exact invC_congr_X ((by norm_num : ((0 : Int) - 1) + 1 = 0) ▸ hstep)
          (fun k => (iff_of_eq (false_or _)).symm)
      · intro info h
        have h2 : updMap (Create s addr source).1.mapInfo s.nIdCount
            (some (penalise (freshRecord addr source s.vRandom.length) pen2))
            s.nIdCount = some info := h
        rw [updMap_self] at h2
        obtain rfl := Option.some.inj h2
        rfl
      · intro hnX
        exact absurd rfl hnX
    · -- known address
      obtain ⟨nId, pinfo⟩ := p
      dsimp only
      obtain ⟨hma, hmi⟩ := find_some hfind
      obtain ⟨hfsvc, hffl, hfrc, hfrp, hfls⟩ := addUpdateExisting_frame pinfo addr pen2 nNow
      have hs1 : StoreInv { s with
          mapInfo := updMap s.mapInfo nId (some (addUpdateExisting pinfo addr pen2 nNow)) } := by
        refine invC_update_record hs hmi hfsvc hffl hfrc hfrp ?_
        intro htr
        rw [hfls]
        rw [hffl] at htr
        exact (hs.hTriedRec nId pinfo hmi htr).2.1
      split
      · exact hs1
      · split
        · exact hs1
        · split
          · exact hs1
          · split
            · exact hs1
            · rename_i hTr hCap hGate
              refine addPlace_inv hs1 (fun k (h : False) => h.elim) source nNow ?_ ?_
              · intro info h
                have h2 : updMap s.mapInfo nId
                    (some (addUpdateExisting pinfo addr pen2 nNow)) nId = some info := h
                rw [updMap_self] at h2
                obtain rfl := Option.some.inj h2
                simpa using hTr
              · intro _ info h
                have h2 : updMap s.mapInfo nId
                    (some (addUpdateExisting pinfo addr pen2 nNow)) nId = some info := h
                rw [updMap_self] at h2
                obtain rfl := Option.some.inj h2
                rw [hfrc]
                have hfl0 : pinfo.fInTried = false := by
                  rw [← hffl]
                  simpa using hTr
                have hpos := (hs.hNewRec nId pinfo (fun f => f) hmi hfl0).1
                omega

/-- One bucket step of the removal loop at the top of `CAddrMan::MakeTried`
(the body of `removeFromAllNew`'s fold, named for the proofs below). -/
def removeStep (nId : Nat) (t : AddrMan) (bucket : Nat) : AddrMan :=
  match t.mapInfo nId with
  | none => t
  | some info =>
    let pos := info.toCService.GetBucketPosition t.nKey true bucket
    if t.vvNew bucket pos = some nId then
      { t with
          vvNew := updTable t.vvNew bucket pos none
          mapInfo := updMap t.mapInfo nId (some { info with nRefCount := info.nRefCount - 1 }) }
    else t

theorem removeFromAllNew_eq (s : AddrMan) (nId : Nat) :
    removeFromAllNew s nId = (List.range ADDRMAN_NEW_BUCKET_COUNT).foldl (removeStep nId) s :=
  rfl

-- Characterization of the removal loop: over the first `n` buckets it
-- empties exactly the keyed slots holding `nId` and decrements the
-- record's refcount once per emptied slot, leaving everything else alone.
theorem removeStep_fold_spec {s : AddrMan} {nId : Nat} {info : CAddrInfo}
    (hmi : s.mapInfo nId = some info)
    (hcons : ∀ b p, s.vvNew b p = some nId → p = newPosn s.nKey info b) :
    ∀ n : Nat,
      ((List.range n).foldl (removeStep nId) s).nIdCount = s.nIdCount ∧
      ((List.range n).foldl (removeStep nId) s).nNew = s.nNew ∧
      ((List.range n).foldl (removeStep nId) s).nTried = s.nTried ∧
      ((List.range n).foldl (removeStep nId) s).nKey = s.nKey ∧
      ((List.range n).foldl (removeStep nId) s).vvTried = s.vvTried ∧
      ((List.range n).foldl (removeStep nId) s).mapAddr = s.mapAddr ∧
      ((List.range n).foldl (removeStep nId) s).vRandom = s.vRandom ∧
      ((List.range n).foldl (removeStep nId) s).nLastGood = s.nLastGood ∧
      ((List.range n).foldl (removeStep nId) s).m_tried_collisions = s.m_tried_collisions ∧
      (∀ k, k ≠ nId → ((List.range n).foldl (removeStep nId) s).mapInfo k = s.mapInfo k) ∧
      (((List.range n).foldl (removeStep nId) s).mapInfo nId =
        some { info with nRefCount := info.nRefCount -
          ((((Finset.range n).filter
            (fun b => s.vvNew b (newPosn s.nKey info b) = some nId)).card : Int)) }) ∧
      (∀ b p, ((List.range n).foldl (removeStep nId) s).vvNew b p =
        if b < n ∧ s.vvNew b p = some nId then none else s.vvNew b p) := by
  intro n
  induction n with
  | zero =>
    have hz : (List.range 0).foldl (removeStep nId) s = s := by
      rw [List.range_zero, List.foldl_nil]
    rw [hz]
    refine ⟨rfl, rfl, rfl, rfl, rfl, rfl, rfl, rfl, rfl, fun k _ => rfl, ?_, ?_⟩
    · rw [hmi]
      have hz : ((((Finset.range 0).filter
          (fun b => s.vvNew b (newPosn s.nKey info b) = some nId)).card : Nat) : Int) = 0 := by
        simp
      rw [hz, sub_zero]
    · intro b p
      rw [if_neg (fun hc => Nat.not_lt_zero b hc.1)]
  | succ n ih =>
    have hstep : (List.range (n + 1)).foldl (removeStep nId) s =
        removeStep nId ((List.range n).foldl (removeStep nId) s) n := by
      rw [List.range_succ, List.foldl_append, List.foldl_cons, List.foldl_nil]
    set T := (List.range n).foldl (removeStep nId) s with hT
    obtain ⟨h1, h2, h3, h4, h5, h6, h7, h8, h9, h10, h11, h12⟩ := ih
    rw [hstep]
    by_cases hslot : s.vvNew n (newPosn s.nKey info n) = some nId
    · have hres : removeStep nId T n = { T with
          vvNew := updTable T.vvNew n (newPosn s.nKey info n) none
          mapInfo := updMap T.mapInfo nId (some { info with nRefCount :=
            info.nRefCount - ((((Finset.range n).filter
              (fun b => s.vvNew b (newPosn s.nKey info b) = some nId)).card : Nat) : Int) - 1 }) }
          := by
        unfold removeStep
        rw [h11]
        dsimp only
        rw [h4, h12]
        simp only [Nat.lt_irrefl, false_and, if_false]
        rw [if_pos (show s.vvNew n (info.toCService.GetBucketPosition s.nKey true n) = some nId
          from hslot)]
        rfl
      rw [hres]
      have hcard : ((Finset.range (n + 1)).filter
          (fun b => s.vvNew b (newPosn s.nKey info b) = some nId)).card =
          ((Finset.range n).filter
            (fun b => s.vvNew b (newPosn s.nKey info b) = some nId)).card + 1 := by
        rw [Finset.range_succ, Finset.filter_insert, if_pos hslot,
          Finset.card_insert_of_not_mem
            (fun hmem => absurd (Finset.mem_range.mp (Finset.mem_filter.mp hmem).1)
              (lt_irrefl n))]
      refine ⟨h1, h2, h3, h4, h5, h6, h7, h8, h9, ?_, ?_, ?_⟩
      · intro k hk
        show updMap T.mapInfo nId _ k = s.mapInfo k
        rw [updMap_ne _ _ _ _ hk]
        exact h10 k hk
      · show updMap T.mapInfo nId _ nId = _
        rw [updMap_self, hcard]
        exact congrArg (fun v => (some { info with nRefCount := v } : Option CAddrInfo))
          (by push_cast; ring)
      · intro b p
        show updTable T.vvNew n (newPosn s.nKey info n) none b p = _
        by_cases hbp : b = n ∧ p = newPosn s.nKey info n
        · obtain ⟨rfl, rfl⟩ := hbp
          rw [updTable_self, if_pos ⟨Nat.lt_succ_self b, hslot⟩]
        · rw [updTable_ne _ _ _ _ _ _ hbp, h12]
          by_cases hsv : s.vvNew b p = some nId
          · by_cases hbn : b < n
            · rw [if_pos ⟨hbn, hsv⟩, if_pos ⟨Nat.lt_succ_of_lt hbn, hsv⟩]
            · have hbne : b ≠ n := by
                rintro rfl
                exact hbp ⟨rfl, hcons b p hsv⟩
              rw [if_neg (fun hc => hbn hc.1), if_neg (fun hc => absurd hc.1 (by omega))]
          · rw [if_neg (fun hc => hsv hc.2), if_neg (fun hc => hsv hc.2)]
    · have hres : removeStep nId T n = T := by
        unfold removeStep
        rw [h11]
        dsimp only
        rw [h4, h12]
        simp only [Nat.lt_irrefl, false_and, if_false]
        rw [if_neg (show ¬ (s.vvNew n (info.toCService.GetBucketPosition s.nKey true n) = some nId)
          from hslot)]
      rw [hres]
      have hcard : ((Finset.range (n + 1)).filter
          (fun b => s.vvNew b (newPosn s.nKey info b) = some nId)).card =
          ((Finset.range n).filter
            (fun b => s.vvNew b (newPosn s.nKey info b) = some nId)).card := by
        rw [Finset.range_succ, Finset.filter_insert, if_neg hslot]
      refine ⟨h1, h2, h3, h4, h5, h6, h7, h8, h9, h10, ?_, ?_⟩
      · rw [h11, hcard]
      · intro b p
        rw [h12]
        by_cases hsv : s.vvNew b p = some nId
        · by_cases hbn : b < n
          · rw [if_pos ⟨hbn, hsv⟩, if_pos ⟨Nat.lt_succ_of_lt hbn, hsv⟩]
          · have hbne : b ≠ n := by
              rintro rfl
              exact hslot (hcons b p hsv ▸ hsv)
            rw [if_neg (fun hc => hbn hc.1), if_neg (fun hc => absurd hc.1 (by omega))]
        · rw [if_neg (fun hc => hsv hc.2), if_neg (fun hc => hsv hc.2)]

-- After `removeFromAllNew` the record survives with refcount 0 and no slot
-- of the new table holds its id; the invariant holds with the id parked.
set_option maxRecDepth 4000 in
theorem removeFromAllNew_invC {s : AddrMan} {nId : Nat} {info : CAddrInfo}
    (hs : StoreInv s) (hmi : s.mapInfo nId = some info) (hfl : info.fInTried = false) :
    InvC (removeFromAllNew s nId) 0 (fun k => k = nId) ∧
    (removeFromAllNew s nId).mapInfo nId = some { info with nRefCount := 0 } ∧
    (removeFromAllNew s nId).nIdCount = s.nIdCount ∧
    (removeFromAllNew s nId).nNew = s.nNew ∧
    (removeFromAllNew s nId).nTried = s.nTried ∧
    (removeFromAllNew s nId).nKey = s.nKey ∧
    (removeFromAllNew s nId).vvTried = s.vvTried ∧
    (removeFromAllNew s nId).mapAddr = s.mapAddr ∧
    (removeFromAllNew s nId).vRandom = s.vRandom ∧
    (∀ k, k ≠ nId → (removeFromAllNew s nId).mapInfo k = s.mapInfo k) ∧
    (∀ b p, (removeFromAllNew s nId).vvNew b p ≠ some nId) := by
  have hcons : ∀ b p, s.vvNew b p = some nId → p = newPosn s.nKey info b := by
    intro b p hsl
    obtain ⟨hb, info2, hmi2, _, hp⟩ := hs.hSlotNew b p nId hsl
    rw [hmi] at hmi2
    obtain rfl := Option.some.inj hmi2
    exact hp
  rw [removeFromAllNew_eq]
  obtain ⟨g1, g2, g3, g4, g5, g6, g7, g8, g9, g10, g11, g12⟩ :=
    removeStep_fold_spec hmi hcons ADDRMAN_NEW_BUCKET_COUNT
  set T := (List.range ADDRMAN_NEW_BUCKET_COUNT).foldl (removeStep nId) s with hT
  have hrc : info.nRefCount = ((newRefs s nId info).card : Int) :=
    (hs.hNewRec nId info (fun f => f) hmi hfl).2
  have hmi1 : T.mapInfo nId = some { info with nRefCount := 0 } := by
    rw [g11]
    refine congrArg (fun v => (some { info with nRefCount := v } : Option CAddrInfo)) ?_
    unfold newRefs at hrc
    omega
  have hnid_lt : nId < s.nIdCount := by
    by_contra h
    rw [hs.hDom nId (le_of_not_lt h)] at hmi
    cases hmi
  have hnosl : ∀ b p, T.vvNew b p ≠ some nId := by
    intro b p hsl
    rw [g12] at hsl
    by_cases hc : b < ADDRMAN_NEW_BUCKET_COUNT ∧ s.vvNew b p = some nId
    · rw [if_pos hc] at hsl
      cases hsl
    · rw [if_neg hc] at hsl
      obtain ⟨hb, _⟩ := hs.hSlotNew b p nId hsl
      exact hc ⟨hb, hsl⟩
  have hrecN : ∀ k, isNewRecord T k = isNewRecord s k := by
    intro k
    unfold isNewRecord
    by_cases hk : k = nId
    · subst hk
      rw [hmi1, hmi]
    · rw [g10 k hk]
  have hrecT : ∀ k, isTriedRecord T k = isTriedRecord s k := by
    intro k
    unfold isTriedRecord
    by_cases hk : k = nId
    · subst hk
      rw [hmi1, hmi]
    · rw [g10 k hk]
  have hNC : newCount T = newCount s := newCount_eq_of g1 hrecN
  have hTC : triedCount T = triedCount s := triedCount_eq_of g1 hrecT
  have hnewRefs : ∀ k infok, k ≠ nId → newRefs T k infok = newRefs s k infok := by
    intro k infok hk
    unfold newRefs
    simp only [g4]
    apply Finset.filter_congr
    intro b _
    rw [g12]
    by_cases hc : b < ADDRMAN_NEW_BUCKET_COUNT ∧ s.vvNew b (newPosn s.nKey infok b) = some nId
    · rw [if_pos hc]
      constructor
      · intro h
        cases h
      · intro h
        exact absurd (Option.some.inj (hc.2.symm.trans h)) (fun e => hk e.symm)
    · rw [if_neg hc]
  refine ⟨⟨?_, ?_, ?_, ?_, ?_, ?_, ?_, ?_, ?_, ?_, ?_, ?_, ?_⟩, hmi1, g1, g2, g3, g4, g5, g6,
    g7, g10, hnosl⟩
  · rw [g2, hNC]
    have := hs.hNew
    omega
  · rw [g3, hTC]
    exact hs.hTried
  · rw [g7, hNC, hTC]
    exact hs.hLen
  · intro k hk
    rw [g1] at hk
    have hkne : k ≠ nId := fun e => absurd hnid_lt (by omega)
    rw [g10 k hkne]
    exact hs.hDom k hk
  · intro k info2 hinfo htr
    have hkne : k ≠ nId := by
      rintro rfl
      rw [hmi1] at hinfo
      obtain rfl := Option.some.inj hinfo
      rw [show ({ info with nRefCount := (0 : Int) } : CAddrInfo).fInTried = info.fInTried
        from rfl, hfl] at htr
      cases htr
    rw [g10 k hkne] at hinfo
    obtain ⟨ha, hb, hc⟩ := hs.hTriedRec k info2 hinfo htr
    refine ⟨ha, hb, ?_⟩
    unfold triedBkt triedPosn
    rw [g4, g5]
    exact hc
  · intro k info2 hX hinfo hf2
    have hkne : k ≠ nId := hX
    rw [g10 k hkne] at hinfo
    obtain ⟨ha, hb⟩ := hs.hNewRec k info2 (fun f => f) hinfo hf2
    exact ⟨ha, by rw [hnewRefs k info2 hkne]; exact hb⟩
  · intro k hk
    subst hk
    exact ⟨{ info with nRefCount := 0 }, hmi1, hfl, rfl, hnosl⟩
  · intro b p k hsl
    have hkne : k ≠ nId := by
      rintro rfl
      exact hnosl b p hsl
    rw [g12] at hsl
    by_cases hc : b < ADDRMAN_NEW_BUCKET_COUNT ∧ s.vvNew b p = some nId
    · rw [if_pos hc] at hsl
      cases hsl
    · rw [if_neg hc] at hsl
      obtain ⟨hb, info2, hmi2, hf2, hp2⟩ := hs.hSlotNew b p k hsl
      refine ⟨hb, info2, by rw [g10 k hkne]; exact hmi2, hf2, ?_⟩
      unfold newPosn
      rw [g4]
      exact hp2
  · intro b p k hsl
    rw [g5] at hsl
    obtain ⟨info2, hmi2, hf2, hb2, hp2⟩ := hs.hSlotTried b p k hsl
    have hkne : k ≠ nId := by
      rintro rfl
      rw [hmi] at hmi2
      obtain rfl := Option.some.inj hmi2
      rw [hfl] at hf2
      cases hf2
    refine ⟨info2, by rw [g10 k hkne]; exact hmi2, hf2, ?_, ?_⟩
    · unfold triedBkt
      rw [g4]
      exact hb2
    · unfold triedPosn triedBkt
      rw [g4]
      exact hp2
  · intro k info2 hinfo
    rw [g7]
    by_cases hk : k = nId
    · subst hk
      rw [hmi1] at hinfo
      obtain rfl := Option.some.inj hinfo
      exact hs.hRandPos k info hmi
    · rw [g10 k hk] at hinfo
      exact hs.hRandPos k info2 hinfo
  · intro i hi
    rw [g7] at hi ⊢
    obtain ⟨info2, hmi2, hp2⟩ := hs.hRandMem i hi
    by_cases hk : s.vRandom.getD i 0 = nId
    · rw [hk] at hmi2 ⊢
      rw [hmi] at hmi2
      obtain rfl := Option.some.inj hmi2
      exact ⟨{ info with nRefCount := 0 }, hmi1, hp2⟩
    · exact ⟨info2, by rw [g10 _ hk]; exact hmi2, hp2⟩
  · intro a k hmap
    rw [g6] at hmap
    obtain ⟨info2, hmi2, hna⟩ := hs.hAddr1 a k hmap
    by_cases hk : k = nId
    · subst hk
      rw [hmi] at hmi2
      obtain rfl := Option.some.inj hmi2
      exact ⟨{ info with nRefCount := 0 }, hmi1, hna⟩
    · exact ⟨info2, by rw [g10 k hk]; exact hmi2, hna⟩
  · intro k info2 hinfo
    rw [g6]
    by_cases hk : k = nId
    · subst hk
      rw [hmi1] at hinfo
      obtain rfl := Option.some.inj hinfo
      exact hs.hAddr2 k info hmi
    · rw [g10 k hk] at hinfo
      exact hs.hAddr2 k info2 hinfo

-- Decrementing the bare `nNew` counter lowers the bookkeeping offset.
theorem invC_sub_nNew {s : AddrMan} {c : Int} {X : Nat → Prop} (hs : InvC s c X) :
    InvC { s with nNew := s.nNew - 1 } (c - 1) X := by
  obtain ⟨h1, h2, h3, h4, h5, h6, h7, h8, h9, h10, h11, h12, h13⟩ := hs
  refine ⟨?_, h2, h3, h4, h5, h6, h7, h8, h9, h10, h11, h12, h13⟩
  show s.nNew - 1 = (newCount s : Int) + (c - 1)
  omega

-- Unhooking the occupant of a tried slot (the first half of the eviction
-- inside `MakeTried`): it becomes a parked record outside both tables.
theorem evictUnhook_invC {s : AddrMan} {c : Int} {X : Nat → Prop} {nIdE : Nat}
    {KB KP : Nat} {infoOld : CAddrInfo} (hs : InvC s c X)
    (hsl : s.vvTried KB KP = some nIdE) (hmiE : s.mapInfo nIdE = some infoOld) :
    InvC { s with
        mapInfo := updMap s.mapInfo nIdE (some { infoOld with fInTried := false })
        vvTried := updTable s.vvTried KB KP none
        nTried := s.nTried - 1 } (c - 1) (fun k => X k ∨ k = nIdE) := by
  obtain ⟨infoOld2, hmiE2, htrE, hbE, hpE⟩ := hs.hSlotTried KB KP nIdE hsl
  rw [hmiE] at hmiE2
  obtain rfl := Option.some.inj hmiE2
  obtain ⟨hrc0, hls0, hslC⟩ := hs.hTriedRec nIdE infoOld hmiE htrE
  have hElt : nIdE < s.nIdCount := by
    by_contra h
    rw [hs.hDom nIdE (le_of_not_lt h)] at hmiE
    cases hmiE
  have hnonew : ∀ b p, s.vvNew b p ≠ some nIdE := by
    intro b p h
    obtain ⟨_, info2, hmi2, hf2, _⟩ := hs.hSlotNew b p nIdE h
    rw [hmiE] at hmi2
    obtain rfl := Option.some.inj hmi2
    rw [htrE] at hf2
    cases hf2
  have hXE : ¬ X nIdE := by
    intro hx
    obtain ⟨info2, hmi2, hf2, _, _⟩ := hs.hX nIdE hx
    rw [hmiE] at hmi2
    obtain rfl := Option.some.inj hmi2
    rw [htrE] at hf2
    cases hf2
  have hfgN : ∀ k, k ≠ nIdE →
      isNewRecord { s with
        mapInfo := updMap s.mapInfo nIdE (some { infoOld with fInTried := false })
        vvTried := updTable s.vvTried KB KP none
        nTried := s.nTried - 1 } k = isNewRecord s k := by
    intro k hk
    unfold isNewRecord
    dsimp only
    rw [updMap_ne _ _ _ _ hk]
  have hfgT : ∀ k, k ≠ nIdE →
      isTriedRecord { s with
        mapInfo := updMap s.mapInfo nIdE (some { infoOld with fInTried := false })
        vvTried := updTable s.vvTried KB KP none
        nTried := s.nTried - 1 } k = isTriedRecord s k := by
    intro k hk
    unfold isTriedRecord
    dsimp only
    rw [updMap_ne _ _ _ _ hk]
  have hfE : isNewRecord { s with
      mapInfo := updMap s.mapInfo nIdE (some { infoOld with fInTried := false })
      vvTried := updTable s.vvTried KB KP none
      nTried := s.nTried - 1 } nIdE = true := by
    unfold isNewRecord
    dsimp only
    rw [updMap_self]
    rfl
  have hgE : isNewRecord s nIdE = false := by
    unfold isNewRecord
    rw [hmiE]
    dsimp only
    rw [htrE]
    rfl
  have hfTE : isTriedRecord { s with
      mapInfo := updMap s.mapInfo nIdE (some { infoOld with fInTried := false })
      vvTried := updTable s.vvTried KB KP none
      nTried := s.nTried - 1 } nIdE = false := by
    unfold isTriedRecord
    dsimp only
    rw [updMap_self]
  have hgTE : isTriedRecord s nIdE = true := by
    unfold isTriedRecord
    rw [hmiE]
    dsimp only
    rw [htrE]
  have keyN := card_filter_update s.nIdCount nIdE hfgN
  have keyT := card_filter_update s.nIdCount nIdE hfgT
  rw [if_pos ⟨hElt, hfE⟩] at keyN
  rw [if_neg (fun hc => by rw [hgE] at hc; exact Bool.noConfusion hc.2)] at keyN
  rw [if_neg (fun hc => by rw [hfTE] at hc; exact Bool.noConfusion hc.2)] at keyT
  rw [if_pos ⟨hElt, hgTE⟩] at keyT
  have hNC : newCount { s with
      mapInfo := updMap s.mapInfo nIdE (some { infoOld with fInTried := false })
      vvTried := updTable s.vvTried KB KP none
      nTried := s.nTried - 1 } = newCount s + 1 := by
    unfold newCount
    dsimp only
    omega
  have hTC : triedCount s = triedCount { s with
      mapInfo := updMap s.mapInfo nIdE (some { infoOld with fInTried := false })
      vvTried := updTable s.vvTried KB KP none
      nTried := s.nTried - 1 } + 1 := by
    unfold triedCount
    dsimp only
    omega
  refine ⟨?_, ?_, ?_, ?_, ?_, ?_, ?_, ?_, ?_, ?_, ?_, ?_, ?_⟩ <;> dsimp only
  · rw [hNC]
    have := hs.hNew
    push_cast
    push_cast at this
    omega
  · rw [show triedCount { s with
        mapInfo := updMap s.mapInfo nIdE (some { infoOld with fInTried := false })
        vvTried := updTable s.vvTried KB KP none
        nTried := s.nTried - 1 } = triedCount s - 1 from by omega]
    have := hs.hTried
    have hposT : 0 < triedCount s := by omega
    push_cast
    omega
  · rw [hNC]
    have := hs.hLen
    omega
  · intro k hk
    have hkne : k ≠ nIdE := fun e => absurd hElt (by omega)
    rw [updMap_ne _ _ _ _ hkne]
    exact hs.hDom k hk
  · intro k info2 hinfo htr2
    by_cases hk : k = nIdE
    · subst hk
      rw [updMap_self] at hinfo
      obtain rfl := Option.some.inj hinfo
      rw [show ({ infoOld with fInTried := false } : CAddrInfo).fInTried = false from rfl] at htr2
      cases htr2
    · rw [updMap_ne _ _ _ _ hk] at hinfo
      obtain ⟨ha, hb, hc⟩ := hs.hTriedRec k info2 hinfo htr2
      refine ⟨ha, hb, ?_⟩
      have hne2 : ¬ (triedBkt s.nKey info2 = KB ∧ triedPosn s.nKey info2 = KP) := by
        rintro ⟨e1, e2⟩
        rw [e1, e2, hsl] at hc
        exact hk (Option.some.inj hc).symm
      rw [updTable_ne _ _ _ _ _ _ hne2]
      exact hc
  · intro k info2 hX2 hinfo hf2
    have hk : k ≠ nIdE := by
      rintro rfl
      rw [updMap_self] at hinfo
      obtain rfl := Option.some.inj hinfo
      exact hX2 (Or.inr rfl)
    rw [updMap_ne _ _ _ _ hk] at hinfo
    have hX3 : ¬ X k := fun hx => hX2 (Or.inl hx)
    exact hs.hNewRec k info2 hX3 hinfo hf2
  · intro k hXk
    rcases hXk with hXk | rfl
    · obtain ⟨info2, hmi2, hf2, hr2, hsl2⟩ := hs.hX k hXk
      have hk : k ≠ nIdE := by
        rintro rfl
        exact hXE hXk
      exact ⟨info2, by rw [updMap_ne _ _ _ _ hk]; exact hmi2, hf2, hr2, hsl2⟩
    · exact ⟨{ infoOld with fInTried := false }, updMap_self .., rfl, hrc0,
        fun b p h => hnonew b p h⟩
  · intro b p k hsl2
    obtain ⟨hb2, info2, hmi2, hf2, hp2⟩ := hs.hSlotNew b p k hsl2
    have hk : k ≠ nIdE := by
      rintro rfl
      exact hnonew b p hsl2
    exact ⟨hb2, info2, by rw [updMap_ne _ _ _ _ hk]; exact hmi2, hf2, hp2⟩
  · intro b p k hsl2
    by_cases hbp : b = KB ∧ p = KP
    · obtain ⟨rfl, rfl⟩ := hbp
      rw [updTable_self] at hsl2
      cases hsl2
    · rw [updTable_ne _ _ _ _ _ _ hbp] at hsl2
      obtain ⟨info2, hmi2, hf2, hb2, hp2⟩ := hs.hSlotTried b p k hsl2
      have hk : k ≠ nIdE := by
        rintro rfl
        rw [hmiE] at hmi2
        obtain rfl := Option.some.inj hmi2
        exact hbp ⟨hb2.trans hbE.symm, hp2.trans hpE.symm⟩
      exact ⟨info2, by rw [updMap_ne _ _ _ _ hk]; exact hmi2, hf2, hb2, hp2⟩
  · intro k info2 hinfo
    by_cases hk : k = nIdE
    · subst hk
      rw [updMap_self] at hinfo
      obtain rfl := Option.some.inj hinfo
      exact hs.hRandPos k infoOld hmiE
    · rw [updMap_ne _ _ _ _ hk] at hinfo
      exact hs.hRandPos k info2 hinfo
  · intro i hi
    obtain ⟨info2, hmi2, hp2⟩ := hs.hRandMem i hi
    by_cases hk : s.vRandom.getD i 0 = nIdE
    · rw [hk] at hmi2 ⊢
      rw [hmiE] at hmi2
      obtain rfl := Option.some.inj hmi2
      exact ⟨{ infoOld with fInTried := false }, updMap_self .., hp2⟩
    · exact ⟨info2, by rw [updMap_ne _ _ _ _ hk]; exact hmi2, hp2⟩
  · intro a k hmap
    obtain ⟨info2, hmi2, hna⟩ := hs.hAddr1 a k hmap
    by_cases hk : k = nIdE
    · subst hk
      rw [hmiE] at hmi2
      obtain rfl := Option.some.inj hmi2
      exact ⟨{ infoOld with fInTried := false }, updMap_self .., hna⟩
    · exact ⟨info2, by rw [updMap_ne _ _ _ _ hk]; exact hmi2, hna⟩
  · intro k info2 hinfo
    by_cases hk : k = nIdE
    · subst hk
      rw [updMap_self] at hinfo
      obtain rfl := Option.some.inj hinfo
      exact hs.hAddr2 k infoOld hmiE
    · rw [updMap_ne _ _ _ _ hk] at hinfo
      exact hs.hAddr2 k info2 hinfo

-- Re-entering a parked record into an empty keyed slot of the new table
-- with refcount 1 (the reinsertion at the end of the eviction inside
-- `MakeTried`) removes it from the parked set.
theorem placeExempt_invC {s : AddrMan} {c : Int} {X : Nat → Prop} {nId : Nat} {pinfo : CAddrInfo}
    (hs : InvC s c X) (hXn : X nId) (hmi : s.mapInfo nId = some pinfo)
    {B P : Nat} (hB : B < ADDRMAN_NEW_BUCKET_COUNT) (hP : P = newPosn s.nKey pinfo B)
    (hempty : s.vvNew B P = none) :
    InvC { s with
        mapInfo := updMap s.mapInfo nId (some { pinfo with nRefCount := 1 })
        vvNew := updTable s.vvNew B P (some nId) } c (fun k => X k ∧ k ≠ nId) := by
  obtain ⟨pinfo2, hmi2, hflX, hrc0, hnosl⟩ := hs.hX nId hXn
  rw [hmi] at hmi2
  obtain rfl := Option.some.inj hmi2
  have hsvc : ({ pinfo with nRefCount := (1 : Int) } : CAddrInfo).toCService
      = pinfo.toCService := rfl
  have hnid_lt : nId < s.nIdCount := by
    by_contra h
    rw [hs.hDom nId (le_of_not_lt h)] at hmi
    cases hmi
  have hNC : newCount { s with
      mapInfo := updMap s.mapInfo nId (some { pinfo with nRefCount := 1 })
      vvNew := updTable s.vvNew B P (some nId) } = newCount s := by
    apply newCount_eq_of
    · rfl
    · intro k
      unfold isNewRecord
      dsimp only
      by_cases hk : k = nId
      · subst hk
        simp [updMap_self, hmi, hflX]
      · rw [updMap_ne _ _ _ _ hk]
  have hTC : triedCount { s with
      mapInfo := updMap s.mapInfo nId (some { pinfo with nRefCount := 1 })
      vvNew := updTable s.vvNew B P (some nId) } = triedCount s := by
    apply triedCount_eq_of
    · rfl
    · intro k
      unfold isTriedRecord
      dsimp only
      by_cases hk : k = nId
      · subst hk
        simp [updMap_self, hmi, hflX]
      · rw [updMap_ne _ _ _ _ hk]
  refine ⟨?_, ?_, ?_, ?_, ?_, ?_, ?_, ?_, ?_, ?_, ?_, ?_, ?_⟩ <;> dsimp only
  · rw [hNC]
    exact hs.hNew
  · rw [hTC]
    exact hs.hTried
  · rw [hNC, hTC]
    exact hs.hLen
  · intro k hk
    have hne : k ≠ nId := fun e => absurd hnid_lt (by omega)
    rw [updMap_ne _ _ _ _ hne]
    exact hs.hDom k hk
  · intro k info2 hinfo htr
    by_cases hk : k = nId
    · subst hk
      rw [updMap_self] at hinfo
      obtain rfl := Option.some.inj hinfo
      rw [show ({ pinfo with nRefCount := (1 : Int) } : CAddrInfo).fInTried
        = pinfo.fInTried from rfl, hflX] at htr
      cases htr
    · rw [updMap_ne _ _ _ _ hk] at hinfo
      exact hs.hTriedRec k info2 hinfo htr
  · intro k info2 hXk hinfo hfl2
    by_cases hk : k = nId
    · subst hk
      rw [updMap_self] at hinfo
      obtain rfl := Option.some.inj hinfo
      have hrefs : (Finset.range ADDRMAN_NEW_BUCKET_COUNT).filter
          (fun b2 => updTable s.vvNew B P (some k) b2
            (newPosn s.nKey { pinfo with nRefCount := 1 } b2) = some k) = {B} := by
        ext b2
        rw [Finset.mem_filter, Finset.mem_singleton]
        constructor
        · rintro ⟨hb2r, hb2s⟩
          by_cases hbb : b2 = B
          · exact hbb
          · rw [newPosn_congr hsvc] at hb2s
            rw [updTable_ne _ _ _ _ _ _ (fun he => hbb he.1)] at hb2s
            exact absurd hb2s (hnosl b2 _)
        · rintro rfl
          refine ⟨Finset.mem_range.mpr hB, ?_⟩
          rw [newPosn_congr hsvc, ← hP]
          exact updTable_self ..
      refine ⟨by norm_num, ?_⟩
      show ({ pinfo with nRefCount := (1 : Int) } : CAddrInfo).nRefCount
        = (((Finset.range ADDRMAN_NEW_BUCKET_COUNT).filter _).card : Int)
      rw [show ((Finset.range ADDRMAN_NEW_BUCKET_COUNT).filter
          (fun b2 => updTable s.vvNew B P (some k) b2
            (newPosn s.nKey { pinfo with nRefCount := 1 } b2) = some k)).card
          = ({B} : Finset Nat).card from by rw [hrefs]]
      rw [Finset.card_singleton]
      rfl
    · rw [updMap_ne _ _ _ _ hk] at hinfo
      have hXk2 : ¬ X k := fun hx => hXk ⟨hx, hk⟩
      obtain ⟨hp2, hc2⟩ := hs.hNewRec k info2 hXk2 hinfo hfl2
      refine ⟨hp2, ?_⟩
      have heq : (Finset.range ADDRMAN_NEW_BUCKET_COUNT).filter
          (fun b2 => updTable s.vvNew B P (some nId) b2 (newPosn s.nKey info2 b2) = some k)
          = newRefs s k info2 := by
        unfold newRefs
        apply Finset.filter_congr
        intro b2 _
        dsimp only
        by_cases hbb : b2 = B ∧ newPosn s.nKey info2 b2 = P
        · obtain ⟨rfl, he2⟩ := hbb
          rw [he2, updTable_self, hempty]
          simp [Ne.symm hk]
        · rw [updTable_ne _ _ _ _ _ _ hbb]
      show info2.nRefCount = (((Finset.range ADDRMAN_NEW_BUCKET_COUNT).filter _).card : Int)
      rw [show ((Finset.range ADDRMAN_NEW_BUCKET_COUNT).filter
          (fun b2 => updTable s.vvNew B P (some nId) b2 (newPosn s.nKey info2 b2) = some k)).card
          = (newRefs s k info2).card from by rw [heq]]
      exact hc2
  · rintro k ⟨hXk, hk⟩
    obtain ⟨info2, hmi2b, hf2, hr2, hsl2⟩ := hs.hX k hXk
    refine ⟨info2, by rw [updMap_ne _ _ _ _ hk]; exact hmi2b, hf2, hr2, ?_⟩
    intro b p
    by_cases hbp : b = B ∧ p = P
    · obtain ⟨rfl, rfl⟩ := hbp
      rw [updTable_self]
      exact fun e => hk (Option.some.inj e).symm
    · rw [updTable_ne _ _ _ _ _ _ hbp]
      exact hsl2 b p
  · intro b2 p2 k hsl2
    by_cases hbb : b2 = B ∧ p2 = P
    · obtain ⟨rfl, rfl⟩ := hbb
      rw [updTable_self] at hsl2
      obtain rfl : nId = k := Option.some.inj hsl2
      refine ⟨hB, { pinfo with nRefCount := 1 }, updMap_self .., ?_, ?_⟩
      · rw [show ({ pinfo with nRefCount := (1 : Int) } : CAddrInfo).fInTried
          = pinfo.fInTried from rfl]
        exact hflX
      · rw [newPosn_congr hsvc]
        exact hP
    · rw [updTable_ne _ _ _ _ _ _ hbb] at hsl2
      obtain ⟨hb2, info2, hmi2b, hf2, hp2⟩ := hs.hSlotNew b2 p2 k hsl2
      have hk : k ≠ nId := by
        rintro rfl
        exact hnosl b2 p2 hsl2
      exact ⟨hb2, info2, by rw [updMap_ne _ _ _ _ hk]; exact hmi2b, hf2, hp2⟩
  · intro b2 p2 k hsl2
    obtain ⟨info2, hmi2b, hf2, hb2, hp2⟩ := hs.hSlotTried b2 p2 k hsl2
    have hk : k ≠ nId := by
      rintro rfl
      rw [hmi] at hmi2b
      obtain rfl := Option.some.inj hmi2b
      rw [hflX] at hf2
      cases hf2
    exact ⟨info2, by rw [updMap_ne _ _ _ _ hk]; exact hmi2b, hf2, hb2, hp2⟩
  · intro k info2 hinfo
    by_cases hk : k = nId
    · subst hk
      rw [updMap_self] at hinfo
      obtain rfl := Option.some.inj hinfo
      exact hs.hRandPos k pinfo hmi
    · rw [updMap_ne _ _ _ _ hk] at hinfo
      exact hs.hRandPos k info2 hinfo
  · intro i hi
    obtain ⟨info2, hmi2b, hp2⟩ := hs.hRandMem i hi
    by_cases hk : s.vRandom.getD i 0 = nId
    · rw [hk] at hmi2b ⊢
      rw [hmi] at hmi2b
      obtain rfl := Option.some.inj hmi2b
      exact ⟨_, updMap_self .., hp2⟩
    · exact ⟨info2, by rw [updMap_ne _ _ _ _ hk]; exact hmi2b, hp2⟩
  · intro a k hmap
    obtain ⟨info2, hmi2b, hna⟩ := hs.hAddr1 a k hmap
    by_cases hk : k = nId
    · subst hk
      rw [hmi] at hmi2b
      obtain rfl := Option.some.inj hmi2b
      exact ⟨_, updMap_self .., hna⟩
    · exact ⟨info2, by rw [updMap_ne _ _ _ _ hk]; exact hmi2b, hna⟩
  · intro k info2 hinfo
    by_cases hk : k = nId
    · subst hk
      rw [updMap_self] at hinfo
      obtain rfl := Option.some.inj hinfo
      exact hs.hAddr2 k pinfo hmi
    · rw [updMap_ne _ _ _ _ hk] at hinfo
      exact hs.hAddr2 k info2 hinfo

-- Entering a parked record into an empty tried slot keyed by it (the final
-- step of `MakeTried`) restores the invariant and raises the offset.
theorem promoteTried_invC {s : AddrMan} {c : Int} {nId : Nat} {pinfo : CAddrInfo}
    (hs : InvC s c (fun k => k = nId)) (hmi : s.mapInfo nId = some pinfo)
    (hls : 0 < pinfo.nLastSuccess)
    {KB KP : Nat} (hKB : KB = triedBkt s.nKey pinfo) (hKP : KP = triedPosn s.nKey pinfo)
    (hempty : s.vvTried KB KP = none) :
    InvC { s with
        vvTried := updTable s.vvTried KB KP (some nId)
        nTried := s.nTried + 1
        mapInfo := updMap s.mapInfo nId (some { pinfo with fInTried := true }) } (c + 1)
      (fun _ => False) := by
  obtain ⟨pinfo2, hmi2, hflX, hrc0, hnosl⟩ := hs.hX nId rfl
  rw [hmi] at hmi2
  obtain rfl := Option.some.inj hmi2
  have hnid_lt : nId < s.nIdCount := by
    by_contra h
    rw [hs.hDom nId (le_of_not_lt h)] at hmi
    cases hmi
  have hfgN : ∀ k, k ≠ nId →
      isNewRecord { s with
        vvTried := updTable s.vvTried KB KP (some nId)
        nTried := s.nTried + 1
        mapInfo := updMap s.mapInfo nId (some { pinfo with fInTried := true }) } k
      = isNewRecord s k := by
    intro k hk
    unfold isNewRecord
    dsimp only
    rw [updMap_ne _ _ _ _ hk]
  have hfgT : ∀ k, k ≠ nId →
      isTriedRecord { s with
        vvTried := updTable s.vvTried KB KP (some nId)
        nTried := s.nTried + 1
        mapInfo := updMap s.mapInfo nId (some { pinfo with fInTried := true }) } k
      = isTriedRecord s k := by
    intro k hk
    unfold isTriedRecord
    dsimp only
    rw [updMap_ne _ _ _ _ hk]
  have hfE : isNewRecord { s with
      vvTried := updTable s.vvTried KB KP (some nId)
      nTried := s.nTried + 1
      mapInfo := updMap s.mapInfo nId (some { pinfo with fInTried := true }) } nId = false := by
    unfold isNewRecord
    dsimp only
    rw [updMap_self]
    rfl
  have hgE : isNewRecord s nId = true := by
    unfold isNewRecord
    rw [hmi]
    dsimp only
    rw [hflX]
    rfl
  have hfTE : isTriedRecord { s with
      vvTried := updTable s.vvTried KB KP (some nId)
      nTried := s.nTried + 1
      mapInfo := updMap s.mapInfo nId (some { pinfo with fInTried := true }) } nId = true := by
    unfold isTriedRecord
    dsimp only
    rw [updMap_self]
  have hgTE : isTriedRecord s nId = false := by
    unfold isTriedRecord
    rw [hmi]
    dsimp only
    rw [hflX]
  have keyN := card_filter_update s.nIdCount nId hfgN
  have keyT := card_filter_update s.nIdCount nId hfgT
  rw [if_neg (fun hc => by rw [hfE] at hc; exact Bool.noConfusion hc.2)] at keyN
  rw [if_pos ⟨hnid_lt, hgE⟩] at keyN
  rw [if_pos ⟨hnid_lt, hfTE⟩] at keyT
  rw [if_neg (fun hc => by rw [hgTE] at hc; exact Bool.noConfusion hc.2)] at keyT
  have hNC : newCount s = newCount { s with
      vvTried := updTable s.vvTried KB KP (some nId)
      nTried := s.nTried + 1
      mapInfo := updMap s.mapInfo nId (some { pinfo with fInTried := true }) } + 1 := by
    unfold newCount
    dsimp only
    omega
  have hTC : triedCount { s with
      vvTried := updTable s.vvTried KB KP (some nId)
      nTried := s.nTried + 1
      mapInfo := updMap s.mapInfo nId (some { pinfo with fInTried := true }) }
      = triedCount s + 1 := by
    unfold triedCount
    dsimp only
    omega
  refine ⟨?_, ?_, ?_, ?_, ?_, ?_, ?_, ?_, ?_, ?_, ?_, ?_, ?_⟩ <;> dsimp only
  · have := hs.hNew
    push_cast
    omega
  · rw [hTC]
    have := hs.hTried
    push_cast
    omega
  · have := hs.hLen
    rw [hTC]
    omega
  · intro k hk
    have hne : k ≠ nId := fun e => absurd hnid_lt (by omega)
    rw [updMap_ne _ _ _ _ hne]
    exact hs.hDom k hk
  · intro k info2 hinfo htr
    by_cases hk : k = nId
    · subst hk
      rw [updMap_self] at hinfo
      obtain rfl := Option.some.inj hinfo
      refine ⟨hrc0, hls, ?_⟩
      rw [show triedBkt s.nKey ({ pinfo with fInTried := true } : CAddrInfo)
          = KB from by rw [hKB]; rfl, show triedPosn s.nKey ({ pinfo with fInTried := true } : CAddrInfo)
          = KP from by rw [hKP]; rfl]
      exact updTable_self ..
    · rw [updMap_ne _ _ _ _ hk] at hinfo
      obtain ⟨ha, hb, hc⟩ := hs.hTriedRec k info2 hinfo htr
      refine ⟨ha, hb, ?_⟩
      have hne2 : ¬ (triedBkt s.nKey info2 = KB ∧ triedPosn s.nKey info2 = KP) := by
        rintro ⟨e1, e2⟩
        rw [e1, e2, hempty] at hc
        cases hc
      rw [updTable_ne _ _ _ _ _ _ hne2]
      exact hc
  · intro k info2 _ hinfo hf2
    by_cases hk : k = nId
    · subst hk
      rw [updMap_self] at hinfo
      obtain rfl := Option.some.inj hinfo
      rw [show ({ pinfo with fInTried := true } : CAddrInfo).fInTried = true from rfl] at hf2
      cases hf2
    · rw [updMap_ne _ _ _ _ hk] at hinfo
      exact hs.hNewRec k info2 hk hinfo hf2
  · intro k hXk
    cases hXk
  · intro b p k hsl
    obtain ⟨hb2, info2, hmi2b, hf2, hp2⟩ := hs.hSlotNew b p k hsl
    have hk : k ≠ nId := by
      rintro rfl
      exact hnosl b p hsl
    exact ⟨hb2, info2, by rw [updMap_ne _ _ _ _ hk]; exact hmi2b, hf2, hp2⟩
  · intro b p k hsl
    by_cases hbp : b = KB ∧ p = KP
    · obtain ⟨rfl, rfl⟩ := hbp
      rw [updTable_self] at hsl
      obtain rfl : nId = k := Option.some.inj hsl
      refine ⟨{ pinfo with fInTried := true }, updMap_self .., rfl, ?_, ?_⟩
      · exact hKB
      · exact hKP
    · rw [updTable_ne _ _ _ _ _ _ hbp] at hsl
      obtain ⟨info2, hmi2b, hf2, hb2, hp2⟩ := hs.hSlotTried b p k hsl
      have hk : k ≠ nId := by
        rintro rfl
        rw [hmi] at hmi2b
        obtain rfl := Option.some.inj hmi2b
        rw [hflX] at hf2
        cases hf2
      exact ⟨info2, by rw [updMap_ne _ _ _ _ hk]; exact hmi2b, hf2, hb2, hp2⟩
  · intro k info2 hinfo
    by_cases hk : k = nId
    · subst hk
      rw [updMap_self] at hinfo
      obtain rfl := Option.some.inj hinfo
      exact hs.hRandPos k pinfo hmi
    · rw [updMap_ne _ _ _ _ hk] at hinfo
      exact hs.hRandPos k info2 hinfo
  · intro i hi
    obtain ⟨info2, hmi2b, hp2⟩ := hs.hRandMem i hi
    by_cases hk : s.vRandom.getD i 0 = nId
    · rw [hk] at hmi2b ⊢
      rw [hmi] at hmi2b
      obtain rfl := Option.some.inj hmi2b
      exact ⟨_, updMap_self .., hp2⟩
    · exact ⟨info2, by rw [updMap_ne _ _ _ _ hk]; exact hmi2b, hp2⟩
  · intro a k hmap
    obtain ⟨info2, hmi2b, hna⟩ := hs.hAddr1 a k hmap
    by_cases hk : k = nId
    · subst hk
      rw [hmi] at hmi2b
      obtain rfl := Option.some.inj hmi2b
      exact ⟨_, updMap_self .., hna⟩
    · exact ⟨info2, by rw [updMap_ne _ _ _ _ hk]; exact hmi2b, hna⟩
  · intro k info2 hinfo
    by_cases hk : k = nId
    · subst hk
      rw [updMap_self] at hinfo
      obtain rfl := Option.some.inj hinfo
      exact hs.hAddr2 k pinfo hmi
    · rw [updMap_ne _ _ _ _ hk] at hinfo
      exact hs.hAddr2 k info2 hinfo


-- `MakeTried` preserves the store invariant whenever the promoted record
-- exists outside the tried table with a positive last-success time.
theorem makeTried_inv {s : AddrMan} {nId : Nat} {info : CAddrInfo}
    (hs : StoreInv s) (hmi : s.mapInfo nId = some info) (hfl : info.fInTried = false)
    (hls : 0 < info.nLastSuccess) : StoreInv (MakeTried s nId) := by
  obtain ⟨hI, r11, r1, r2, r3, r4, r5, r6, r7, r10, r12⟩ := removeFromAllNew_invC hs hmi hfl
  unfold MakeTried
  dsimp only
  clear r1 r2 r3 r4 r5 r6 r7 r10 r12
  revert hI r11
  generalize removeFromAllNew s nId = R
  intro hI r11
  rw [r11]
  dsimp only
  have hs2 : InvC { R with nNew := R.nNew - 1 } (0 - 1) (fun k => k = nId) := invC_sub_nNew hI
  obtain ⟨info2b, hmi2b, hfl2, hrc2, hnosl2⟩ := hs2.hX nId rfl
  have hmi2R : R.mapInfo nId = some info2b := hmi2b
  rw [r11] at hmi2R
  obtain rfl := Option.some.inj hmi2R
  set KB := info.toCService.GetTriedBucket R.nKey with hKBd
  set KP := info.toCService.GetBucketPosition R.nKey false KB with hKPd
  rcases hevict : R.vvTried KB KP with _ | nIdEvict
  · dsimp only
    rw [r11]
    dsimp only
    exact promoteTried_invC hs2 hmi2b
      (show (0 : Int) < ({ info with nRefCount := (0 : Int) } : CAddrInfo).nLastSuccess from hls)
      rfl rfl hevict
  · dsimp only
    rcases hmiEv : R.mapInfo nIdEvict with _ | infoOld
    · exfalso
      obtain ⟨infoX, hmiX, _, _, _⟩ := hs2.hSlotTried KB KP nIdEvict hevict
      have hmiX2 : R.mapInfo nIdEvict = some infoX := hmiX
      rw [hmiEv] at hmiX2
      cases hmiX2
    · dsimp only
      obtain ⟨infoOldX, hmiOX, htrE, hbE, hpE⟩ := hs2.hSlotTried KB KP nIdEvict hevict
      have hmiOX2 : R.mapInfo nIdEvict = some infoOldX := hmiOX
      rw [hmiEv] at hmiOX2
      obtain rfl := Option.some.inj hmiOX2
      have hne : nId ≠ nIdEvict := by
        rintro rfl
        rw [r11] at hmiEv
        obtain rfl := Option.some.inj hmiEv
        rw [show ({ info with nRefCount := (0 : Int) } : CAddrInfo).fInTried = info.fInTried
          from rfl, hfl] at htrE
        cases htrE
      set B2 := infoOld.toCService.GetNewBucket R.nKey infoOld.source with hB2d
      set P2 := infoOld.toCService.GetBucketPosition R.nKey true B2 with hP2d
      set T1 := { R with
        mapInfo := updMap R.mapInfo nIdEvict (some { infoOld with fInTried := false })
        vvTried := updTable R.vvTried KB KP none
        nTried := R.nTried - 1
        nNew := R.nNew - 1 } with hT1d
      set T2 := ClearNew T1 B2 P2 with hT2d
      have hT1inv : InvC T1 ((0 - 1) - 1) (fun k => (k = nId) ∨ k = nIdEvict) :=
        evictUnhook_invC hs2 hevict hmiOX
      have hT2inv := clearNew_invC hT1inv B2 P2
      have hT2key : T2.nKey = R.nKey := clearNew_nKey T1 B2 P2
      have hnoslE : ∀ b p, T1.vvNew b p ≠ some nIdEvict := by
        intro b p h
        have h2 : R.vvNew b p = some nIdEvict := h
        obtain ⟨_, infoY, hmiY, hfY, _⟩ := hs2.hSlotNew b p nIdEvict h2
        have hmiY2 : R.mapInfo nIdEvict = some infoY := hmiY
        rw [hmiEv] at hmiY2
        obtain rfl := Option.some.inj hmiY2
        rw [htrE] at hfY
        cases hfY
      rcases hmiE2 : T2.mapInfo nIdEvict with _ | infoOld2
      · exfalso
        have hstr := clearNew_strip T1 B2 P2 nIdEvict (hnoslE B2 P2)
        rw [hmiE2] at hstr
        rw [show T1.mapInfo nIdEvict = some { infoOld with fInTried := false }
          from updMap_self ..] at hstr
        cases hstr
      · dsimp only
        have hstrE : stripPos infoOld2 = stripPos { infoOld with fInTried := false } := by
          have h := clearNew_strip T1 B2 P2 nIdEvict (hnoslE B2 P2)
          rw [hmiE2] at h
          rw [show T1.mapInfo nIdEvict = some { infoOld with fInTried := false }
            from updMap_self ..] at h
          simpa using h
        obtain ⟨hsvcE, hflE, hrcE, hlsE, _⟩ := stripPos_fields hstrE
        have hB2lt : B2 < ADDRMAN_NEW_BUCKET_COUNT := by
          rw [hB2d]
          exact Nat.mod_lt _ (by decide)
        have hP2eq : P2 = newPosn T2.nKey infoOld2 B2 := by
          rw [show newPosn T2.nKey infoOld2 B2 = newPosn R.nKey infoOld2 B2 from by rw [hT2key]]
          rw [newPosn_congr hsvcE]
          exact hP2d
        have hplace := placeExempt_invC hT2inv (Or.inr rfl) hmiE2 hB2lt hP2eq
          (clearNew_slot_none hT1inv B2 P2)
        have hbump := invC_bump_nNew hplace
        have hS3 : InvC { T2 with
            mapInfo := updMap T2.mapInfo nIdEvict (some { infoOld2 with nRefCount := 1 })
            vvNew := updTable T2.vvNew B2 P2 (some nIdEvict)
            nNew := T2.nNew + 1 } ((0 - 1) - 1 + 1) (fun k => k = nId) := by
          refine invC_congr_X hbump (fun k => ?_)
          constructor
          · rintro rfl
            exact ⟨Or.inl rfl, hne⟩
          · rintro ⟨h | h, hnk⟩
            · exact h
            · exact absurd h hnk
        have hT1mi : T1.mapInfo nId = some ({ info with nRefCount := 0 } : CAddrInfo) := by
          show updMap R.mapInfo nIdEvict (some { infoOld with fInTried := false }) nId
            = some { info with nRefCount := 0 }
          rw [updMap_ne _ _ _ _ hne]
          exact r11
        have hstr2 := clearNew_strip T1 B2 P2 nId (hnosl2 B2 P2)
        rw [hT1mi] at hstr2
        rcases hmi4 : T2.mapInfo nId with _ | info3
        · exfalso
          rw [hmi4] at hstr2
          cases hstr2
        · have hsp3 : stripPos info3 = stripPos ({ info with nRefCount := 0 } : CAddrInfo) := by
            rw [hmi4] at hstr2
            simpa using hstr2
          obtain ⟨hsvc3, hfl3, hrc3, hls3e, _⟩ := stripPos_fields hsp3
          rw [show updMap T2.mapInfo nIdEvict (some { infoOld2 with nRefCount := 1 }) nId
            = T2.mapInfo nId from updMap_ne _ _ _ _ hne, hmi4]
          dsimp only
          have hmiS3 : ({ T2 with
              mapInfo := updMap T2.mapInfo nIdEvict (some { infoOld2 with nRefCount := 1 })
              vvNew := updTable T2.vvNew B2 P2 (some nIdEvict)
              nNew := T2.nNew + 1 } : AddrMan).mapInfo nId = some info3 := by
            show updMap T2.mapInfo nIdEvict (some { infoOld2 with nRefCount := 1 }) nId
              = some info3
            rw [updMap_ne _ _ _ _ hne]
            exact hmi4
          have hls3 : 0 < info3.nLastSuccess := by
            rw [hls3e]
            exact hls
          have hKB3 : KB = triedBkt ({ T2 with
              mapInfo := updMap T2.mapInfo nIdEvict (some { infoOld2 with nRefCount := 1 })
              vvNew := updTable T2.vvNew B2 P2 (some nIdEvict)
              nNew := T2.nNew + 1 } : AddrMan).nKey info3 := by
            show KB = info3.toCService.GetTriedBucket T2.nKey
            rw [hT2key, hsvc3]
          have hKP3 : KP = triedPosn ({ T2 with
              mapInfo := updMap T2.mapInfo nIdEvict (some { infoOld2 with nRefCount := 1 })
              vvNew := updTable T2.vvNew B2 P2 (some nIdEvict)
              nNew := T2.nNew + 1 } : AddrMan).nKey info3 := by
            show KP = info3.toCService.GetBucketPosition T2.nKey false
              (info3.toCService.GetTriedBucket T2.nKey)
            rw [hT2key, hsvc3]
          have hempty3 : ({ T2 with
              mapInfo := updMap T2.mapInfo nIdEvict (some { infoOld2 with nRefCount := 1 })
              vvNew := updTable T2.vvNew B2 P2 (some nIdEvict)
              nNew := T2.nNew + 1 } : AddrMan).vvTried KB KP = none := by
            show T2.vvTried KB KP = none
            rw [show T2.vvTried = T1.vvTried from clearNew_vvTried T1 B2 P2]
            exact updTable_self ..
          exact promoteTried_invC hS3 hmiS3 hls3 hKB3 hKP3 hempty3


-- `Good_` preserves the store invariant provided the supplied time is
-- positive (each tried record must carry a positive last-success time).
theorem good_inv {s : AddrMan} (hs : StoreInv s) (addr : CService) (tbe : Bool)
    {nTime : Int} (hT : 0 < nTime) (nRnd : Nat) : StoreInv (Good_ s addr tbe nTime nRnd) := by
  unfold Good_
  dsimp only
  have hs0 : StoreInv { s with nLastGood := nTime } := invC_set_nLastGood hs nTime
  rcases hfind : Find { s with nLastGood := nTime } addr.toCNetAddr with _ | p
  · exact hs0
  · obtain ⟨nId, info⟩ := p
    dsimp only
    obtain ⟨hma, hmi⟩ := find_some hfind
    by_cases hsvc : info.toCService ≠ addr
    · rw [if_pos hsvc]
      exact hs0
    · rw [if_neg hsvc]
      have hs1 : StoreInv { { s with nLastGood := nTime } with
          mapInfo := updMap ({ s with nLastGood := nTime } : AddrMan).mapInfo nId
            (some { info with nLastSuccess := nTime, nLastTry := nTime, nAttempts := 0 }) } := by
        refine invC_update_record hs0 hmi rfl rfl rfl rfl ?_
        intro _
        exact hT
      split
      · exact hs1
      · rename_i hTr
        split
        · exact hs1
        · split
          · split
            · exact invC_set_collisions hs1 _
            · exact hs1
          · refine makeTried_inv hs1 (updMap_self ..) ?_ hT
            simpa using hTr

-- `Attempt_` preserves the store invariant.
theorem attempt_inv {s : AddrMan} (hs : StoreInv s) (addr : CService) (fCount : Bool)
    (nTime : Int) : StoreInv (Attempt_ s addr fCount nTime) := by
  unfold Attempt_
  rcases hfind : Find s addr.toCNetAddr with _ | p
  · exact hs
  · obtain ⟨nId, info⟩ := p
    dsimp only
    obtain ⟨hma, hmi⟩ := find_some hfind
    by_cases hsvc : info.toCService ≠ addr
    · rw [if_pos hsvc]
      exact hs
    · rw [if_neg hsvc]
      refine invC_update_record hs hmi ?_ ?_ ?_ ?_ ?_
      · split <;> rfl
      · split <;> rfl
      · split <;> rfl
      · split <;> rfl
      · split <;> (intro htr; exact (hs.hTriedRec nId info hmi htr).2.1)

-- `Connected_` preserves the store invariant.
theorem connected_inv {s : AddrMan} (hs : StoreInv s) (addr : CService)
    (nTime : Int) : StoreInv (Connected_ s addr nTime) := by
  unfold Connected_
  rcases hfind : Find s addr.toCNetAddr with _ | p
  · exact hs
  · obtain ⟨nId, info⟩ := p
    dsimp only
    obtain ⟨hma, hmi⟩ := find_some hfind
    by_cases hsvc : info.toCService ≠ addr
    · rw [if_pos hsvc]
      exact hs
    · rw [if_neg hsvc]
      split
      · exact invC_update_record hs hmi rfl rfl rfl rfl
          (fun htr => (hs.hTriedRec nId info hmi htr).2.1)
      · exact hs

-- `SetServices_` preserves the store invariant.
theorem setServices_inv {s : AddrMan} (hs : StoreInv s) (addr : CService)
    (sv : Nat) : StoreInv (SetServices_ s addr sv) := by
  unfold SetServices_
  rcases hfind : Find s addr.toCNetAddr with _ | p
  · exact hs
  · obtain ⟨nId, info⟩ := p
    dsimp only
    obtain ⟨hma, hmi⟩ := find_some hfind
    by_cases hsvc : info.toCService ≠ addr
    · rw [if_pos hsvc]
      exact hs
    · rw [if_neg hsvc]
      exact invC_update_record hs hmi rfl rfl rfl rfl
        (fun htr => (hs.hTriedRec nId info hmi htr).2.1)

-- The shuffle-and-collect loop of `GetAddr_` keeps the invariant: its only
-- state writes are `SwapRandom` calls at in-range positions.
theorem getAddrStep_inv (nNodes sz : Nat) (nNow : Int) (draws : Nat → Nat) :
    ∀ l : List Nat, (∀ x ∈ l, x < sz) → ∀ acc : List CAddress × AddrMan,
    StoreInv acc.2 → acc.2.vRandom.length = sz →
    StoreInv ((l.foldl (fun (acc : List CAddress × AddrMan) n =>
      if nNodes ≤ acc.1.length then acc
      else
        let t := acc.2
        let nRndPos := draws n % (t.vRandom.length - n) + n
        let t1 := SwapRandom t n nRndPos
        match t1.mapInfo (t1.vRandom.getD n 0) with
        | none => (acc.1, t1)
        | some ai =>
          if ai.IsTerrible nNow = false then (acc.1 ++ [ai.toCAddress], t1)
          else (acc.1, t1)) acc).2) ∧
    ((l.foldl (fun (acc : List CAddress × AddrMan) n =>
      if nNodes ≤ acc.1.length then acc
      else
        let t := acc.2
        let nRndPos := draws n % (t.vRandom.length - n) + n
        let t1 := SwapRandom t n nRndPos
        match t1.mapInfo (t1.vRandom.getD n 0) with
        | none => (acc.1, t1)
        | some ai =>
          if ai.IsTerrible nNow = false then (acc.1 ++ [ai.toCAddress], t1)
          else (acc.1, t1)) acc).2).vRandom.length = sz := by
  intro l
  induction l with
  | nil =>
    intro _ acc hacc hlen
    exact ⟨hacc, hlen⟩
  | cons x xs ih =>
    intro hl acc hacc hlen
    rw [List.foldl_cons]
    have hstep : StoreInv ((if nNodes ≤ acc.1.length then acc
      else
        let t := acc.2
        let nRndPos := draws x % (t.vRandom.length - x) + x
        let t1 := SwapRandom t x nRndPos
        match t1.mapInfo (t1.vRandom.getD x 0) with
        | none => (acc.1, t1)
        | some ai =>
          if ai.IsTerrible nNow = false then (acc.1 ++ [ai.toCAddress], t1)
          else (acc.1, t1)).2) ∧
        ((if nNodes ≤ acc.1.length then acc
      else
        let t := acc.2
        let nRndPos := draws x % (t.vRandom.length - x) + x
        let t1 := SwapRandom t x nRndPos
        match t1.mapInfo (t1.vRandom.getD x 0) with
        | none => (acc.1, t1)
        | some ai =>
          if ai.IsTerrible nNow = false then (acc.1 ++ [ai.toCAddress], t1)
          else (acc.1, t1)).2).vRandom.length = sz := by
      by_cases hb : nNodes ≤ acc.1.length
      · rw [if_pos hb]
        exact ⟨hacc, hlen⟩
      · rw [if_neg hb]
        dsimp only
        have hx : x < sz := hl x (List.mem_cons_self x xs)
        have hi : x < acc.2.vRandom.length := by
          rw [hlen]
          exact hx
        have hj : draws x % (acc.2.vRandom.length - x) + x < acc.2.vRandom.length := by
          rw [hlen]
          have hm : draws x % (sz - x) < sz - x := Nat.mod_lt _ (by omega)
          omega
        have hsw := swapRandom_invC hacc hi hj
        have hswlen : (SwapRandom acc.2 x (draws x % (acc.2.vRandom.length - x) + x)).vRandom.length
            = sz := by
          rw [swapRandom_length]
          exact hlen
        split
        · exact ⟨hsw, hswlen⟩
        · split
          · exact ⟨hsw, hswlen⟩
          · exact ⟨hsw, hswlen⟩
    exact ih (fun y hy => hl y (List.mem_cons_of_mem _ hy)) _ hstep.1 hstep.2

-- `GetAddr_` preserves the store invariant.
theorem getAddr_inv {s : AddrMan} (hs : StoreInv s) (ma mp : Nat) (nNow : Int)
    (draws : Nat → Nat) : StoreInv (GetAddr_ s ma mp nNow draws).2 := by
  unfold GetAddr_
  dsimp only
  exact (getAddrStep_inv _ s.vRandom.length nNow draws (List.range s.vRandom.length)
    (fun x hx => List.mem_range.mp hx) ([], s) hs rfl).1

-- One collision-resolution step preserves the store invariant when the
-- wall-clock time is positive (it may call `Good_`).
theorem resolveCollisionStep_inv {s : AddrMan} (hs : StoreInv s) {nNow : Int}
    (hpos : 0 < nNow) (nRnd : Nat) (id_new : Nat) :
    StoreInv (resolveCollisionStep s nNow nRnd id_new) := by
  unfold resolveCollisionStep
  rcases hmi : s.mapInfo id_new with _ | info_new
  · exact invC_set_collisions hs _
  · dsimp only
    split
    · exact invC_set_collisions hs _
    · rcases hsl : s.vvTried (info_new.toCService.GetTriedBucket s.nKey)
          (info_new.toCService.GetBucketPosition s.nKey false
            (info_new.toCService.GetTriedBucket s.nKey)) with _ | id_old
      · dsimp only
        exact invC_set_collisions (good_inv hs _ _ hpos _) _
      · dsimp only
        rcases hmiO : s.mapInfo id_old with _ | info_old
        · exact hs
        · dsimp only
          split
          · exact invC_set_collisions hs _
          · split
            · split
              · exact invC_set_collisions (good_inv hs _ _ hpos _) _
              · exact hs
            · split
              · exact invC_set_collisions (good_inv hs _ _ hpos _) _
              · exact hs

-- `ResolveCollisions_` preserves the store invariant for positive times.
theorem resolveCollisions_inv {s : AddrMan} (hs : StoreInv s) {nNow : Int}
    (hpos : 0 < nNow) (rnds : Nat → Nat) : StoreInv (ResolveCollisions_ s nNow rnds) := by
  unfold ResolveCollisions_
  have key : ∀ (l : List (Nat × Nat)) (t : AddrMan), StoreInv t →
      StoreInv (l.foldl (fun t p => resolveCollisionStep t nNow (rnds p.1) p.2) t) := by
    intro l
    induction l with
    | nil =>
      intro t h
      exact h
    | cons x xs ih =>
      intro t h
      rw [List.foldl_cons]
      exact ih _ (resolveCollisionStep_inv h hpos _ _)
  exact key _ s hs

-- `SelectTriedCollision_` preserves the store invariant.
theorem selectTriedCollision_inv {s : AddrMan} (hs : StoreInv s) (draw : Nat) :
    StoreInv (SelectTriedCollision_ s draw) := by
  unfold SelectTriedCollision_
  split
  · exact hs
  · dsimp only
    split
    · exact invC_set_collisions hs _
    · exact hs

-- Every operation of the external interface (with positive `good` times)
-- preserves the store invariant.
theorem step_inv {s t : AddrMan} (hs : StoreInv s) (h : Step s t) : StoreInv t := by
  cases h with
  | add addr source pen nNow draw => exact add_inv hs addr source pen nNow draw
  | good addr tbe nTime hpos nRnd => exact good_inv hs addr tbe hpos nRnd
  | attempt addr fCount nTime => exact attempt_inv hs addr fCount nTime
  | connected addr nTime => exact connected_inv hs addr nTime
  | set_services addr sv => exact setServices_inv hs addr sv
  | select => exact hs
  | get_addr ma mp nNow draws => exact getAddr_inv hs ma mp nNow draws
  | resolve_collisions nNow hpos rnds => exact resolveCollisions_inv hs hpos rnds
  | select_tried_collision draw => exact selectTriedCollision_inv hs draw

-- Every state reachable by the external interface satisfies the store
-- invariant.
theorem reachable_inv {s : AddrMan} (h : Reachable s) : StoreInv s := by
  obtain ⟨key, hr⟩ := h
  induction hr with
  | refl => exact inv_clear key
  | tail _ hstep ih => exact step_inv ih hstep

-- The store invariant implies the specification's claimed invariants.
theorem storeInv_claimed {s : AddrMan} (hs : StoreInv s) : ClaimedInvariants s := by
  refine ⟨?_, ?_, ?_⟩
  · have h1 := hs.hNew
    have h2 := hs.hTried
    have h3 := hs.hLen
    push_cast
    omega
  · intro id info hmi htr
    obtain ⟨hrc, hls, hslot⟩ := hs.hTriedRec id info hmi htr
    refine ⟨hrc, hls, ⟨_, _, hslot⟩, ?_⟩
    intro b p b2 p2 hbp hbp2
    obtain ⟨infoA, hmiA, _, hbA, hpA⟩ := hs.hSlotTried b p id hbp
    obtain ⟨infoB, hmiB, _, hbB, hpB⟩ := hs.hSlotTried b2 p2 id hbp2
    rw [hmi] at hmiA hmiB
    obtain rfl := Option.some.inj hmiA
    obtain rfl := Option.some.inj hmiB
    exact ⟨hbA.trans hbB.symm, hpA.trans hpB.symm⟩
  · intro id info hmi hfl
    obtain ⟨hpos, hcard⟩ := hs.hNewRec id info (fun f => f) hmi hfl
    refine ⟨hpos, ?_, ?_⟩
    · have himg : ((Finset.range ADDRMAN_NEW_BUCKET_COUNT) ×ˢ
          (Finset.range ADDRMAN_BUCKET_SIZE)).filter
          (fun bp => s.vvNew bp.1 bp.2 = some id)
          = (newRefs s id info).image (fun b => (b, newPosn s.nKey info b)) := by
        ext bp
        obtain ⟨b, p⟩ := bp
        rw [Finset.mem_filter, Finset.mem_product, Finset.mem_image]
        constructor
        · rintro ⟨⟨hb, hp⟩, hslot⟩
          obtain ⟨hblt, infoA, hmiA, _, hpA⟩ := hs.hSlotNew b p id hslot
          rw [hmi] at hmiA
          obtain rfl := Option.some.inj hmiA
          refine ⟨b, ?_, ?_⟩
          · unfold newRefs
            rw [Finset.mem_filter]
            exact ⟨hb, by rw [← hpA]; exact hslot⟩
          · rw [hpA]
        · rintro ⟨b2, hb2, he⟩
          obtain ⟨he1, he2⟩ := Prod.mk.injEq .. ▸ he
          subst he1
          subst he2
          unfold newRefs at hb2
          rw [Finset.mem_filter] at hb2
          refine ⟨⟨hb2.1, ?_⟩, hb2.2⟩
          rw [Finset.mem_range]
          unfold newPosn CService.GetBucketPosition
          exact Nat.mod_lt _ (by decide)
      rw [himg, Finset.card_image_of_injective _ (fun a b h => congrArg Prod.fst h)]
      exact hcard
    · intro b p hslot
      obtain ⟨hblt, infoA, hmiA, _, hpA⟩ := hs.hSlotNew b p id hslot
      rw [hmi] at hmiA
      obtain rfl := Option.some.inj hmiA
      exact hpA

def sAdd : AddrMan := (Add_ (AddrMan.clear 0) addrA srcN 0 100000 0).2

def cexC1 : AddrMan := Good_ sAdd svcA false 0 0

def cexRec : CAddrInfo :=
  { infoA with nLastSuccess := 0, nLastTry := 0, nAttempts := 0, nRefCount := 0, fInTried := true }

set_option maxRecDepth 40000 in
theorem cexC1_record : cexC1.mapInfo 0 = some cexRec := by
  have hS1 : StoreInv sAdd := add_inv (inv_clear 0) addrA srcN 0 100000 0
  have hS0 : StoreInv { sAdd with nLastGood := 0 } := invC_set_nLastGood hS1 0
  have hmi0 : ({ sAdd with nLastGood := 0 } : AddrMan).mapInfo 0 = some infoA := by decide
  have hS1P : StoreInv { sAdd with
      nLastGood := 0
      mapInfo := updMap sAdd.mapInfo 0
        (some { infoA with nLastSuccess := 0, nLastTry := 0, nAttempts := 0 }) } :=
    invC_update_record hS0 hmi0 rfl rfl rfl rfl (fun htr => absurd htr (by decide))
  have hmi1 : ({ sAdd with
      nLastGood := 0
      mapInfo := updMap sAdd.mapInfo 0
        (some { infoA with nLastSuccess := 0, nLastTry := 0, nAttempts := 0 }) } : AddrMan).mapInfo 0
      = some { infoA with nLastSuccess := 0, nLastTry := 0, nAttempts := 0 } := by
    show updMap sAdd.mapInfo 0
      (some { infoA with nLastSuccess := 0, nLastTry := 0, nAttempts := 0 }) 0
      = some { infoA with nLastSuccess := 0, nLastTry := 0, nAttempts := 0 }
    exact updMap_self ..
  obtain ⟨hI, r11, r1, r2, r3, r4, r5, r6, r7, r10, r12⟩ :=
    removeFromAllNew_invC hS1P hmi1 rfl
  clear r1 r2 r3 r6 r7 r10 r12
  unfold cexC1 Good_
  dsimp only
  rw [show Find { sAdd with nLastGood := 0 } svcA.toCNetAddr = some (0, infoA) from by decide]
  dsimp only
  rw [if_neg (show ¬ (infoA.toCService ≠ svcA) from by decide)]
  rw [if_neg (show ¬ (infoA.fInTried = true) from by decide)]
  split
  · rename_i hfnone
    exact absurd hfnone (by decide)
  · rename_i fb hfound
    split
    · rename_i htbe
      exact absurd htbe.1 (by decide)
    · unfold MakeTried
      dsimp only
      revert hI r11 r4 r5
      generalize removeFromAllNew { sAdd with
        nLastGood := 0
        mapInfo := updMap sAdd.mapInfo 0
          (some { infoA with nLastSuccess := 0, nLastTry := 0, nAttempts := 0 }) } 0 = R
      intro hI r11 r4 r5
      rw [r11]
      dsimp only
      rw [r4, r5]
      dsimp only
      rw [show ({ sAdd with
          nLastGood := 0
          mapInfo := updMap sAdd.mapInfo 0
            (some { infoA with nLastSuccess := 0, nLastTry := 0, nAttempts := 0 }) }
          : AddrMan).vvTried
          (infoA.toCService.GetTriedBucket ({ sAdd with
            nLastGood := 0
            mapInfo := updMap sAdd.mapInfo 0
              (some { infoA with nLastSuccess := 0, nLastTry := 0, nAttempts := 0 }) }
            : AddrMan).nKey)
          (infoA.toCService.GetBucketPosition ({ sAdd with
            nLastGood := 0
            mapInfo := updMap sAdd.mapInfo 0
              (some { infoA with nLastSuccess := 0, nLastTry := 0, nAttempts := 0 }) }
            : AddrMan).nKey false
            (infoA.toCService.GetTriedBucket ({ sAdd with
              nLastGood := 0
              mapInfo := updMap sAdd.mapInfo 0
                (some { infoA with nLastSuccess := 0, nLastTry := 0, nAttempts := 0 }) }
              : AddrMan).nKey)) = none from by decide]
      dsimp only
      rw [r11]
      dsimp only
      rw [updMap_self]
      rfl

/-- C1 (counterexample): the claim constrains none of the operations'
arguments, but a `good` call handed wall-clock time 0 creates a tried
record whose last-success is 0, breaking the claimed invariant that every
in-tried record has positive last-success. -/
theorem claimed_invariants_cex : ReachableAny cexC1 ∧ ¬ ClaimedInvariants cexC1 := by
  constructor
  · exact ⟨0, (Relation.ReflTransGen.refl.tail
      (StepAny.add (AddrMan.clear 0) addrA srcN 0 100000 0)).tail
      (StepAny.good sAdd svcA false 0 0)⟩
  · intro h
    exact absurd ((h.2.1 0 cexRec cexC1_record rfl).2.1) (by decide)

/-- C1 (amended): for every store state reachable from the empty store by
external operations in which each wall-clock time handed to `good` or
`resolve_collisions` is positive (as `GetAdjustedTime` always is), the
claimed table invariants hold at the operation boundary. -/
theorem reachable_invariants {s : AddrMan} (h : Reachable s) : ClaimedInvariants s :=
  storeInv_claimed (reachable_inv h)

theorem reachable_invariants_witness :
    Reachable (AddrMan.clear 7) ∧ ClaimedInvariants (AddrMan.clear 7) :=
  ⟨⟨7, Relation.ReflTransGen.refl⟩, reachable_invariants ⟨7, Relation.ReflTransGen.refl⟩⟩

/-- C10: in every reachable state (positive `good`/`resolve_collisions`
times) holding a record that is not in the tried table, the assertions
inside `MakeTried` cannot fail: after removing the record's id from the
hashed position of every new bucket its refcount is exactly 0, and in the
eviction path, once the occupant is unhooked from its tried slot,
`ClearNew` leaves the slot it is applied to (in particular the occupant's
own computed new-bucket slot) empty, so the occupant can be reinserted
there. -/
theorem makeTried_asserts {s : AddrMan} (hs : Reachable s) {nId : Nat} {info : CAddrInfo}
    (hmi : s.mapInfo nId = some info) (hfl : info.fInTried = false) :
    (removeFromAllNew s nId).mapInfo nId = some { info with nRefCount := 0 } ∧
    (∀ (KB KP nIdEvict : Nat) (infoOld : CAddrInfo),
      (removeFromAllNew s nId).vvTried KB KP = some nIdEvict →
      (removeFromAllNew s nId).mapInfo nIdEvict = some infoOld →
      ∀ UB UP : Nat,
        (ClearNew { removeFromAllNew s nId with
            mapInfo := updMap (removeFromAllNew s nId).mapInfo nIdEvict
              (some { infoOld with fInTried := false })
            vvTried := updTable (removeFromAllNew s nId).vvTried KB KP none
            nTried := (removeFromAllNew s nId).nTried - 1
            nNew := (removeFromAllNew s nId).nNew - 1 } UB UP).vvNew UB UP = none) := by
  have hsI := reachable_inv hs
  obtain ⟨hI, r11, -, -, -, -, -, -, -, -, -⟩ := removeFromAllNew_invC hsI hmi hfl
  refine ⟨r11, ?_⟩
  clear r11
  revert hI
  generalize removeFromAllNew s nId = R
  intro hI
  intro KB KP nIdEvict infoOld hsl hmiE UB UP
  have hI2 : InvC { R with nNew := R.nNew - 1 } (0 - 1) (fun k => k = nId) :=
    invC_sub_nNew hI
  have hT1 := evictUnhook_invC hI2 hsl hmiE
  exact clearNew_slot_none hT1 UB UP

set_option maxRecDepth 40000 in
theorem makeTried_asserts_witness :
    Reachable sAdd ∧ sAdd.mapInfo 0 = some infoA ∧ infoA.fInTried = false ∧
    (removeFromAllNew sAdd 0).mapInfo 0 = some { infoA with nRefCount := 0 } := by
  have hreach : Reachable sAdd :=
    ⟨0, Relation.ReflTransGen.refl.tail (Step.add (AddrMan.clear 0) addrA srcN 0 100000 0)⟩
  have hmi : sAdd.mapInfo 0 = some infoA := by decide
  have hfl : infoA.fInTried = false := by decide
  exact ⟨hreach, hmi, hfl, (makeTried_asserts hreach hmi hfl).1⟩

theorem delete_nTried (s : AddrMan) (nId : Nat) : (Delete s nId).nTried = s.nTried := by
  unfold Delete
  split
  · rfl
  · dsimp only
    rw [(swapRandom_misc ..).2.2.1]

theorem clearNew_nTried (s : AddrMan) (b p : Nat) : (ClearNew s b p).nTried = s.nTried := by
  unfold ClearNew
  rcases hslot : s.vvNew b p with _ | nIdD
  · rfl
  · dsimp only
    rcases hmiD : s.mapInfo nIdD with _ | infoD
    · rfl
    · dsimp only
      split
      · rw [delete_nTried]
      · rfl

/-- C4: `MakeTried` on a record not yet in the tried table: when the target
tried slot (the keyed bucket and position computed from the record) is
occupied, the occupant's in-tried flag is cleared and it is reinserted into
the new table at its own computed new-bucket slot with refcount 1, the
candidate ends in the target tried slot with in-tried set and refcount 0,
and the tried count is unchanged; when the target slot is empty the tried
count grows by one. -/
theorem makeTried_evicts {s : AddrMan} (hs : StoreInv s) {nId : Nat} {info : CAddrInfo}
    (hmi : s.mapInfo nId = some info) (hfl : info.fInTried = false) :
    (∀ nIdEvict : Nat,
      s.vvTried (info.toCService.GetTriedBucket s.nKey)
        (info.toCService.GetBucketPosition s.nKey false
          (info.toCService.GetTriedBucket s.nKey)) = some nIdEvict →
      ∃ infoOld infoE : CAddrInfo,
        s.mapInfo nIdEvict = some infoOld ∧
        (MakeTried s nId).mapInfo nIdEvict = some infoE ∧
        infoE.fInTried = false ∧ infoE.nRefCount = 1 ∧
        infoE.toCService = infoOld.toCService ∧
        (MakeTried s nId).vvNew
          (infoOld.toCService.GetNewBucket s.nKey infoOld.source)
          (infoOld.toCService.GetBucketPosition s.nKey true
            (infoOld.toCService.GetNewBucket s.nKey infoOld.source)) = some nIdEvict ∧
        (MakeTried s nId).vvTried (info.toCService.GetTriedBucket s.nKey)
          (info.toCService.GetBucketPosition s.nKey false
            (info.toCService.GetTriedBucket s.nKey)) = some nId ∧
        (∃ infoN : CAddrInfo, (MakeTried s nId).mapInfo nId = some infoN ∧
          infoN.fInTried = true ∧ infoN.nRefCount = 0) ∧
        (MakeTried s nId).nTried = s.nTried) ∧
    (s.vvTried (info.toCService.GetTriedBucket s.nKey)
        (info.toCService.GetBucketPosition s.nKey false
          (info.toCService.GetTriedBucket s.nKey)) = none →
      (MakeTried s nId).nTried = s.nTried + 1) := by
  obtain ⟨hI, r11, r1, r2, r3, r4, r5, r6, r7, r10, r12⟩ := removeFromAllNew_invC hs hmi hfl
  unfold MakeTried
  dsimp only
  clear r1 r2 r6 r7 r12
  revert hI r11 r3 r4 r5 r10
  generalize removeFromAllNew s nId = R
  intro hI r11 r3 r4 r5 r10
  rw [r11]
  dsimp only
  have hs2 : InvC { R with nNew := R.nNew - 1 } (0 - 1) (fun k => k = nId) := invC_sub_nNew hI
  obtain ⟨info2b, hmi2b, hfl2, hrc2, hnosl2⟩ := hs2.hX nId rfl
  have hmi2R : R.mapInfo nId = some info2b := hmi2b
  rw [r11] at hmi2R
  obtain rfl := Option.some.inj hmi2R
  set KB := info.toCService.GetTriedBucket R.nKey with hKBd
  set KP := info.toCService.GetBucketPosition R.nKey false KB with hKPd
  constructor
  · intro nIdEvict hocc
    have hoccR : R.vvTried KB KP = some nIdEvict := by
      rw [hKBd, hKPd, hKBd, r4, r5]
      exact hocc
    rw [hoccR]
    dsimp only
    obtain ⟨infoOldX, hmiOX, htrE, hbE, hpE⟩ := hs2.hSlotTried KB KP nIdEvict hoccR
    rcases hmiEv : R.mapInfo nIdEvict with _ | infoOld
    · exfalso
      have hmiX2 : R.mapInfo nIdEvict = some infoOldX := hmiOX
      rw [hmiEv] at hmiX2
      cases hmiX2
    · dsimp only
      have hmiOX2 : R.mapInfo nIdEvict = some infoOldX := hmiOX
      rw [hmiEv] at hmiOX2
      obtain rfl := Option.some.inj hmiOX2
      have hne : nId ≠ nIdEvict := by
        rintro rfl
        rw [r11] at hmiEv
        obtain rfl := Option.some.inj hmiEv
        rw [show ({ info with nRefCount := (0 : Int) } : CAddrInfo).fInTried = info.fInTried
          from rfl, hfl] at htrE
        cases htrE
      set B2 := infoOld.toCService.GetNewBucket R.nKey infoOld.source with hB2d
      set P2 := infoOld.toCService.GetBucketPosition R.nKey true B2 with hP2d
      set T1 := { R with
        mapInfo := updMap R.mapInfo nIdEvict (some { infoOld with fInTried := false })
        vvTried := updTable R.vvTried KB KP none
        nTried := R.nTried - 1
        nNew := R.nNew - 1 } with hT1d
      set T2 := ClearNew T1 B2 P2 with hT2d
      have hT1inv : InvC T1 ((0 - 1) - 1) (fun k => (k = nId) ∨ k = nIdEvict) :=
        evictUnhook_invC hs2 hoccR hmiEv
      have hnoslE : ∀ b p, T1.vvNew b p ≠ some nIdEvict := by
        intro b p h
        have h2 : R.vvNew b p = some nIdEvict := h
        obtain ⟨_, infoY, hmiY, hfY, _⟩ := hs2.hSlotNew b p nIdEvict h2
        have hmiY2 : R.mapInfo nIdEvict = some infoY := hmiY
        rw [hmiEv] at hmiY2
        obtain rfl := Option.some.inj hmiY2
        rw [htrE] at hfY
        cases hfY
      rcases hmiE2 : T2.mapInfo nIdEvict with _ | infoOld2
      · exfalso
        have hstr := clearNew_strip T1 B2 P2 nIdEvict (hnoslE B2 P2)
        rw [hmiE2] at hstr
        rw [show T1.mapInfo nIdEvict = some { infoOld with fInTried := false }
          from updMap_self ..] at hstr
        cases hstr
      · dsimp only
        have hstrE : stripPos infoOld2 = stripPos { infoOld with fInTried := false } := by
          have h := clearNew_strip T1 B2 P2 nIdEvict (hnoslE B2 P2)
          rw [hmiE2] at h
          rw [show T1.mapInfo nIdEvict = some { infoOld with fInTried := false }
            from updMap_self ..] at h
          simpa using h
        obtain ⟨hsvcE, hflE, hrcE, hlsE, _⟩ := stripPos_fields hstrE
        have hT1mi : T1.mapInfo nId = some ({ info with nRefCount := 0 } : CAddrInfo) := by
          show updMap R.mapInfo nIdEvict (some { infoOld with fInTried := false }) nId
            = some { info with nRefCount := 0 }
          rw [updMap_ne _ _ _ _ hne]
          exact r11
        have hstr2 := clearNew_strip T1 B2 P2 nId (hnosl2 B2 P2)
        rw [hT1mi] at hstr2
        rcases hmi4 : T2.mapInfo nId with _ | info3
        · exfalso
          rw [hmi4] at hstr2
          cases hstr2
        · have hsp3 : stripPos info3 = stripPos ({ info with nRefCount := 0 } : CAddrInfo) := by
            rw [hmi4] at hstr2
            simpa using hstr2
          obtain ⟨hsvc3, hfl3, hrc3, hls3e, _⟩ := stripPos_fields hsp3
          rw [show updMap T2.mapInfo nIdEvict (some { infoOld2 with nRefCount := 1 }) nId
            = T2.mapInfo nId from updMap_ne _ _ _ _ hne, hmi4]
          dsimp only
          refine ⟨infoOld, { infoOld2 with nRefCount := 1 }, ?_, ?_, ?_, ?_, ?_, ?_, ?_, ?_, ?_⟩
          · rw [← r10 nIdEvict (Ne.symm hne)]
            exact hmiEv
          · show updMap (updMap T2.mapInfo nIdEvict (some { infoOld2 with nRefCount := 1 })) nId
              (some { info3 with fInTried := true }) nIdEvict
              = some { infoOld2 with nRefCount := 1 }
            rw [updMap_ne _ _ _ _ (Ne.symm hne)]
            exact updMap_self ..
          · show infoOld2.fInTried = false
            rw [hflE]
          · rfl
          · exact hsvcE
          · show updTable T2.vvNew B2 P2 (some nIdEvict)
              (infoOld.toCService.GetNewBucket s.nKey infoOld.source)
              (infoOld.toCService.GetBucketPosition s.nKey true
                (infoOld.toCService.GetNewBucket s.nKey infoOld.source)) = some nIdEvict
            rw [← r4, ← hB2d, ← hP2d]
            exact updTable_self ..
          · show updTable T2.vvTried KB KP (some nId)
              (info.toCService.GetTriedBucket s.nKey)
              (info.toCService.GetBucketPosition s.nKey false
                (info.toCService.GetTriedBucket s.nKey)) = some nId
            rw [← r4, ← hKBd, ← hKPd]
            exact updTable_self ..
          · refine ⟨{ info3 with fInTried := true }, ?_, rfl, ?_⟩
            · exact updMap_self ..
            · show info3.nRefCount = 0
              rw [hrc3]
          · show T2.nTried + 1 = s.nTried
            rw [hT2d, clearNew_nTried]
            show R.nTried - 1 + 1 = s.nTried
            rw [r3]
            omega
  · intro hnone
    have hnoneR : R.vvTried KB KP = none := by
      rw [hKBd, hKPd, hKBd, r4, r5]
      exact hnone
    rw [hnoneR]
    dsimp only
    rw [r11]
    dsimp only
    show R.nTried + 1 = s.nTried + 1
    rw [r3]

set_option maxRecDepth 40000 in
theorem makeTried_evicts_witness :
    sAdd.vvTried (infoA.toCService.GetTriedBucket sAdd.nKey)
      (infoA.toCService.GetBucketPosition sAdd.nKey false
        (infoA.toCService.GetTriedBucket sAdd.nKey)) = none ∧
    (MakeTried sAdd 0).nTried = sAdd.nTried + 1 := by
  have h := makeTried_evicts (add_inv (inv_clear 0) addrA srcN 0 100000 0)
    (show sAdd.mapInfo 0 = some infoA from by decide)
    (show infoA.fInTried = false from by decide)
  have hnone : sAdd.vvTried (infoA.toCService.GetTriedBucket sAdd.nKey)
      (infoA.toCService.GetBucketPosition sAdd.nKey false
        (infoA.toCService.GetTriedBucket sAdd.nKey)) = none := by decide
  exact ⟨hnone, h.2 hnone⟩

-- Swapping two in-range positions of a list (by a pair of `set`s, as
-- `SwapRandom` does) yields a permutation of the list.
theorem cons_set_perm : ∀ (t : List Nat) (k : Nat) (a : Nat), k < t.length →
    (t.getD k 0 :: t.set k a).Perm (a :: t) := by
  intro t
  induction t with
  | nil =>
    intro k a hk
    simp at hk
  | cons b t2 ih =>
    intro k a hk
    cases k with
    | zero =>
      exact List.Perm.swap a b t2
    | succ m =>
      exact ((List.Perm.swap b (t2.getD m 0) (t2.set m a)).trans
        ((ih m a (Nat.lt_of_succ_lt_succ hk)).cons b)).trans (List.Perm.swap a b t2)

theorem set_set_perm : ∀ (l : List Nat) (i j : Nat), i < l.length → j < l.length →
    ((l.set i (l.getD j 0)).set j (l.getD i 0)).Perm l := by
  intro l
  induction l with
  | nil =>
    intro i j hi _
    simp at hi
  | cons a t ih =>
    intro i j hi hj
    cases i with
    | zero =>
      cases j with
      | zero => exact List.Perm.refl _
      | succ k => exact cons_set_perm t k a (Nat.lt_of_succ_lt_succ hj)
    | succ m =>
      cases j with
      | zero => exact cons_set_perm t m a (Nat.lt_of_succ_lt_succ hi)
      | succ k =>
        exact (ih m k (Nat.lt_of_succ_lt_succ hi) (Nat.lt_of_succ_lt_succ hj)).cons a

theorem swapRandom_perm (s : AddrMan) (i j : Nat) (hi : i < s.vRandom.length)
    (hj : j < s.vRandom.length) : (SwapRandom s i j).vRandom.Perm s.vRandom := by
  unfold SwapRandom
  split
  · exact List.Perm.refl _
  · dsimp only
    exact set_set_perm s.vRandom i j hi hj

-- Records that agree outside the positional field are terrible at exactly
-- the same times.
theorem isTerrible_stripPos {a b : CAddrInfo} (h : stripPos b = stripPos a) (nNow : Int) :
    b.IsTerrible nNow = a.IsTerrible nNow := by
  have h1 : b.nLastTry = a.nLastTry := congrArg (fun x => x.nLastTry) h
  have h2 : b.nTime = a.nTime := congrArg (fun x => x.nTime) h
  have h3 : b.nLastSuccess = a.nLastSuccess := congrArg (fun x => x.nLastSuccess) h
  have h4 : b.nAttempts = a.nAttempts := congrArg (fun x => x.nAttempts) h
  unfold CAddrInfo.IsTerrible
  rw [h1, h2, h3, h4]

/-- The facts maintained by the `GetAddr_` loop: the state keeps its
length-`vRandom` a permutation of the original, every index and table and
every record's non-positional fields unchanged; the emitted list stays
within the budget and only ever holds addresses of records of the store
that were not terrible. -/
def GetAddrAccOk (s : AddrMan) (nNodes : Nat) (nNow : Int)
    (acc : List CAddress × AddrMan) : Prop :=
  acc.2.vRandom.length = s.vRandom.length ∧
  acc.2.vRandom.Perm s.vRandom ∧
  acc.2.mapAddr = s.mapAddr ∧
  (∀ k, (acc.2.mapInfo k).map stripPos = (s.mapInfo k).map stripPos) ∧
  acc.2.vvNew = s.vvNew ∧
  acc.2.vvTried = s.vvTried ∧
  acc.2.nNew = s.nNew ∧
  acc.2.nTried = s.nTried ∧
  acc.1.length ≤ nNodes ∧
  (∀ a ∈ acc.1, ∃ id info, s.mapInfo id = some info ∧ info.toCAddress = a ∧
    info.IsTerrible nNow = false)

theorem getAddrStep_spec (s : AddrMan) (nNodes : Nat) (nNow : Int) (draws : Nat → Nat) :
    ∀ l : List Nat, (∀ x ∈ l, x < s.vRandom.length) →
    ∀ acc : List CAddress × AddrMan, GetAddrAccOk s nNodes nNow acc →
    GetAddrAccOk s nNodes nNow (l.foldl (fun (acc : List CAddress × AddrMan) n =>
      if nNodes ≤ acc.1.length then acc
      else
        let t := acc.2
        let nRndPos := draws n % (t.vRandom.length - n) + n
        let t1 := SwapRandom t n nRndPos
        match t1.mapInfo (t1.vRandom.getD n 0) with
        | none => (acc.1, t1)
        | some ai =>
          if ai.IsTerrible nNow = false then (acc.1 ++ [ai.toCAddress], t1)
          else (acc.1, t1)) acc) := by
  intro l
  induction l with
  | nil =>
    intro _ acc hacc
    exact hacc
  | cons x xs ih =>
    intro hl acc hacc
    rw [List.foldl_cons]
    refine ih (fun y hy => hl y (List.mem_cons_of_mem _ hy)) _ ?_
    by_cases hb : nNodes ≤ acc.1.length
    · rw [if_pos hb]
      exact hacc
    · rw [if_neg hb]
      dsimp only
      obtain ⟨q1, q2, q3, q4, q5, q6, q7, q8, q9, q10⟩ := hacc
      have hx : x < s.vRandom.length := hl x (List.mem_cons_self x xs)
      have hi : x < acc.2.vRandom.length := by
        rw [q1]
        exact hx
      have hj : draws x % (acc.2.vRandom.length - x) + x < acc.2.vRandom.length := by
        rw [q1]
        have hm : draws x % (s.vRandom.length - x) < s.vRandom.length - x :=
          Nat.mod_lt _ (by omega)
        omega
      set t1 := SwapRandom acc.2 x (draws x % (acc.2.vRandom.length - x) + x) with ht1
      have p1 : t1.vRandom.length = s.vRandom.length := by
        rw [ht1, swapRandom_length]
        exact q1
      have p2 : t1.vRandom.Perm s.vRandom := (swapRandom_perm acc.2 x _ hi hj).trans q2
      have p3 : t1.mapAddr = s.mapAddr := by
        rw [ht1, swapRandom_mapAddr]
        exact q3
      have p4 : ∀ k, (t1.mapInfo k).map stripPos = (s.mapInfo k).map stripPos := by
        intro k
        rw [ht1, swapRandom_strip]
        exact q4 k
      have p5 : t1.vvNew = s.vvNew := by
        rw [ht1, swapRandom_vvNew]
        exact q5
      have p6 : t1.vvTried = s.vvTried := by
        rw [ht1, swapRandom_vvTried]
        exact q6
      have p7 : t1.nNew = s.nNew := by
        rw [ht1, (swapRandom_misc ..).2.1]
        exact q7
      have p8 : t1.nTried = s.nTried := by
        rw [ht1, (swapRandom_misc ..).2.2.1]
        exact q8
      split
      · exact ⟨p1, p2, p3, p4, p5, p6, p7, p8, le_of_lt (lt_of_not_le hb), q10⟩
      · rename_i ai heq
        split
        · rename_i hterr
          refine ⟨p1, p2, p3, p4, p5, p6, p7, p8,
            by show (acc.1 ++ [ai.toCAddress]).length ≤ nNodes; simp; omega, ?_⟩
          intro a ha
          rcases List.mem_append.mp ha with h | h
          · exact q10 a h
          · have hstr := p4 (t1.vRandom.getD x 0)
            rw [heq] at hstr
            rcases hsm : s.mapInfo (t1.vRandom.getD x 0) with _ | info0
            · rw [hsm] at hstr
              cases hstr
            · rw [hsm] at hstr
              have hstrip : stripPos ai = stripPos info0 := Option.some.inj hstr
              refine ⟨t1.vRandom.getD x 0, info0, hsm, ?_, ?_⟩
              · rw [List.mem_singleton.mp h]
                exact (congrArg (fun z => z.toCAddress) hstrip).symm
              · exact (isTerrible_stripPos hstrip.symm nNow).trans hterr
        · exact ⟨p1, p2, p3, p4, p5, p6, p7, p8, le_of_lt (lt_of_not_le hb), q10⟩

/-- C7 (amended): `GetAddr_` returns at most `nNodes` addresses, where
`nNodes` is the random vector's length, scaled by `max_pct` percent when
`max_pct` is nonzero and capped at `max_addresses` when `max_addresses` is
nonzero (a zero value turns the corresponding limit off, it does not force
an empty answer); every returned address belongs to a record of the store
that is not terrible at the time of the call; and the call only permutes
the random-order vector, leaving both index maps, both bucket tables, the
counters and every record's non-positional fields unchanged. -/
theorem getAddr_spec (s : AddrMan) (ma mp : Nat) (nNow : Int) (draws : Nat → Nat) :
    (GetAddr_ s ma mp nNow draws).1.length ≤
      (if ma ≠ 0 then
        min (if mp ≠ 0 then mp * s.vRandom.length / 100 else s.vRandom.length) ma
      else if mp ≠ 0 then mp * s.vRandom.length / 100 else s.vRandom.length) ∧
    (∀ a ∈ (GetAddr_ s ma mp nNow draws).1, ∃ id info,
      s.mapInfo id = some info ∧ info.toCAddress = a ∧ info.IsTerrible nNow = false) ∧
    (GetAddr_ s ma mp nNow draws).2.vRandom.Perm s.vRandom ∧
    (GetAddr_ s ma mp nNow draws).2.mapAddr = s.mapAddr ∧
    (∀ k, ((GetAddr_ s ma mp nNow draws).2.mapInfo k).map stripPos
      = (s.mapInfo k).map stripPos) ∧
    (GetAddr_ s ma mp nNow draws).2.vvNew = s.vvNew ∧
    (GetAddr_ s ma mp nNow draws).2.vvTried = s.vvTried ∧
    (GetAddr_ s ma mp nNow draws).2.nNew = s.nNew ∧
    (GetAddr_ s ma mp nNow draws).2.nTried = s.nTried := by
  have h := getAddrStep_spec s
    (if ma ≠ 0 then
      min (if mp ≠ 0 then mp * s.vRandom.length / 100 else s.vRandom.length) ma
    else if mp ≠ 0 then mp * s.vRandom.length / 100 else s.vRandom.length) nNow draws
    (List.range s.vRandom.length) (fun y hy => List.mem_range.mp hy) ([], s)
    ⟨rfl, List.Perm.refl _, rfl, fun _ => rfl, rfl, rfl, rfl, rfl, Nat.zero_le _,
      fun a ha => absurd ha (List.not_mem_nil a)⟩
  obtain ⟨w1, w2, w3, w4, w5, w6, w7, w8, w9, w10⟩ := h
  unfold GetAddr_
  dsimp only
  exact ⟨w9, w10, w2, w3, w4, w5, w6, w7, w8⟩

/-- C7 (counterexample): the claim's bound `min(max_addresses, max_pct
percent of the vector length)` is wrong when a limit argument is zero: the
code treats 0 as "no limit", so on a one-record store a call with
`max_addresses = 5, max_pct = 0` returns one address although the claimed
bound is `min 5 (0 percent of 1) = 0`. -/
theorem getAddr_bound_cex :
    min 5 (0 * sAdd.vRandom.length / 100) <
      (GetAddr_ sAdd 5 0 100000 (fun _ => 0)).1.length := by decide
